import Mathlib

/-!
# MarlinPandora track creator (src/TrackCreator.cc)

A shallow embedding of the track creator: vertex relationship extraction,
hit-count selection, helix fitting, calorimeter projection, the reach
classifier and the PFO-usability classifier.

Modelling conventions

* A C++ pointer to a track is a natural number (its address); the three
  membership sets are finite sets of addresses, the identity map is an
  association list keyed by address in which an insertion never replaces
  an existing entry (the behaviour of std::map::insert).
* float and double values are rationals.  Where the source stores a double
  in a float (the hit coordinates, the static tanLambdaFtd) the value goes
  through toFloat, the conversion to single precision, which is passed in
  with the elementary functions (sqrt, cos, sin, acos) as an arbitrary
  function; the rounding of the float arithmetic itself is not modelled.
  A division whose divisor is not guarded against zero gives a FloatValue:
  a number, an infinity or NaN, compared as floating-point values are.
  The dimensions of the main tracker and the field are the values of the
  float statics of the source.
* int values are unbounded integers.
* Reading a vector past its end, and dereferencing the end iterator, is
  undefined in C++; the model returns the fault undefinedBehaviour there.
  C++ exceptions are the other faults.
* Code that lives outside the file (the helix and cluster-shape library,
  the Pandora API, the particle table) enters as a parameter.
-/

namespace MarlinPandora

/-- Status codes of the Pandora API: the two named in the source, the one carried by the
exception of Get() on an unset input value, and any other. -/
inductive StatusCode where
  | STATUS_CODE_SUCCESS
  | STATUS_CODE_INVALID_PARAMETER
  | STATUS_CODE_NOT_INITIALIZED
  | STATUS_CODE_OTHER (code : Nat)
deriving DecidableEq, Repr

/-- Abnormal outcomes: a thrown StatusCodeException with its code, and C++ undefined
behaviour. -/
inductive Fault where
  | statusCodeException (code : StatusCode)
  | undefinedBehaviour
deriving DecidableEq, Repr

/-- A tracker hit, reduced to its position (TrackerHit::getPosition). -/
structure TrackerHit where
  x : ℚ
  y : ℚ
  z : ℚ
deriving DecidableEq

/-- An LCIO track: its address and what the getters return. -/
structure Track where
  addr : Nat
  d0 : ℚ
  z0 : ℚ
  phi : ℚ
  omega : ℚ
  tanLambda : ℚ
  hits : List TrackerHit
deriving DecidableEq

/-- A vertex with its associated reconstructed particle: getType() and getTracks(). -/
structure Vertex where
  pdgType : Int
  tracks : List Track
deriving DecidableEq

/-- The event: getCollection by name; none stands for the exception thrown
when the collection is not available. -/
structure LCEvent where
  vertexCollection : String → Option (List Vertex)
  trackCollection : String → Option (List Track)

/-- The particle codes named in the source and the mass lookup
(Pandora/PdgTable.h is not part of the file, so the table is a parameter). -/
structure PdgTable where
  UNKNOWN : Int
  PHOTON : Int
  E_MINUS : Int
  E_PLUS : Int
  MU_MINUS : Int
  MU_PLUS : Int
  PI_PLUS : Int
  PI_MINUS : Int
  K_PLUS : Int
  K_MINUS : Int
  K_SHORT : Int
  LAMBDA : Int
  LAMBDA_BAR : Int
  PROTON : Int
  PROTON_BAR : Int
  SIGMA_PLUS : Int
  SIGMA_MINUS : Int
  HYPERON_MINUS : Int
  HYPERON_MINUS_BAR : Int
  GetParticleMass : Int → ℚ

/-- The m_settings members read by the source. -/
structure Settings where
  m_kinkVertexCollections : List String
  m_prongSplitVertexCollections : List String
  m_v0VertexCollections : List String
  m_trackCollections : List String
  m_shouldFormTrackRelationships : Int
  m_minTrackHits : Int
  m_minFtdTrackHits : Int
  m_maxTrackHits : Int
  m_nHitsForHelixFits : Int
  m_useEndTrackHelixForECalProjection : Int
  m_d0TrackCut : ℚ
  m_z0TrackCut : ℚ
  m_usingNonVertexTracks : Int
  m_usingUnmatchedNonVertexTracks : Int
  m_usingUnmatchedVertexTracks : Int
  m_unmatchedVertexTrackMaxEnergy : ℚ
  m_d0UnmatchedVertexTrackCut : ℚ
  m_z0UnmatchedVertexTrackCut : ℚ
  m_zCutForNonVertexTracks : ℚ
  m_reachesECalNTpcHits : Int
  m_reachesECalNFtdHits : Int
  m_reachesECalTpcOuterDistance : ℚ
  m_reachesECalTpcZMaxDistance : ℚ
  m_reachesECalFtdZMaxDistance : ℚ
  m_curvatureToMomentumFactor : ℚ
  m_maxTpcInnerRDistance : ℚ
  m_minTrackECalDistanceFromIp : ℚ

/-- A relationship declaration passed to the Pandora API. -/
inductive Relationship where
  | parentDaughter (parent daughter : Nat)
  | sibling (first second : Nat)
deriving DecidableEq, Repr

/-- The relationship calls of the Pandora API, as a function of the declarations accepted
so far and the one requested; it answers with a status code. -/
abbrev RelationshipApi := List Relationship → Relationship → StatusCode

/-- A pandora::CartesianVector. -/
structure CartesianVector where
  x : ℚ
  y : ℚ
  z : ℚ
deriving DecidableEq

/-- A pandora::TrackState: position and momentum. -/
structure TrackState where
  position : CartesianVector
  momentum : CartesianVector
deriving DecidableEq

/-- PandoraApi::Track::Parameters: every member is a Pandora input value, unset (none)
until it is assigned. -/
structure TrackParameters where
  m_d0 : Option ℚ
  m_z0 : Option ℚ
  m_pParentAddress : Option Nat
  m_particleId : Option Int
  m_mass : Option ℚ
  m_charge : Option Int
  m_momentumAtDca : Option CartesianVector
  m_trackStateAtStart : Option TrackState
  m_trackStateAtEnd : Option TrackState
  m_trackStateAtECal : Option TrackState
  m_reachesECal : Option Bool
  m_canFormPfo : Option Bool
  m_canFormClusterlessPfo : Option Bool
deriving DecidableEq

/-- The call PandoraApi::Track::Create, as a function of the tracks created so far and the
parameters passed; it answers with a status code. -/
abbrev TrackApi := List TrackParameters → TrackParameters → StatusCode

/-- The elementary float functions of the C++ library used by the source, and toFloat, the
conversion of a double to a float (static_cast<float>, or a float initialised from a double). -/
structure FloatOps where
  sqrt : ℚ → ℚ
  cos : ℚ → ℚ
  sin : ℚ → ℚ
  acos : ℚ → ℚ
  toFloat : ℚ → ℚ

/-- The detector description read from GEAR; every parameter section the source asks for is
present. -/
structure Geometry where
  tpcInnerR : ℚ
  tpcOuterR : ℚ
  tpcZmax : ℚ
  ftdInnerRadii : List ℚ
  ftdOuterRadii : List ℚ
  ftdZPositions : List ℚ
  etdZPositions : List ℚ
  setInnerRadii : List ℚ
  bField : ℚ
  phi0 : ℚ
  ecalSymmetryOrder : Int
  rOfBarrel : ℚ
  zOfEndCap : ℚ

/-- A HelixClass object, seen through the member functions the source calls. Each
intersection routine takes its arguments and the reference point and returns the time and the
point it writes. -/
structure HelixClass where
  getMomentum : CartesianVector
  getReferencePoint : CartesianVector
  getPointInZ : ℚ → CartesianVector → ℚ × CartesianVector
  getPointInXY : ℚ → ℚ → ℚ → ℚ → CartesianVector → ℚ × CartesianVector
  getPointOnCircle : ℚ → CartesianVector → ℚ × CartesianVector
  getExtrapolatedMomentum : CartesianVector → CartesianVector

/-- The five parameters written by ClusterShapes::FitHelix. -/
structure FitParameters where
  par0 : ℚ
  par1 : ℚ
  par2 : ℚ
  par3 : ℚ
  par4 : ℚ
deriving DecidableEq

/-- The helix and cluster-shape library (HelixClass.h, ClusterShapes.h), which is not part of
the file: the two initialisers and the helix fit of a list of hit positions. -/
structure HelixLibrary where
  Initialize_Canonical : ℚ → ℚ → ℚ → ℚ → ℚ → ℚ → HelixClass
  Initialize_BZ : FitParameters → ℚ → Int → ℚ → HelixClass
  FitHelix : List TrackerHit → FitParameters

/-- The identity map std::map<Track*, int>, in insertion order. -/
abbrev TrackToPidMap := List (Nat × Int)

/-- The mutable state of a run: the members of the track creator, the function-local static
isFirstPass of TrackReachesECAL, what the Pandora instance has accepted, and the exceptions
caught and reported by CreateTracks. -/
structure TrackCreator where
  m_parentTrackList : Finset Nat
  m_daughterTrackList : Finset Nat
  m_v0TrackList : Finset Nat
  m_trackToPidMap : TrackToPidMap
  m_trackVector : List Nat
  isFirstPass : Bool
  pandoraRelationships : List Relationship
  pandoraTracks : List TrackParameters
  reportedFailures : List Fault
deriving DecidableEq

/-- The largest finite float, std::numeric_limits<float>::max(). -/
def FLT_MAX : ℚ := 340282346638528859811704183484516925440

/-- The unchecked read v[i] of a std::vector<double>. -/
def vecAt (v : List ℚ) (i : Nat) : Except Fault ℚ :=
  match v[i]? with
  | some a => Except.ok a
  | none => Except.error Fault.undefinedBehaviour

/-- The expression *(std::min_element(v.begin(), v.end())). -/
def minElement : List ℚ → Except Fault ℚ
  | [] => Except.error Fault.undefinedBehaviour
  | a :: rest => Except.ok (rest.foldl (fun m b => if b < m then b else m) a)

/-- The member Get() of a Pandora input value. -/
def inputGet {α : Type} : Option α → Except Fault α
  | some a => Except.ok a
  | none => Except.error (Fault.statusCodeException StatusCode.STATUS_CODE_NOT_INITIALIZED)

/-- The value of a floating-point quotient: a number, or one of the special values that the
division gives when the divisor is zero. -/
inductive FloatValue where
  | finite (q : ℚ)
  | posInf
  | negInf
  | nan
deriving DecidableEq

/-- The floating-point quotient a / b: with a zero divisor (+0) it is the infinity of the sign
of a, and NaN for 0 / 0. -/
def floatDiv (a b : ℚ) : FloatValue :=
  if b = 0 then
    if a > 0 then FloatValue.posInf else if a < 0 then FloatValue.negInf else FloatValue.nan
  else FloatValue.finite (a / b)

/-- The function std::fabs on a quotient. -/
def FloatValue.abs : FloatValue → FloatValue
  | FloatValue.finite q => FloatValue.finite |q|
  | FloatValue.posInf => FloatValue.posInf
  | FloatValue.negInf => FloatValue.posInf
  | FloatValue.nan => FloatValue.nan

/-- The product c * v of a number and a quotient. -/
def FloatValue.scale (v : FloatValue) (c : ℚ) : FloatValue :=
  match v with
  | FloatValue.finite q => FloatValue.finite (c * q)
  | FloatValue.posInf =>
    if c > 0 then FloatValue.posInf else if c < 0 then FloatValue.negInf else FloatValue.nan
  | FloatValue.negInf =>
    if c > 0 then FloatValue.negInf else if c < 0 then FloatValue.posInf else FloatValue.nan
  | FloatValue.nan => FloatValue.nan

/-- The sum v + c of a quotient and a number. -/
def FloatValue.add (v : FloatValue) (c : ℚ) : FloatValue :=
  match v with
  | FloatValue.finite q => FloatValue.finite (q + c)
  | other => other

/-- The conversion of a double quotient to a float. -/
def FloatValue.narrow (fo : FloatOps) : FloatValue → FloatValue
  | FloatValue.finite q => FloatValue.finite (fo.toFloat q)
  | other => other

/-- The comparison a < b of floating-point values; every comparison with NaN is false. -/
def FloatValue.lt : FloatValue → FloatValue → Bool
  | FloatValue.finite a, FloatValue.finite b => decide (a < b)
  | FloatValue.finite _, FloatValue.posInf => true
  | FloatValue.negInf, FloatValue.finite _ => true
  | FloatValue.negInf, FloatValue.posInf => true
  | _, _ => false

/-- The conversion static_cast<int> of a float: truncation towards zero. -/
def truncToInt (q : ℚ) : Int := q.num.tdiv q.den

/-- CartesianVector::GetMagnitudeSquared. -/
def CartesianVector.GetMagnitudeSquared (v : CartesianVector) : ℚ :=
  v.x * v.x + v.y * v.y + v.z * v.z

/-- CartesianVector::GetMagnitude. -/
def CartesianVector.GetMagnitude (fo : FloatOps) (v : CartesianVector) : ℚ :=
  fo.sqrt (v.x * v.x + v.y * v.y + v.z * v.z)

/-- A parameter block with no member set, as default-constructed. -/
def TrackParameters.unset : TrackParameters :=
  { m_d0 := none, m_z0 := none, m_pParentAddress := none, m_particleId := none, m_mass := none,
    m_charge := none, m_momentumAtDca := none, m_trackStateAtStart := none,
    m_trackStateAtEnd := none, m_trackStateAtECal := none, m_reachesECal := none,
    m_canFormPfo := none, m_canFormClusterlessPfo := none }

namespace TrackCreator

/-- The state at the start of a run: empty sets, empty map, nothing declared or created. -/
def initial : TrackCreator :=
  { m_parentTrackList := ∅, m_daughterTrackList := ∅, m_v0TrackList := ∅,
    m_trackToPidMap := [], m_trackVector := [], isFirstPass := true,
    pandoraRelationships := [], pandoraTracks := [], reportedFailures := [] }

/-- The lookup m_trackToPidMap.find(pTrack). -/
def pidFind (m : TrackToPidMap) (addr : Nat) : Option Int :=
  m.lookup addr

/-- The call m_trackToPidMap.insert(value_type(pTrack, code)): no effect when the key is present. -/
def pidInsert (m : TrackToPidMap) (addr : Nat) (code : Int) : TrackToPidMap :=
  match pidFind m addr with
  | some _ => m
  | none => m ++ [(addr, code)]

/-- Modelled from the spec: IsParent is declared in TrackCreator.h, which is not among the
sources; a trajectory is a parent when it belongs to the parent membership set. -/
def IsParent (tc : TrackCreator) (t : Track) : Bool :=
  decide (t.addr ∈ tc.m_parentTrackList)

/-- Modelled from the spec: IsDaughter is declared in TrackCreator.h, which is not among the
sources; a trajectory is a daughter when it belongs to the daughter membership set. -/
def IsDaughter (tc : TrackCreator) (t : Track) : Bool :=
  decide (t.addr ∈ tc.m_daughterTrackList)

/-- Modelled from the spec: IsV0 is declared in TrackCreator.h, which is not among the
sources; a trajectory is a V0 member when it belongs to the V0 membership set. -/
def IsV0 (tc : TrackCreator) (t : Track) : Bool :=
  decide (t.addr ∈ tc.m_v0TrackList)

/-- The loop of IsConflictingRelationship: true at the first listed track found in a set. -/
def IsConflictingRelationship (tc : TrackCreator) : List Track → Bool
  | [] => false
  | t :: rest =>
    if tc.IsDaughter t || tc.IsParent t || tc.IsV0 t then true
    else tc.IsConflictingRelationship rest

/-- The inner jTrack loop: one API call per later track, left at the first call that
does not succeed (PANDORA_RETURN_RESULT_IF). Returns the status and the accepted declarations. -/
def declareRelationships (api : RelationshipApi) (mk : Nat → Relationship) :
    List Track → List Relationship → StatusCode × List Relationship
  | [], declared => (StatusCode.STATUS_CODE_SUCCESS, declared)
  | t :: rest, declared =>
    if api declared (mk t.addr) = StatusCode.STATUS_CODE_SUCCESS then
      declareRelationships api mk rest (declared ++ [mk t.addr])
    else (api declared (mk t.addr), declared)

/-- The switch on the vertex code for a kink daughter (iTrack > 0); the case labels are
tried in source order. -/
def kinkDaughterPdgCode (pdg : PdgTable) (vertexPdgCode : Int) (omega : ℚ) : Int :=
  if vertexPdgCode = pdg.PI_PLUS ∨ vertexPdgCode = pdg.K_PLUS then pdg.MU_PLUS
  else if vertexPdgCode = pdg.PI_MINUS ∨ vertexPdgCode = pdg.K_MINUS then pdg.MU_MINUS
  else if vertexPdgCode = pdg.HYPERON_MINUS_BAR ∨ vertexPdgCode = pdg.SIGMA_PLUS then pdg.PI_PLUS
  else if vertexPdgCode = pdg.SIGMA_MINUS ∨ vertexPdgCode = pdg.HYPERON_MINUS then pdg.PI_PLUS
  else if omega > 0 then pdg.PI_PLUS else pdg.PI_MINUS

/-- The switch on the vertex code for a V0 track; the case labels are tried in source order. -/
def v0TrackPdgCode (pdg : PdgTable) (vertexPdgCode : Int) (omega : ℚ) : Int :=
  if vertexPdgCode = pdg.PHOTON then (if omega > 0 then pdg.E_PLUS else pdg.E_MINUS)
  else if vertexPdgCode = pdg.LAMBDA then (if omega > 0 then pdg.PROTON else pdg.PI_MINUS)
  else if vertexPdgCode = pdg.LAMBDA_BAR then (if omega > 0 then pdg.PI_PLUS else pdg.PROTON_BAR)
  else if vertexPdgCode = pdg.K_SHORT then (if omega > 0 then pdg.PI_PLUS else pdg.PI_MINUS)
  else (if omega > 0 then pdg.PI_PLUS else pdg.PI_MINUS)

/-- The membership insertion made for the track at index iTrack of a kink or prong/split
vertex: the parent set at index 0, the daughter set otherwise. -/
def insertParentOrDaughter (iTrack : Nat) (t : Track) (tc : TrackCreator) : TrackCreator :=
  if iTrack = 0 then { tc with m_parentTrackList := insert t.addr tc.m_parentTrackList }
  else { tc with m_daughterTrackList := insert t.addr tc.m_daughterTrackList }

/-- The insertions of ExtractKinks for the track at index iTrack: membership set, then the
identity (the vertex code at index 0, the switch otherwise). -/
def registerKinkTrack (pdg : PdgTable) (vertexPdgCode : Int) (iTrack : Nat) (t : Track)
    (tc : TrackCreator) : TrackCreator :=
  let tc1 := insertParentOrDaughter iTrack t tc
  let trackPdgCode : Int :=
    if iTrack = 0 then vertexPdgCode else kinkDaughterPdgCode pdg vertexPdgCode t.omega
  { tc1 with m_trackToPidMap := pidInsert tc1.m_trackToPidMap t.addr trackPdgCode }

/-- The insertions of ExtractV0s for one track: the V0 set, then the identity. -/
def registerV0Track (pdg : PdgTable) (vertexPdgCode : Int) (t : Track)
    (tc : TrackCreator) : TrackCreator :=
  let tc1 : TrackCreator := { tc with m_v0TrackList := insert t.addr tc.m_v0TrackList }
  { tc1 with m_trackToPidMap :=
      pidInsert tc1.m_trackToPidMap t.addr (v0TrackPdgCode pdg vertexPdgCode t.omega) }

/-- The relationship declared from the track at index iTrack of a kink or prong/split vertex to
a later track: parent-daughter from index 0, sibling otherwise. -/
def parentOrSiblingLink (iTrack : Nat) (t : Track) : Nat → Relationship :=
  if iTrack = 0 then Relationship.parentDaughter t.addr else Relationship.sibling t.addr

/-- The iTrack loop of ExtractKinks over one conflict-free vertex, from index iTrack on:
the argument list is trackVec from iTrack to the end. -/
def kinkTrackLoop (pdg : PdgTable) (s : Settings) (api : RelationshipApi) (vertexPdgCode : Int) :
    Nat → List Track → TrackCreator → StatusCode × TrackCreator
  | _, [], tc => (StatusCode.STATUS_CODE_SUCCESS, tc)
  | iTrack, t :: rest, tc =>
    let tc1 := registerKinkTrack pdg vertexPdgCode iTrack t tc
    if s.m_shouldFormTrackRelationships = 0 then
      kinkTrackLoop pdg s api vertexPdgCode (iTrack + 1) rest tc1
    else
      let r := declareRelationships api (parentOrSiblingLink iTrack t) rest tc1.pandoraRelationships
      if r.1 = StatusCode.STATUS_CODE_SUCCESS then
        kinkTrackLoop pdg s api vertexPdgCode (iTrack + 1) rest { tc1 with pandoraRelationships := r.2 }
      else (r.1, { tc1 with pandoraRelationships := r.2 })

/-- The iTrack loop of ExtractProngsAndSplits over one conflict-free vertex. -/
def prongSplitTrackLoop (s : Settings) (api : RelationshipApi) :
    Nat → List Track → TrackCreator → StatusCode × TrackCreator
  | _, [], tc => (StatusCode.STATUS_CODE_SUCCESS, tc)
  | iTrack, t :: rest, tc =>
    let tc1 := insertParentOrDaughter iTrack t tc
    if s.m_shouldFormTrackRelationships = 0 then
      prongSplitTrackLoop s api (iTrack + 1) rest tc1
    else
      let r := declareRelationships api (parentOrSiblingLink iTrack t) rest tc1.pandoraRelationships
      if r.1 = StatusCode.STATUS_CODE_SUCCESS then
        prongSplitTrackLoop s api (iTrack + 1) rest { tc1 with pandoraRelationships := r.2 }
      else (r.1, { tc1 with pandoraRelationships := r.2 })

/-- The iTrack loop of ExtractV0s over one conflict-free vertex. -/
def v0TrackLoop (pdg : PdgTable) (s : Settings) (api : RelationshipApi) (vertexPdgCode : Int) :
    List Track → TrackCreator → StatusCode × TrackCreator
  | [], tc => (StatusCode.STATUS_CODE_SUCCESS, tc)
  | t :: rest, tc =>
    let tc1 := registerV0Track pdg vertexPdgCode t tc
    if s.m_shouldFormTrackRelationships = 0 then
      v0TrackLoop pdg s api vertexPdgCode rest tc1
    else
      let r := declareRelationships api (Relationship.sibling t.addr) rest tc1.pandoraRelationships
      if r.1 = StatusCode.STATUS_CODE_SUCCESS then
        v0TrackLoop pdg s api vertexPdgCode rest { tc1 with pandoraRelationships := r.2 }
      else (r.1, { tc1 with pandoraRelationships := r.2 })

/-- The body of the element loop of ExtractKinks for one vertex. -/
def kinkVertex (pdg : PdgTable) (s : Settings) (api : RelationshipApi)
    (tc : TrackCreator) (v : Vertex) : StatusCode × TrackCreator :=
  if tc.IsConflictingRelationship v.tracks then (StatusCode.STATUS_CODE_SUCCESS, tc)
  else kinkTrackLoop pdg s api v.pdgType 0 v.tracks tc

/-- The body of the element loop of ExtractProngsAndSplits for one vertex. -/
def prongSplitVertex (s : Settings) (api : RelationshipApi)
    (tc : TrackCreator) (v : Vertex) : StatusCode × TrackCreator :=
  if tc.IsConflictingRelationship v.tracks then (StatusCode.STATUS_CODE_SUCCESS, tc)
  else prongSplitTrackLoop s api 0 v.tracks tc

/-- The body of the element loop of ExtractV0s for one vertex. -/
def v0Vertex (pdg : PdgTable) (s : Settings) (api : RelationshipApi)
    (tc : TrackCreator) (v : Vertex) : StatusCode × TrackCreator :=
  if tc.IsConflictingRelationship v.tracks then (StatusCode.STATUS_CODE_SUCCESS, tc)
  else v0TrackLoop pdg s api v.pdgType v.tracks tc

/-- The element loop over one collection; a status other than success leaves the function. -/
def vertexLoop (body : TrackCreator → Vertex → StatusCode × TrackCreator) :
    List Vertex → TrackCreator → StatusCode × TrackCreator
  | [], tc => (StatusCode.STATUS_CODE_SUCCESS, tc)
  | v :: rest, tc =>
    if (body tc v).1 = StatusCode.STATUS_CODE_SUCCESS then vertexLoop body rest (body tc v).2
    else body tc v

/-- The loop over the configured collection names; a collection that cannot be read is
reported and skipped (the outer catch). -/
def collectionLoop (ev : LCEvent) (body : TrackCreator → Vertex → StatusCode × TrackCreator) :
    List String → TrackCreator → StatusCode × TrackCreator
  | [], tc => (StatusCode.STATUS_CODE_SUCCESS, tc)
  | name :: rest, tc =>
    match ev.vertexCollection name with
    | none => collectionLoop ev body rest tc
    | some vertices =>
      if (vertexLoop body vertices tc).1 = StatusCode.STATUS_CODE_SUCCESS then
        collectionLoop ev body rest (vertexLoop body vertices tc).2
      else vertexLoop body vertices tc

/-- TrackCreator::ExtractKinks. -/
def ExtractKinks (pdg : PdgTable) (s : Settings) (api : RelationshipApi) (ev : LCEvent)
    (tc : TrackCreator) : StatusCode × TrackCreator :=
  collectionLoop ev (kinkVertex pdg s api) s.m_kinkVertexCollections tc

/-- TrackCreator::ExtractProngsAndSplits. -/
def ExtractProngsAndSplits (s : Settings) (api : RelationshipApi) (ev : LCEvent)
    (tc : TrackCreator) : StatusCode × TrackCreator :=
  collectionLoop ev (prongSplitVertex s api) s.m_prongSplitVertexCollections tc

/-- TrackCreator::ExtractV0s. -/
def ExtractV0s (pdg : PdgTable) (s : Settings) (api : RelationshipApi) (ev : LCEvent)
    (tc : TrackCreator) : StatusCode × TrackCreator :=
  collectionLoop ev (v0Vertex pdg s api) s.m_v0VertexCollections tc

/-- TrackCreator::CreateTrackAssociations: the three extractions in order, each
left at the first status other than success. -/
def CreateTrackAssociations (pdg : PdgTable) (s : Settings) (api : RelationshipApi) (ev : LCEvent)
    (tc : TrackCreator) : StatusCode × TrackCreator :=
  let r1 := ExtractKinks pdg s api ev tc
  if r1.1 = StatusCode.STATUS_CODE_SUCCESS then
    let r2 := ExtractProngsAndSplits s api ev r1.2
    if r2.1 = StatusCode.STATUS_CODE_SUCCESS then
      let r3 := ExtractV0s pdg s api ev r2.2
      if r3.1 = StatusCode.STATUS_CODE_SUCCESS then (StatusCode.STATUS_CODE_SUCCESS, r3.2)
      else r3
    else r2
  else r1

/-- The search of GetECalProjection for one barrel face i of the polygon: the call to
getPointInXY with the face centre and direction. -/
def barrelFaceProjection (fo : FloatOps) (g : Geometry) (pHelix : HelixClass)
    (referencePoint : CartesianVector) (i : Nat) : ℚ × CartesianVector :=
  let pi := fo.acos (-1)
  let twopi_n := 2 * pi / (g.ecalSymmetryOrder : ℚ)
  let phi := twopi_n * (i : ℚ) + g.phi0
  let xx := g.rOfBarrel * fo.cos phi
  let yy := g.rOfBarrel * fo.sin phi
  let ax := fo.cos (phi + (1 / 2) * pi)
  let ay := fo.sin (phi + (1 / 2) * pi)
  pHelix.getPointInXY xx yy ax ay referencePoint

/-- The comparison made for every barrel candidate: it replaces the current best
(minTime, bestEcalProjection) when its time is smaller. -/
def keepEarlier (best candidate : ℚ × CartesianVector) : ℚ × CartesianVector :=
  if candidate.1 < best.1 then candidate else best

/-- The search part of GetECalProjection: the final (minTime, bestEcalProjection). -/
def ecalProjectionSearch (fo : FloatOps) (g : Geometry) (pHelix : HelixClass)
    (referencePoint : CartesianVector) (signPz : Int) : ℚ × CartesianVector :=
  let endcap := pHelix.getPointInZ ((signPz : ℚ) * g.zOfEndCap) referencePoint
  if g.ecalSymmetryOrder > 0 then
    (List.range g.ecalSymmetryOrder.toNat).foldl
      (fun best i => keepEarlier best (barrelFaceProjection fo g pHelix referencePoint i)) endcap
  else
    keepEarlier endcap (pHelix.getPointOnCircle g.rOfBarrel referencePoint)

/-- TrackCreator::GetECalProjection. -/
def GetECalProjection (fo : FloatOps) (g : Geometry) (pHelix : HelixClass)
    (referencePoint : CartesianVector) (signPz : Int) : TrackState :=
  let bestEcalProjection := (ecalProjectionSearch fo g pHelix referencePoint signPz).2
  { position := bestEcalProjection,
    momentum := pHelix.getExtrapolatedMomentum bestEcalProjection }

/-- One run of the inner jz loop of the ordering code in FitTrackHelices: count
compare-and-swap steps on neighbours, from the front. -/
def bubblePass : Nat → List TrackerHit → List TrackerHit
  | 0, l => l
  | _ + 1, [] => []
  | _ + 1, [a] => [a]
  | count + 1, a :: b :: rest =>
    if a.z > b.z then b :: bubblePass count (a :: rest)
    else a :: bubblePass count (b :: rest)

/-- The ordering loops of FitTrackHelices: for iz from 0 to nTrackHits - 2, a pass of
nTrackHits - iz - 1 steps. -/
def orderHits (hits : List TrackerHit) : List TrackerHit :=
  (List.range (hits.length - 1)).foldl
    (fun l iz => bubblePass (hits.length - iz - 1) l) hits

/-- TrackCreator::FitTrackHelices. -/
def FitTrackHelices (fo : FloatOps) (lib : HelixLibrary) (g : Geometry) (s : Settings)
    (pTrack : Track) (trackParameters : TrackParameters) : Except Fault TrackParameters :=
  let pHelixFit := lib.Initialize_Canonical pTrack.phi pTrack.d0 pTrack.z0 pTrack.omega
    pTrack.tanLambda g.bField
  let tp1 : TrackParameters := { trackParameters with m_momentumAtDca := some pHelixFit.getMomentum }
  let nTrackHits : Int := (pTrack.hits.length : Int)
  let nTrackHitsForFit : Int := min s.m_nHitsForHelixFits nTrackHits
  let trackerHitvec := orderHits pTrack.hits
  match trackerHitvec[0]?, trackerHitvec[pTrack.hits.length - 1]? with
  | some first, some last =>
    let zMin := fo.toFloat first.z
    let zMax := fo.toFloat last.z
    let signPz : Int := if |zMin| < |zMax| then 1 else -1
    if nTrackHitsForFit < 0 then Except.error Fault.undefinedBehaviour
    else
      let forwardHits := trackerHitvec.take nTrackHitsForFit.toNat
      let backwardHits := trackerHitvec.reverse.take nTrackHitsForFit.toNat
      let pHelix1 := lib.Initialize_BZ (lib.FitHelix forwardHits) g.bField signPz zMin
      let pHelix2 := lib.Initialize_BZ (lib.FitHelix backwardHits) g.bField signPz zMax
      let pHelixStart := if signPz > 0 then pHelix1 else pHelix2
      let pHelixEnd := if signPz > 0 then pHelix2 else pHelix1
      let pHelixToProject :=
        if s.m_useEndTrackHelixForECalProjection ≠ 0 then pHelixEnd else pHelixFit
      Except.ok { tp1 with
        m_trackStateAtStart := some
          { position := pHelixStart.getReferencePoint, momentum := pHelixStart.getMomentum },
        m_trackStateAtEnd := some
          { position := pHelixEnd.getReferencePoint, momentum := pHelixEnd.getMomentum },
        m_trackStateAtECal := some
          (GetECalProjection fo g pHelixToProject pHelixToProject.getReferencePoint signPz) }
  | _, _ => Except.error Fault.undefinedBehaviour

/-- The first-pass validation of the tracking geometry in TrackReachesECAL. -/
def geometryIsValid (g : Geometry) : Bool :=
  !(g.ftdZPositions.length = 0 || g.etdZPositions.isEmpty || g.setInnerRadii.isEmpty) &&
  !(g.ftdZPositions.length ≠ g.ftdInnerRadii.length ||
    g.ftdZPositions.length ≠ g.ftdOuterRadii.length)

/-- The inner loop of TrackReachesECAL over the forward disks j (given as the list of the
remaining indices): true (break) at the first disk whose annulus and z window hold the hit. The
conditions are read left to right and stop at the first that fails. -/
def hitInFtdLayer (g : Geometry) (s : Settings) (r z : ℚ) : List Nat → Except Fault Bool
  | [] => Except.ok false
  | j :: rest =>
    match vecAt g.ftdInnerRadii j with
    | Except.error e => Except.error e
    | Except.ok ri =>
      if r > ri then
        match vecAt g.ftdOuterRadii j with
        | Except.error e => Except.error e
        | Except.ok ro =>
          if r < ro then
            match vecAt g.ftdZPositions j with
            | Except.error e => Except.error e
            | Except.ok zj =>
              if |z| - s.m_reachesECalFtdZMaxDistance < zj ∧
                  |z| + s.m_reachesECalFtdZMaxDistance > zj then Except.ok true
              else hitInFtdLayer g s r z rest
          else hitInFtdLayer g s r z rest
      else hitInFtdLayer g s r z rest

/-- The local variables of the hit loop of TrackReachesECAL. -/
structure HitInformation where
  hitZMin : ℚ
  hitZMax : ℚ
  hitOuterR : ℚ
  nTpcHits : Int
  nFtdHits : Int
deriving DecidableEq

/-- The body of the hit loop of TrackReachesECAL for one hit. -/
def hitStep (fo : FloatOps) (g : Geometry) (s : Settings) (info : HitInformation)
    (hit : TrackerHit) : Except Fault HitInformation :=
  let x := fo.toFloat hit.x
  let y := fo.toFloat hit.y
  let z := fo.toFloat hit.z
  let r := fo.sqrt (x * x + y * y)
  let info1 : HitInformation :=
    { info with
      hitZMax := if z > info.hitZMax then z else info.hitZMax,
      hitZMin := if z < info.hitZMin then z else info.hitZMin,
      hitOuterR := if r > info.hitOuterR then r else info.hitOuterR }
  if r > g.tpcInnerR then Except.ok { info1 with nTpcHits := info1.nTpcHits + 1 }
  else
    match hitInFtdLayer g s r z (List.range g.ftdZPositions.length) with
    | Except.error e => Except.error e
    | Except.ok true => Except.ok { info1 with nFtdHits := info1.nFtdHits + 1 }
    | Except.ok false => Except.ok info1

/-- The hit loop of TrackReachesECAL. -/
def hitLoop (fo : FloatOps) (g : Geometry) (s : Settings) :
    HitInformation → List TrackerHit → Except Fault HitInformation
  | info, [] => Except.ok info
  | info, hit :: rest =>
    match hitStep fo g s info hit with
    | Except.error e => Except.error e
    | Except.ok info1 => hitLoop fo g s info1 rest

/-- The decision of TrackReachesECAL once the geometry has passed (or skipped) the first-pass
validation: the value assigned to m_reachesECal. -/
def reachDecision (fo : FloatOps) (g : Geometry) (s : Settings) (hits : List TrackerHit)
    (momentum : Option CartesianVector) : Except Fault Bool :=
  match minElement g.etdZPositions with
  | Except.error e => Except.error e
  | Except.ok minEtdZPosition =>
    match minElement g.setInnerRadii with
    | Except.error e => Except.error e
    | Except.ok minSetRadius =>
      match hitLoop fo g s
          { hitZMin := FLT_MAX, hitZMax := -FLT_MAX, hitOuterR := -FLT_MAX,
            nTpcHits := 0, nFtdHits := 0 } hits with
      | Except.error e => Except.error e
      | Except.ok info =>
        if info.hitOuterR > minSetRadius ∨ info.hitZMax > minEtdZPosition then Except.ok true
        else if (info.nTpcHits ≥ s.m_reachesECalNTpcHits ∨ info.nFtdHits ≥ s.m_reachesECalNFtdHits) ∧
            (info.hitOuterR - g.tpcOuterR > s.m_reachesECalTpcOuterDistance ∨
             |info.hitZMax| - g.tpcZmax > s.m_reachesECalTpcZMaxDistance ∨
             |info.hitZMin| - g.tpcZmax > s.m_reachesECalTpcZMaxDistance) then Except.ok true
        else
          match inputGet momentum with
          | Except.error e => Except.error e
          | Except.ok momentumAtDca =>
            let cosTpc :=
              floatDiv g.tpcZmax (fo.sqrt (g.tpcZmax * g.tpcZmax + g.tpcInnerR * g.tpcInnerR))
            let cosAngleAtDca := floatDiv |momentumAtDca.z| (momentumAtDca.GetMagnitude fo)
            let pT := fo.sqrt (momentumAtDca.x * momentumAtDca.x + momentumAtDca.y * momentumAtDca.y)
            if FloatValue.lt cosTpc cosAngleAtDca = true ∨
                pT < s.m_curvatureToMomentumFactor * g.bField * g.tpcOuterR then Except.ok true
            else Except.ok false

/-- The handler catch (...) of TrackReachesECAL: every C++ exception is replaced by the
invalid-parameter exception; undefined behaviour is not an exception. -/
def rethrowInvalidParameter {α : Type} : Except Fault α → Except Fault α
  | Except.ok a => Except.ok a
  | Except.error Fault.undefinedBehaviour => Except.error Fault.undefinedBehaviour
  | Except.error (Fault.statusCodeException _) =>
    Except.error (Fault.statusCodeException StatusCode.STATUS_CODE_INVALID_PARAMETER)

/-- TrackCreator::TrackReachesECAL. The first component is the value of the static
isFirstPass after the call; the second is the exception thrown or the parameters with
m_reachesECal set. -/
def TrackReachesECAL (fo : FloatOps) (g : Geometry) (s : Settings) (isFirstPass : Bool)
    (pTrack : Track) (trackParameters : TrackParameters) : Bool × Except Fault TrackParameters :=
  (false,
    rethrowInvalidParameter
      (if isFirstPass && !geometryIsValid g then
        Except.error (Fault.statusCodeException StatusCode.STATUS_CODE_INVALID_PARAMETER)
       else
        match reachDecision fo g s pTrack.hits trackParameters.m_momentumAtDca with
        | Except.error e => Except.error e
        | Except.ok reaches => Except.ok { trackParameters with m_reachesECal := some reaches }))

/-- TrackCreator::PassesQualityCuts. -/
def PassesQualityCuts (fo : FloatOps) (s : Settings) (trackParameters : TrackParameters) :
    Except Fault Bool :=
  match inputGet trackParameters.m_trackStateAtECal with
  | Except.error e => Except.error e
  | Except.ok stateAtECal =>
    if stateAtECal.position.GetMagnitude fo < s.m_minTrackECalDistanceFromIp then Except.ok false
    else Except.ok true

/-- The hit loop of DefineTrackPfoUsage: the pair (rInner, zMin). -/
def innerHitLoop (fo : FloatOps) : ℚ × ℚ → List TrackerHit → ℚ × ℚ
  | acc, [] => acc
  | acc, hit :: rest =>
    let x := fo.toFloat hit.x
    let y := fo.toFloat hit.y
    let absoluteZ := fo.toFloat |hit.z|
    let r := fo.sqrt (x * x + y * y)
    innerHitLoop fo
      (if r < acc.1 then r else acc.1, if absoluteZ < acc.2 then absoluteZ else acc.2) rest

/-- The two flags computed by DefineTrackPfoUsage once the quality cuts are passed. -/
def pfoUsageFlags (fo : FloatOps) (g : Geometry) (s : Settings) (tc : TrackCreator)
    (pTrack : Track) (trackParameters : TrackParameters) (rInner zMin : ℚ) :
    Except Fault (Bool × Bool) :=
  let d0 := |pTrack.d0|
  let z0 := |pTrack.z0|
  match inputGet trackParameters.m_momentumAtDca with
  | Except.error e => Except.error e
  | Except.ok momentumAtDca =>
    let pT := fo.sqrt (momentumAtDca.x * momentumAtDca.x + momentumAtDca.y * momentumAtDca.y)
    let zCutForNonVertexTracks : FloatValue :=
      ((floatDiv momentumAtDca.z pT).abs.scale g.tpcInnerR).add s.m_zCutForNonVertexTracks
    let passRzQualityCuts : Bool :=
      FloatValue.lt (FloatValue.finite zMin) zCutForNonVertexTracks &&
        decide (rInner < g.tpcInnerR + s.m_maxTpcInnerRDistance)
    let isV0 := tc.IsV0 pTrack
    let isDaughter := tc.IsDaughter pTrack
    let canFormPfo : Bool :=
      if d0 < s.m_d0TrackCut ∧ z0 < s.m_z0TrackCut ∧
          rInner < g.tpcInnerR + s.m_maxTpcInnerRDistance then true
      else if passRzQualityCuts = true ∧ s.m_usingNonVertexTracks ≠ 0 then true
      else if isV0 = true ∨ isDaughter = true then true
      else false
    match inputGet trackParameters.m_mass with
    | Except.error e => Except.error e
    | Except.ok particleMass =>
      let trackEnergy := fo.sqrt (momentumAtDca.GetMagnitudeSquared + particleMass * particleMass)
      let canFormClusterlessPfo : Bool :=
        if s.m_usingUnmatchedVertexTracks ≠ 0 ∧ trackEnergy < s.m_unmatchedVertexTrackMaxEnergy then
          if d0 < s.m_d0UnmatchedVertexTrackCut ∧ z0 < s.m_z0UnmatchedVertexTrackCut ∧
              rInner < g.tpcInnerR + s.m_maxTpcInnerRDistance then true
          else if passRzQualityCuts = true ∧ s.m_usingNonVertexTracks ≠ 0 ∧
              s.m_usingUnmatchedNonVertexTracks ≠ 0 then true
          else if isV0 = true ∨ isDaughter = true then true
          else false
        else false
      Except.ok (canFormPfo, canFormClusterlessPfo)

/-- TrackCreator::DefineTrackPfoUsage. -/
def DefineTrackPfoUsage (fo : FloatOps) (g : Geometry) (s : Settings) (tc : TrackCreator)
    (pTrack : Track) (trackParameters : TrackParameters) : Except Fault TrackParameters :=
  match inputGet trackParameters.m_reachesECal with
  | Except.error e => Except.error e
  | Except.ok reachesECal =>
    if reachesECal = true ∧ tc.IsParent pTrack = false then
      let inner := innerHitLoop fo (FLT_MAX, FLT_MAX) pTrack.hits
      match PassesQualityCuts fo s trackParameters with
      | Except.error e => Except.error e
      | Except.ok true =>
        match pfoUsageFlags fo g s tc pTrack trackParameters inner.1 inner.2 with
        | Except.error e => Except.error e
        | Except.ok flags =>
          Except.ok { trackParameters with
            m_canFormPfo := some flags.1, m_canFormClusterlessPfo := some flags.2 }
      | Except.ok false =>
        Except.ok { trackParameters with
          m_canFormPfo := some false, m_canFormClusterlessPfo := some false }
    else
      Except.ok { trackParameters with
        m_canFormPfo := some false, m_canFormClusterlessPfo := some false }

/-- The loop of CreateTracks over the forward disks (given as the list of the remaining
indices) that counts the disks the dip angle crosses. -/
def expectedFtdHits (g : Geometry) (tanLambda : ℚ) : List Nat → Int → Except Fault Int
  | [], count => Except.ok count
  | iFtdLayer :: rest, count =>
    match vecAt g.ftdZPositions iFtdLayer, vecAt g.ftdOuterRadii iFtdLayer with
    | Except.ok z, Except.ok ro =>
      if FloatValue.lt (floatDiv z ro) (FloatValue.finite tanLambda) = true then
        match vecAt g.ftdInnerRadii iFtdLayer with
        | Except.error e => Except.error e
        | Except.ok ri =>
          if FloatValue.lt (FloatValue.finite tanLambda) (floatDiv z ri) = true then
            expectedFtdHits g tanLambda rest (count + 1)
          else expectedFtdHits g tanLambda rest count
      else expectedFtdHits g tanLambda rest count
    | _, _ => Except.error Fault.undefinedBehaviour

/-- The static float tanLambdaFtd of CreateTracks: the double quotient
ftdZPositions[0] / ftdOuterRadii[0], converted to float. -/
def tanLambdaFtd (fo : FloatOps) (g : Geometry) : Except Fault FloatValue :=
  match vecAt g.ftdZPositions 0, vecAt g.ftdOuterRadii 0 with
  | Except.ok z, Except.ok ro => Except.ok ((floatDiv z ro).narrow fo)
  | _, _ => Except.error Fault.undefinedBehaviour

/-- The minimum hit count minTrackHits that CreateTracks computes for a track. -/
def minTrackHits (fo : FloatOps) (g : Geometry) (s : Settings) (pTrack : Track) :
    Except Fault Int :=
  match tanLambdaFtd fo g with
  | Except.error e => Except.error e
  | Except.ok ratio =>
    if FloatValue.lt ratio (FloatValue.finite |pTrack.tanLambda|) = true then
      match expectedFtdHits g |pTrack.tanLambda| (List.range g.ftdZPositions.length) 0 with
      | Except.error e => Except.error e
      | Except.ok expected => Except.ok (max s.m_minFtdTrackHits expected)
    else Except.ok s.m_minTrackHits

/-- The parameters CreateTracks fills in before the helix fit: impact parameters, address,
identity, mass and charge. -/
def initialTrackParameters (pdg : PdgTable) (tc : TrackCreator) (pTrack : Track) :
    TrackParameters :=
  let signedCurvature := pTrack.omega
  let tp1 : TrackParameters :=
    { TrackParameters.unset with
      m_d0 := some pTrack.d0, m_z0 := some pTrack.z0, m_pParentAddress := some pTrack.addr,
      m_particleId := some (if signedCurvature > 0 then pdg.PI_PLUS else pdg.PI_MINUS),
      m_mass := some (pdg.GetParticleMass pdg.PI_PLUS) }
  let tp2 : TrackParameters :=
    match pidFind tc.m_trackToPidMap pTrack.addr with
    | some code => { tp1 with m_particleId := some code, m_mass := some (pdg.GetParticleMass code) }
    | none => tp1
  if signedCurvature ≠ 0 then
    { tp2 with m_charge := some (truncToInt (signedCurvature / |signedCurvature|)) }
  else tp2

/-- The handler of the per-track try block of CreateTracks: the exception is reported and
the loop goes on; undefined behaviour is not caught. -/
def reportAndContinue (tc : TrackCreator) (f : Fault) : Except Fault TrackCreator :=
  match f with
  | Fault.undefinedBehaviour => Except.error Fault.undefinedBehaviour
  | e => Except.ok { tc with reportedFailures := tc.reportedFailures ++ [e] }

/-- The body of the track loop of CreateTracks for one track. -/
def createTrack (fo : FloatOps) (lib : HelixLibrary) (pdg : PdgTable) (g : Geometry)
    (s : Settings) (trackApi : TrackApi) (tc : TrackCreator) (pTrack : Track) :
    Except Fault TrackCreator :=
  match minTrackHits fo g s pTrack with
  | Except.error e => Except.error e
  | Except.ok minHits =>
    let nTrackHits : Int := (pTrack.hits.length : Int)
    if nTrackHits < minHits ∨ nTrackHits > s.m_maxTrackHits then Except.ok tc
    else
      match FitTrackHelices fo lib g s pTrack (initialTrackParameters pdg tc pTrack) with
      | Except.error e => reportAndContinue tc e
      | Except.ok fitted =>
        let reach := TrackReachesECAL fo g s tc.isFirstPass pTrack fitted
        let tc1 : TrackCreator := { tc with isFirstPass := reach.1 }
        match reach.2 with
        | Except.error e => reportAndContinue tc1 e
        | Except.ok reached =>
          match DefineTrackPfoUsage fo g s tc1 pTrack reached with
          | Except.error e => reportAndContinue tc1 e
          | Except.ok trackParameters =>
            if trackApi tc1.pandoraTracks trackParameters = StatusCode.STATUS_CODE_SUCCESS then
              Except.ok { tc1 with
                pandoraTracks := tc1.pandoraTracks ++ [trackParameters],
                m_trackVector := tc1.m_trackVector ++ [pTrack.addr] }
            else reportAndContinue tc1
              (Fault.statusCodeException (trackApi tc1.pandoraTracks trackParameters))

/-- The loop of CreateTracks over the tracks of one collection. -/
def trackLoop (body : TrackCreator → Track → Except Fault TrackCreator) :
    List Track → TrackCreator → Except Fault TrackCreator
  | [], tc => Except.ok tc
  | pTrack :: rest, tc =>
    match body tc pTrack with
    | Except.error e => Except.error e
    | Except.ok tc1 => trackLoop body rest tc1

/-- The loop of CreateTracks over the configured track collections; a collection that
cannot be read is reported and skipped. -/
def trackCollectionLoop (ev : LCEvent) (body : TrackCreator → Track → Except Fault TrackCreator) :
    List String → TrackCreator → Except Fault TrackCreator
  | [], tc => Except.ok tc
  | name :: rest, tc =>
    match ev.trackCollection name with
    | none => trackCollectionLoop ev body rest tc
    | some tracks =>
      match trackLoop body tracks tc with
      | Except.error e => Except.error e
      | Except.ok tc1 => trackCollectionLoop ev body rest tc1

/-- TrackCreator::CreateTracks: the statics are initialised on entry, then the collections
are walked; the function itself always returns success. -/
def CreateTracks (fo : FloatOps) (lib : HelixLibrary) (pdg : PdgTable) (g : Geometry)
    (s : Settings) (trackApi : TrackApi) (ev : LCEvent) (tc : TrackCreator) :
    Except Fault (StatusCode × TrackCreator) :=
  match tanLambdaFtd fo g with
  | Except.error e => Except.error e
  | Except.ok _ =>
    match trackCollectionLoop ev (createTrack fo lib pdg g s trackApi) s.m_trackCollections tc with
    | Except.error e => Except.error e
    | Except.ok tc1 => Except.ok (StatusCode.STATUS_CODE_SUCCESS, tc1)

end TrackCreator

/-! ## Predicates and sample inputs used by the statements -/

/-- Two states have the same three membership sets. -/
def SameSets (a b : TrackCreator) : Prop :=
  a.m_parentTrackList = b.m_parentTrackList ∧ a.m_daughterTrackList = b.m_daughterTrackList ∧
  a.m_v0TrackList = b.m_v0TrackList

/-- The second state extends the first: the sets and the declarations have only grown and
every identity entry is still there. -/
def Extends (a b : TrackCreator) : Prop :=
  a.m_parentTrackList ⊆ b.m_parentTrackList ∧ a.m_daughterTrackList ⊆ b.m_daughterTrackList ∧
  a.m_v0TrackList ⊆ b.m_v0TrackList ∧
  (∀ k c, TrackCreator.pidFind a.m_trackToPidMap k = some c →
    TrackCreator.pidFind b.m_trackToPidMap k = some c) ∧
  (∃ suffix, b.pandoraRelationships = a.pandoraRelationships ++ suffix)

/-- Two parameter blocks agree on the members CreateTracks sets before the helix fit: impact
parameters, address, identity, mass and charge. -/
def SameIdentity (a b : TrackParameters) : Prop :=
  a.m_d0 = b.m_d0 ∧ a.m_z0 = b.m_z0 ∧ a.m_pParentAddress = b.m_pParentAddress ∧
  a.m_particleId = b.m_particleId ∧ a.m_mass = b.m_mass ∧ a.m_charge = b.m_charge

/-- The vertex lists its index-0 track again at a later index. -/
def headRepeated (v : Vertex) : Bool :=
  match v.tracks with
  | [] => false
  | t :: rest => rest.any (fun u => u.addr == t.addr)

/-- A particle table with the Monte-Carlo numbering of the Particle Data Group, with zero
masses except for the charged pion. -/
def samplePdg : PdgTable :=
  { UNKNOWN := 0, PHOTON := 22, E_MINUS := 11, E_PLUS := -11, MU_MINUS := 13, MU_PLUS := -13,
    PI_PLUS := 211, PI_MINUS := -211, K_PLUS := 321, K_MINUS := -321, K_SHORT := 310,
    LAMBDA := 3122, LAMBDA_BAR := -3122, PROTON := 2212, PROTON_BAR := -2212,
    SIGMA_PLUS := 3222, SIGMA_MINUS := 3112, HYPERON_MINUS := 3312, HYPERON_MINUS_BAR := -3312,
    GetParticleMass := fun code => if code = 211 ∨ code = -211 then 139 / 1000 else 0 }

/-- A configuration with one collection of each kind and relationship formation on. -/
def sampleSettings : Settings :=
  { m_kinkVertexCollections := ["Kinks"], m_prongSplitVertexCollections := ["Prongs"],
    m_v0VertexCollections := ["V0s"], m_trackCollections := ["Tracks"],
    m_shouldFormTrackRelationships := 1, m_minTrackHits := 5, m_minFtdTrackHits := 0,
    m_maxTrackHits := 5000, m_nHitsForHelixFits := 50, m_useEndTrackHelixForECalProjection := 1,
    m_d0TrackCut := 50, m_z0TrackCut := 50, m_usingNonVertexTracks := 1,
    m_usingUnmatchedNonVertexTracks := 0, m_usingUnmatchedVertexTracks := 1,
    m_unmatchedVertexTrackMaxEnergy := 5, m_d0UnmatchedVertexTrackCut := 5,
    m_z0UnmatchedVertexTrackCut := 5, m_zCutForNonVertexTracks := 250,
    m_reachesECalNTpcHits := 11, m_reachesECalNFtdHits := 4,
    m_reachesECalTpcOuterDistance := -100, m_reachesECalTpcZMaxDistance := -50,
    m_reachesECalFtdZMaxDistance := 1, m_curvatureToMomentumFactor := 3 / 10000,
    m_maxTpcInnerRDistance := 50, m_minTrackECalDistanceFromIp := 100 }

/-- A track without hits, given by its address and curvature. -/
def sampleTrack (addr : Nat) (omega : ℚ) : Track :=
  { addr := addr, d0 := 0, z0 := 0, phi := 0, omega := omega, tanLambda := 0, hits := [] }

/-- A relationship API that accepts every declaration. -/
def acceptAll : RelationshipApi := fun _ _ => StatusCode.STATUS_CODE_SUCCESS

/-- An event whose kink collection holds one vertex that lists the same track twice. -/
def repeatedTrackEvent : LCEvent :=
  { vertexCollection := fun name =>
      if name = "Kinks" then
        some [{ pdgType := 321, tracks := [sampleTrack 1 1, sampleTrack 1 1] }]
      else none,
    trackCollection := fun _ => none }

/-- A kink vertex with identity 321 (K+), parent track 1 and a daughter track 2 of negative
curvature. -/
def kinkA : Vertex :=
  { pdgType := 321, tracks := [sampleTrack 1 1, sampleTrack 2 (-1)] }

/-- A kink vertex that shares track 2 with kinkA. -/
def kinkB : Vertex :=
  { pdgType := 211, tracks := [sampleTrack 2 (-1), sampleTrack 3 1] }

/-- Two kink vertices sharing track 2. -/
def sampleKinks : List Vertex := [kinkA, kinkB]

/-- The state after the extraction of kinkA from the initial state. -/
def afterKinkA : TrackCreator :=
  (TrackCreator.kinkVertex samplePdg sampleSettings acceptAll TrackCreator.initial kinkA).2

/-- A prong vertex on fresh tracks that lists its second track twice. -/
def sampleProngs : List Vertex :=
  [{ pdgType := 0, tracks := [sampleTrack 4 1, sampleTrack 5 1, sampleTrack 5 1] }]

/-- A V0 vertex that lists track 6 twice, and one that overlaps the first kink. -/
def sampleV0s : List Vertex :=
  [{ pdgType := 22, tracks := [sampleTrack 6 1, sampleTrack 6 1, sampleTrack 7 (-1)] },
   { pdgType := 310, tracks := [sampleTrack 8 1, sampleTrack 1 1] }]

/-- An event with overlapping vertices in its three vertex collections. -/
def overlappingEvent : LCEvent :=
  { vertexCollection := fun name =>
      if name = "Kinks" then some sampleKinks
      else if name = "Prongs" then some sampleProngs
      else if name = "V0s" then some sampleV0s
      else none,
    trackCollection := fun _ => none }

/-- The largest natural number up to the bound whose square does not exceed q (0 if none). -/
def sqrtSearch : Nat → ℚ → ℚ
  | 0, _ => 0
  | k + 1, q => if ((k : ℚ) + 1) * ((k : ℚ) + 1) ≤ q then (k : ℚ) + 1 else sqrtSearch k q

/-- A stand-in for the float library on small inputs: the integer square root up to 32,
low-order rational approximations of the other functions, and a conversion to float that
returns its argument (the sample inputs are small integers and halves, which are floats). -/
def sampleFloatOps : FloatOps :=
  { sqrt := sqrtSearch 32,
    cos := fun x => 1 - x * x / 2,
    sin := fun x => x,
    acos := fun x => 3 * (1 - x) / 2,
    toFloat := fun x => x }

/-- A small detector: tracker radii 3 to 18 and half length 22, one forward disk (z 4, radii
1 to 2), one outer-endcap layer at z 24, one outer-tracker layer of radius 19. -/
def smallGeometry : Geometry :=
  { tpcInnerR := 3, tpcOuterR := 18, tpcZmax := 22,
    ftdInnerRadii := [1], ftdOuterRadii := [2], ftdZPositions := [4],
    etdZPositions := [24], setInnerRadii := [19], bField := 4, phi0 := 0,
    ecalSymmetryOrder := 8, rOfBarrel := 20, zOfEndCap := 25 }

/-- A track given by its hits. -/
def hitTrack (hits : List TrackerHit) : Track :=
  { addr := 1, d0 := 0, z0 := 0, phi := 0, omega := 1, tanLambda := 0, hits := hits }

/-- Parameters in which only the momentum at closest approach is set. -/
def momentumOnly (p : CartesianVector) : TrackParameters :=
  { TrackParameters.unset with m_momentumAtDca := some p }

/-- The candidates of the calorimeter projection in the order the source visits them: the
endcap plane, then the barrel faces 0 to N-1 when the symmetry order N is positive, else the
cylinder. -/
def ecalCandidates (fo : FloatOps) (g : Geometry) (pHelix : HelixClass)
    (referencePoint : CartesianVector) (signPz : Int) : List (ℚ × CartesianVector) :=
  pHelix.getPointInZ ((signPz : ℚ) * g.zOfEndCap) referencePoint ::
    (if g.ecalSymmetryOrder > 0 then
      (List.range g.ecalSymmetryOrder.toNat).map
        (TrackCreator.barrelFaceProjection fo g pHelix referencePoint)
    else [pHelix.getPointOnCircle g.rOfBarrel referencePoint])

/-- A helix object whose endcap intersection has time -1 at the point (0, 0, -5), whose
cylinder intersection has time 2 at the point (20, 0, 3), and whose face intersections have
time 7. -/
def backwardEndcapHelix : HelixClass :=
  { getMomentum := ⟨0, 0, 1⟩,
    getReferencePoint := ⟨0, 0, 0⟩,
    getPointInZ := fun _ _ => (-1, ⟨0, 0, -5⟩),
    getPointInXY := fun _ _ _ _ _ => (7, ⟨20, 1, 1⟩),
    getPointOnCircle := fun _ _ => (2, ⟨20, 0, 3⟩),
    getExtrapolatedMomentum := fun _ => ⟨0, 0, 1⟩ }

/-- The small detector with a cylindrical calorimeter barrel (symmetry order 0). -/
def cylinderGeometry : Geometry :=
  { smallGeometry with ecalSymmetryOrder := 0 }

/-- The small detector with an empty array of forward-disk inner radii, so that the
forward-disk arrays differ in length. -/
def mismatchedGeometry : Geometry :=
  { smallGeometry with ftdInnerRadii := [] }

/-- The small detector without outer-endcap layers. -/
def noEtdGeometry : Geometry :=
  { smallGeometry with etdZPositions := [] }

/-- A straight line along the z axis through (0, 0, z), running in the direction of the sign:
it meets the plane z = zLine after the time |zLine - z| and the barrel only after the time
1000. -/
def axisHelix (z : ℚ) (sign : Int) : HelixClass :=
  { getMomentum := ⟨0, 0, (sign : ℚ)⟩,
    getReferencePoint := ⟨0, 0, z⟩,
    getPointInZ := fun zLine ref => (|zLine - ref.z|, ⟨ref.x, ref.y, zLine⟩),
    getPointInXY := fun _ _ _ _ ref => (1000, ref),
    getPointOnCircle := fun _ ref => (1000, ref),
    getExtrapolatedMomentum := fun _ => ⟨0, 0, (sign : ℚ)⟩ }

/-- A stand-in for the helix library: every helix is a line along the z axis, and the fit
returns the zero parameter set. -/
def sampleLibrary : HelixLibrary :=
  { Initialize_Canonical := fun _ _ z0 _ _ _ => axisHelix z0 1,
    Initialize_BZ := fun _ _ signPz zBegin => axisHelix zBegin signPz,
    FitHelix := fun _ => ⟨0, 0, 0, 0, 0⟩ }

/-- A track API that accepts every track. -/
def acceptAllTracks : TrackApi := fun _ _ => StatusCode.STATUS_CODE_SUCCESS

/-- The sample configuration with the baseline minimum hit count lowered to 1. -/
def lowThresholdSettings : Settings :=
  { sampleSettings with m_minTrackHits := 1 }

/-- A track of curvature exactly zero with one hit in the main tracker. -/
def zeroCurvatureTrack : Track :=
  { addr := 9, d0 := 0, z0 := 0, phi := 0, omega := 0, tanLambda := 0, hits := [⟨4, 0, 1⟩] }

/-- A track of curvature 1 with one hit in the main tracker. -/
def positiveCurvatureTrack : Track :=
  { addr := 8, d0 := 0, z0 := 0, phi := 0, omega := 1, tanLambda := 0, hits := [⟨4, 0, 1⟩] }

/-- The descriptor the sample pipeline builds for a one-hit track at the given address, with
the given identity and charge. -/
def sampleDescriptor (addr : Nat) (particleId : Int) (charge : Option Int) : TrackParameters :=
  { m_d0 := some 0, m_z0 := some 0, m_pParentAddress := some addr,
    m_particleId := some particleId, m_mass := some (139 / 1000), m_charge := charge,
    m_momentumAtDca := some ⟨0, 0, 1⟩,
    m_trackStateAtStart := some ⟨⟨0, 0, 1⟩, ⟨0, 0, -1⟩⟩,
    m_trackStateAtEnd := some ⟨⟨0, 0, 1⟩, ⟨0, 0, -1⟩⟩,
    m_trackStateAtECal := some ⟨⟨0, 0, -25⟩, ⟨0, 0, -1⟩⟩,
    m_reachesECal := some true, m_canFormPfo := some false,
    m_canFormClusterlessPfo := some false }

/-- The sample descriptor of track 8 with the momentum (1, 0, 1) at closest approach, so that
the transverse momentum is not zero. -/
def transverseDescriptor : TrackParameters :=
  { sampleDescriptor 8 211 (some 1) with m_momentumAtDca := some ⟨1, 0, 1⟩ }

/-- The initial state after one descriptor has been emitted for the track at the address. -/
def afterDescriptor (addr : Nat) (d : TrackParameters) : TrackCreator :=
  { TrackCreator.initial with
    isFirstPass := false, pandoraTracks := [d], m_trackVector := [addr] }

/-- The radius of a hit as the source computes it: sqrt(x * x + y * y) of the x and y
converted to float. -/
def floatRadius (fo : FloatOps) (hit : TrackerHit) : ℚ :=
  fo.sqrt (fo.toFloat hit.x * fo.toFloat hit.x + fo.toFloat hit.y * fo.toFloat hit.y)

/-- The z test of the relaxed position cut as DefineTrackPfoUsage evaluates it:
zMin < tpcInnerR * fabs(pZ / pT) + m_zCutForNonVertexTracks in floating-point arithmetic. -/
def relaxedZTest (fo : FloatOps) (g : Geometry) (s : Settings) (p : CartesianVector)
    (zMin : ℚ) : Bool :=
  FloatValue.lt (FloatValue.finite zMin)
    (((floatDiv p.z (fo.sqrt (p.x * p.x + p.y * p.y))).abs.scale g.tpcInnerR).add
      s.m_zCutForNonVertexTracks)

/-- The sample configuration with the minimum calorimeter distance set to 25. -/
def boundarySettings : Settings :=
  { sampleSettings with m_minTrackECalDistanceFromIp := 25 }

/-- A hit of radius r and coordinate z lies inside the annulus of forward disk j and within
the z tolerance of the z of that disk. -/
def inFtdDisk (g : Geometry) (s : Settings) (r z : ℚ) (j : Nat) : Prop :=
  g.ftdInnerRadii.getD j 0 < r ∧ r < g.ftdOuterRadii.getD j 0 ∧
  g.ftdZPositions.getD j 0 - s.m_reachesECalFtdZMaxDistance < |z| ∧
  |z| < g.ftdZPositions.getD j 0 + s.m_reachesECalFtdZMaxDistance

/-- The disk condition is a conjunction of comparisons, hence decidable. -/
instance instDecidableInFtdDisk (g : Geometry) (s : Settings) (r z : ℚ) (j : Nat) :
    Decidable (inFtdDisk g s r z j) :=
  inferInstanceAs (Decidable
    (g.ftdInnerRadii.getD j 0 < r ∧ r < g.ftdOuterRadii.getD j 0 ∧
      g.ftdZPositions.getD j 0 - s.m_reachesECalFtdZMaxDistance < |z| ∧
      |z| < g.ftdZPositions.getD j 0 + s.m_reachesECalFtdZMaxDistance))

/-- The sibling declarations among the tracks of a list: one for every pair of an earlier and
a later track, in the order the loops make them. -/
def siblingLinks : List Track → List Relationship
  | [] => []
  | t :: rest => rest.map (fun u => Relationship.sibling t.addr u.addr) ++ siblingLinks rest

/-- The parent-daughter declarations from the track t0 to each track of a list. -/
def parentDaughterLinks (t0 : Track) (rest : List Track) : List Relationship :=
  rest.map (fun u => Relationship.parentDaughter t0.addr u.addr)

/-- A declaration that links a track with itself. -/
def isSelfLink : Relationship → Bool
  | Relationship.parentDaughter a b => decide (a = b)
  | Relationship.sibling a b => decide (a = b)

/-- A declaration is a parent-daughter link. -/
def isParentDaughterLink : Relationship → Bool
  | Relationship.parentDaughter _ _ => true
  | Relationship.sibling _ _ => false

/-- A prong vertex with three distinct tracks. -/
def prongA : Vertex :=
  { pdgType := 0, tracks := [sampleTrack 4 1, sampleTrack 5 1, sampleTrack 6 (-1)] }

/-- A Lambda V0 vertex (identity 3122) with a track of positive and one of negative curvature. -/
def lambdaV0 : Vertex :=
  { pdgType := 3122, tracks := [sampleTrack 6 1, sampleTrack 7 (-1)] }

/-- Two states agree on what relationship extraction registers: the three membership sets and
the identity map. -/
def SameRegistration (a b : TrackCreator) : Prop :=
  a.m_parentTrackList = b.m_parentTrackList ∧ a.m_daughterTrackList = b.m_daughterTrackList ∧
  a.m_v0TrackList = b.m_v0TrackList ∧ a.m_trackToPidMap = b.m_trackToPidMap

/-- The configuration with relationship formation switched off. -/
def formationOff (s : Settings) : Settings :=
  { s with m_shouldFormTrackRelationships := 0 }

/-- The configuration in which the kink collections are the prong/split collections of s. -/
def prongsAsKinks (s : Settings) : Settings :=
  { s with m_kinkVertexCollections := s.m_prongSplitVertexCollections }

/-! ## Theorems -/

/-! ### Membership sets under relationship extraction -/

/-- Membership in the parent set after the insertion for the track at index i. -/
theorem mem_parent_insertParentOrDaughter (i : Nat) (t : Track) (tc : TrackCreator) (a : Nat) :
    a ∈ (TrackCreator.insertParentOrDaughter i t tc).m_parentTrackList ↔
      a ∈ tc.m_parentTrackList ∨ (i = 0 ∧ a = t.addr) := by
  unfold TrackCreator.insertParentOrDaughter
  by_cases hi : i = 0 <;> simp [hi, or_comm]

/-- Membership in the daughter set after the insertion for the track at index i. -/
theorem mem_daughter_insertParentOrDaughter (i : Nat) (t : Track) (tc : TrackCreator) (a : Nat) :
    a ∈ (TrackCreator.insertParentOrDaughter i t tc).m_daughterTrackList ↔
      a ∈ tc.m_daughterTrackList ∨ (i ≠ 0 ∧ a = t.addr) := by
  unfold TrackCreator.insertParentOrDaughter
  by_cases hi : i = 0 <;> simp [hi, or_comm]

/-- The insertion for a kink or prong/split track leaves the V0 set as it is. -/
theorem v0_insertParentOrDaughter (i : Nat) (t : Track) (tc : TrackCreator) :
    (TrackCreator.insertParentOrDaughter i t tc).m_v0TrackList = tc.m_v0TrackList := by
  unfold TrackCreator.insertParentOrDaughter
  by_cases hi : i = 0 <;> simp [hi]

/-- What a loop over the tracks of a kink or prong/split vertex does to the three sets, given
that each step makes the insertion of insertParentOrDaughter and then goes on or leaves. -/
theorem parentDaughterLoop_sets
    (loop : Nat → List Track → TrackCreator → StatusCode × TrackCreator)
    (hnil : ∀ i tc, (loop i [] tc).2 = tc)
    (hcons : ∀ i t rest tc, ∃ tc1 : TrackCreator,
      SameSets tc1 (TrackCreator.insertParentOrDaughter i t tc) ∧
      (loop i (t :: rest) tc = loop (i + 1) rest tc1 ∨ (loop i (t :: rest) tc).2 = tc1)) :
    ∀ (l : List Track) (i : Nat) (tc : TrackCreator),
      (loop i l tc).2.m_v0TrackList = tc.m_v0TrackList ∧
      (∀ a ∈ (loop i l tc).2.m_parentTrackList,
        a ∈ tc.m_parentTrackList ∨ (i = 0 ∧ ∃ t, l.head? = some t ∧ a = t.addr)) ∧
      (∀ a ∈ (loop i l tc).2.m_daughterTrackList,
        a ∈ tc.m_daughterTrackList ∨ ∃ t ∈ (if i = 0 then l.tail else l), a = t.addr) := by
  intro l
  induction l with
  | nil => intro i tc; rw [hnil]; exact ⟨rfl, fun a h => Or.inl h, fun a h => Or.inl h⟩
  | cons t rest ih =>
    intro i tc
    obtain ⟨tc1, ⟨hP, hD, hV⟩, hr⟩ := hcons i t rest tc
    have k1 : tc1.m_v0TrackList = tc.m_v0TrackList := by
      rw [hV, v0_insertParentOrDaughter]
    have k2 : ∀ a ∈ tc1.m_parentTrackList,
        a ∈ tc.m_parentTrackList ∨ (i = 0 ∧ ∃ u, (t :: rest).head? = some u ∧ a = u.addr) := by
      intro a ha
      rw [hP, mem_parent_insertParentOrDaughter] at ha
      rcases ha with h | ⟨h0, h⟩
      · exact Or.inl h
      · exact Or.inr ⟨h0, t, rfl, h⟩
    have k3 : ∀ a ∈ tc1.m_daughterTrackList,
        a ∈ tc.m_daughterTrackList ∨
          ∃ u ∈ (if i = 0 then (t :: rest).tail else (t :: rest)), a = u.addr := by
      intro a ha
      rw [hD, mem_daughter_insertParentOrDaughter] at ha
      rcases ha with h | ⟨h0, h⟩
      · exact Or.inl h
      · right
        simp only [h0, if_false]
        exact ⟨t, List.mem_cons_self _ _, h⟩
    rcases hr with hr | hr
    · rw [hr]
      obtain ⟨h1, h2, h3⟩ := ih (i + 1) tc1
      refine ⟨h1.trans k1, ?_, ?_⟩
      · intro a ha
        rcases h2 a ha with h | h
        · exact k2 a h
        · exact absurd h.1 (Nat.succ_ne_zero i)
      · intro a ha
        rcases h3 a ha with h | ⟨u, hu, hau⟩
        · exact k3 a h
        · right
          refine ⟨u, ?_, hau⟩
          simp only [Nat.succ_ne_zero, if_false, Nat.add_one] at hu
          by_cases hi : i = 0
          · simpa [hi] using hu
          · simp only [hi, if_false]; exact List.mem_cons_of_mem _ hu
    · rw [hr]
      exact ⟨k1, k2, k3⟩

/-- The declarations accepted by the inner loop are appended to those already made; when the
loop ends with success there is exactly one for every later track, in order. -/
theorem declareRelationships_spec (api : RelationshipApi) (mk : Nat → Relationship) :
    ∀ (l : List Track) (d : List Relationship),
      ∃ suffix, (TrackCreator.declareRelationships api mk l d).2 = d ++ suffix ∧
        ((TrackCreator.declareRelationships api mk l d).1 = StatusCode.STATUS_CODE_SUCCESS →
          suffix = l.map (fun t => mk t.addr)) := by
  intro l
  induction l with
  | nil => intro d; exact ⟨[], by simp [TrackCreator.declareRelationships]⟩
  | cons t rest ih =>
    intro d
    simp only [TrackCreator.declareRelationships]
    split
    · obtain ⟨suffix, h1, h2⟩ := ih (d ++ [mk t.addr])
      refine ⟨mk t.addr :: suffix, ?_, ?_⟩
      · rw [h1]; simp
      · intro h; rw [h2 h]; rfl
    · rename_i hfail
      exact ⟨[], by simp, fun h => absurd h hfail⟩

/-- One step of the kink loop: after the insertions for track t the declarations are
appended; then the loop goes on (having declared nothing when the flag is off, one link per
later track otherwise), or the function is left with a status other than success. -/
theorem kinkTrackLoop_cons (pdg : PdgTable) (s : Settings) (api : RelationshipApi) (code : Int)
    (i : Nat) (t : Track) (rest : List Track) (tc : TrackCreator) :
    ∃ suffix : List Relationship,
      (TrackCreator.kinkTrackLoop pdg s api code i (t :: rest) tc
          = TrackCreator.kinkTrackLoop pdg s api code (i + 1) rest
              { TrackCreator.registerKinkTrack pdg code i t tc with
                pandoraRelationships :=
                  (TrackCreator.registerKinkTrack pdg code i t tc).pandoraRelationships ++ suffix } ∧
        suffix = (if s.m_shouldFormTrackRelationships = 0 then []
          else rest.map (fun u => TrackCreator.parentOrSiblingLink i t u.addr))) ∨
        ((TrackCreator.kinkTrackLoop pdg s api code i (t :: rest) tc).2
            = { TrackCreator.registerKinkTrack pdg code i t tc with
                pandoraRelationships :=
                  (TrackCreator.registerKinkTrack pdg code i t tc).pandoraRelationships ++ suffix } ∧
         (TrackCreator.kinkTrackLoop pdg s api code i (t :: rest) tc).1
            ≠ StatusCode.STATUS_CODE_SUCCESS) := by
  simp only [TrackCreator.kinkTrackLoop]
  by_cases hflag : s.m_shouldFormTrackRelationships = 0
  · exact ⟨[], Or.inl (by simp [hflag])⟩
  · obtain ⟨suffix, h1, h2⟩ := declareRelationships_spec api
      (TrackCreator.parentOrSiblingLink i t) rest
      (TrackCreator.registerKinkTrack pdg code i t tc).pandoraRelationships
    by_cases hok : (TrackCreator.declareRelationships api (TrackCreator.parentOrSiblingLink i t) rest
        (TrackCreator.registerKinkTrack pdg code i t tc).pandoraRelationships).1
          = StatusCode.STATUS_CODE_SUCCESS
    · exact ⟨suffix, Or.inl ⟨by simp [hflag, hok, h1], by simp [hflag, h2 hok]⟩⟩
    · exact ⟨suffix, Or.inr (by simp [hflag, hok, h1])⟩

/-- One step of the prong/split loop, as for the kink loop. -/
theorem prongSplitTrackLoop_cons (s : Settings) (api : RelationshipApi)
    (i : Nat) (t : Track) (rest : List Track) (tc : TrackCreator) :
    ∃ suffix : List Relationship,
      (TrackCreator.prongSplitTrackLoop s api i (t :: rest) tc
          = TrackCreator.prongSplitTrackLoop s api (i + 1) rest
              { TrackCreator.insertParentOrDaughter i t tc with
                pandoraRelationships :=
                  (TrackCreator.insertParentOrDaughter i t tc).pandoraRelationships ++ suffix } ∧
        suffix = (if s.m_shouldFormTrackRelationships = 0 then []
          else rest.map (fun u => TrackCreator.parentOrSiblingLink i t u.addr))) ∨
        ((TrackCreator.prongSplitTrackLoop s api i (t :: rest) tc).2
            = { TrackCreator.insertParentOrDaughter i t tc with
                pandoraRelationships :=
                  (TrackCreator.insertParentOrDaughter i t tc).pandoraRelationships ++ suffix } ∧
         (TrackCreator.prongSplitTrackLoop s api i (t :: rest) tc).1
            ≠ StatusCode.STATUS_CODE_SUCCESS) := by
  simp only [TrackCreator.prongSplitTrackLoop]
  by_cases hflag : s.m_shouldFormTrackRelationships = 0
  · exact ⟨[], Or.inl (by simp [hflag])⟩
  · obtain ⟨suffix, h1, h2⟩ := declareRelationships_spec api
      (TrackCreator.parentOrSiblingLink i t) rest
      (TrackCreator.insertParentOrDaughter i t tc).pandoraRelationships
    by_cases hok : (TrackCreator.declareRelationships api (TrackCreator.parentOrSiblingLink i t) rest
        (TrackCreator.insertParentOrDaughter i t tc).pandoraRelationships).1
          = StatusCode.STATUS_CODE_SUCCESS
    · exact ⟨suffix, Or.inl ⟨by simp [hflag, hok, h1], by simp [hflag, h2 hok]⟩⟩
    · exact ⟨suffix, Or.inr (by simp [hflag, hok, h1])⟩

/-- One step of the V0 loop, as for the kink loop; every link is a sibling link. -/
theorem v0TrackLoop_cons (pdg : PdgTable) (s : Settings) (api : RelationshipApi) (code : Int)
    (t : Track) (rest : List Track) (tc : TrackCreator) :
    ∃ suffix : List Relationship,
      (TrackCreator.v0TrackLoop pdg s api code (t :: rest) tc
          = TrackCreator.v0TrackLoop pdg s api code rest
              { TrackCreator.registerV0Track pdg code t tc with
                pandoraRelationships :=
                  (TrackCreator.registerV0Track pdg code t tc).pandoraRelationships ++ suffix } ∧
        suffix = (if s.m_shouldFormTrackRelationships = 0 then []
          else rest.map (fun u => Relationship.sibling t.addr u.addr))) ∨
        ((TrackCreator.v0TrackLoop pdg s api code (t :: rest) tc).2
            = { TrackCreator.registerV0Track pdg code t tc with
                pandoraRelationships :=
                  (TrackCreator.registerV0Track pdg code t tc).pandoraRelationships ++ suffix } ∧
         (TrackCreator.v0TrackLoop pdg s api code (t :: rest) tc).1
            ≠ StatusCode.STATUS_CODE_SUCCESS) := by
  simp only [TrackCreator.v0TrackLoop]
  by_cases hflag : s.m_shouldFormTrackRelationships = 0
  · exact ⟨[], Or.inl (by simp [hflag])⟩
  · obtain ⟨suffix, h1, h2⟩ := declareRelationships_spec api
      (Relationship.sibling t.addr) rest
      (TrackCreator.registerV0Track pdg code t tc).pandoraRelationships
    by_cases hok : (TrackCreator.declareRelationships api (Relationship.sibling t.addr) rest
        (TrackCreator.registerV0Track pdg code t tc).pandoraRelationships).1
          = StatusCode.STATUS_CODE_SUCCESS
    · exact ⟨suffix, Or.inl ⟨by simp [hflag, hok, h1], by simp [hflag, h2 hok]⟩⟩
    · exact ⟨suffix, Or.inr (by simp [hflag, hok, h1])⟩

/-- What the kink loop does to the three sets, whether it ends or is left early. -/
theorem kinkTrackLoop_sets (pdg : PdgTable) (s : Settings) (api : RelationshipApi) (code : Int)
    (l : List Track) (i : Nat) (tc : TrackCreator) :
      (TrackCreator.kinkTrackLoop pdg s api code i l tc).2.m_v0TrackList = tc.m_v0TrackList ∧
      (∀ a ∈ (TrackCreator.kinkTrackLoop pdg s api code i l tc).2.m_parentTrackList,
        a ∈ tc.m_parentTrackList ∨ (i = 0 ∧ ∃ t, l.head? = some t ∧ a = t.addr)) ∧
      (∀ a ∈ (TrackCreator.kinkTrackLoop pdg s api code i l tc).2.m_daughterTrackList,
        a ∈ tc.m_daughterTrackList ∨ ∃ t ∈ (if i = 0 then l.tail else l), a = t.addr) := by
  apply parentDaughterLoop_sets (TrackCreator.kinkTrackLoop pdg s api code)
  · intro i tc; simp [TrackCreator.kinkTrackLoop]
  · intro i t rest tc
    obtain ⟨suffix, h⟩ := kinkTrackLoop_cons pdg s api code i t rest tc
    refine ⟨_, ?_, h.imp And.left And.left⟩
    simp [SameSets, TrackCreator.registerKinkTrack]

/-- What the prong/split loop does to the three sets, whether it ends or is left early. -/
theorem prongSplitTrackLoop_sets (s : Settings) (api : RelationshipApi)
    (l : List Track) (i : Nat) (tc : TrackCreator) :
      (TrackCreator.prongSplitTrackLoop s api i l tc).2.m_v0TrackList = tc.m_v0TrackList ∧
      (∀ a ∈ (TrackCreator.prongSplitTrackLoop s api i l tc).2.m_parentTrackList,
        a ∈ tc.m_parentTrackList ∨ (i = 0 ∧ ∃ t, l.head? = some t ∧ a = t.addr)) ∧
      (∀ a ∈ (TrackCreator.prongSplitTrackLoop s api i l tc).2.m_daughterTrackList,
        a ∈ tc.m_daughterTrackList ∨ ∃ t ∈ (if i = 0 then l.tail else l), a = t.addr) := by
  apply parentDaughterLoop_sets (TrackCreator.prongSplitTrackLoop s api)
  · intro i tc; simp [TrackCreator.prongSplitTrackLoop]
  · intro i t rest tc
    obtain ⟨suffix, h⟩ := prongSplitTrackLoop_cons s api i t rest tc
    refine ⟨_, ?_, h.imp And.left And.left⟩
    simp [SameSets]

/-- What the V0 loop does to the three sets, whether it ends or is left early. -/
theorem v0TrackLoop_sets (pdg : PdgTable) (s : Settings) (api : RelationshipApi) (code : Int) :
    ∀ (l : List Track) (tc : TrackCreator),
      (TrackCreator.v0TrackLoop pdg s api code l tc).2.m_parentTrackList = tc.m_parentTrackList ∧
      (TrackCreator.v0TrackLoop pdg s api code l tc).2.m_daughterTrackList = tc.m_daughterTrackList ∧
      (∀ a ∈ (TrackCreator.v0TrackLoop pdg s api code l tc).2.m_v0TrackList,
        a ∈ tc.m_v0TrackList ∨ ∃ t ∈ l, a = t.addr) := by
  intro l
  induction l with
  | nil => intro tc; simp [TrackCreator.v0TrackLoop]
  | cons t rest ih =>
    intro tc
    obtain ⟨suffix, hr⟩ := v0TrackLoop_cons pdg s api code t rest tc
    have k3 : ∀ a ∈ (TrackCreator.registerV0Track pdg code t tc).m_v0TrackList,
        a ∈ tc.m_v0TrackList ∨ ∃ u ∈ t :: rest, a = u.addr := by
      intro a ha
      simp only [TrackCreator.registerV0Track, Finset.mem_insert] at ha
      rcases ha with h | h
      · exact Or.inr ⟨t, List.mem_cons_self _ _, h⟩
      · exact Or.inl h
    rcases hr with ⟨hr, _⟩ | ⟨hr, _⟩
    · rw [hr]
      obtain ⟨h1, h2, h3⟩ := ih { TrackCreator.registerV0Track pdg code t tc with
        pandoraRelationships :=
          (TrackCreator.registerV0Track pdg code t tc).pandoraRelationships ++ suffix }
      refine ⟨h1, h2, ?_⟩
      intro a ha
      rcases h3 a ha with h | ⟨u, hu, hau⟩
      · exact k3 a h
      · exact Or.inr ⟨u, List.mem_cons_of_mem _ hu, hau⟩
    · rw [hr]
      exact ⟨rfl, rfl, k3⟩

/-- A vertex that passes the conflict check has no track in any of the three sets. -/
theorem isConflictingRelationship_false (tc : TrackCreator) :
    ∀ l : List Track, tc.IsConflictingRelationship l = false →
      ∀ t ∈ l, t.addr ∉ tc.m_parentTrackList ∧ t.addr ∉ tc.m_daughterTrackList ∧
        t.addr ∉ tc.m_v0TrackList := by
  intro l
  induction l with
  | nil => intro _ t ht; simp at ht
  | cons u rest ih =>
    intro h t ht
    simp only [TrackCreator.IsConflictingRelationship, TrackCreator.IsDaughter,
      TrackCreator.IsParent, TrackCreator.IsV0] at h
    split at h
    · exact absurd h (by simp)
    · rename_i hu
      simp only [Bool.or_eq_true, decide_eq_true_eq, not_or] at hu
      rcases List.mem_cons.mp ht with rfl | ht
      · exact ⟨hu.1.2, hu.1.1, hu.2⟩
      · exact ih h t ht

/-- A property kept by the body for the vertices of a collection is kept by the element loop. -/
theorem vertexLoop_preserves (Inv : TrackCreator → Prop) (Q : Vertex → Prop)
    (body : TrackCreator → Vertex → StatusCode × TrackCreator)
    (hbody : ∀ tc v, Q v → Inv tc → Inv (body tc v).2) :
    ∀ (vs : List Vertex) (tc : TrackCreator), (∀ v ∈ vs, Q v) → Inv tc →
      Inv (TrackCreator.vertexLoop body vs tc).2 := by
  intro vs
  induction vs with
  | nil => intro tc _ h; simpa [TrackCreator.vertexLoop] using h
  | cons v rest ih =>
    intro tc hQ h
    have hv := hbody tc v (hQ v (List.mem_cons_self _ _)) h
    simp only [TrackCreator.vertexLoop]
    split
    · exact ih _ (fun u hu => hQ u (List.mem_cons_of_mem _ hu)) hv
    · exact hv

/-- A property kept by the body for the vertices of the readable collections is kept by the
loop over the collection names. -/
theorem collectionLoop_preserves (Inv : TrackCreator → Prop) (Q : Vertex → Prop) (ev : LCEvent)
    (body : TrackCreator → Vertex → StatusCode × TrackCreator)
    (hbody : ∀ tc v, Q v → Inv tc → Inv (body tc v).2) :
    ∀ (names : List String) (tc : TrackCreator),
      (∀ name ∈ names, ∀ vs, ev.vertexCollection name = some vs → ∀ v ∈ vs, Q v) → Inv tc →
      Inv (TrackCreator.collectionLoop ev body names tc).2 := by
  intro names
  induction names with
  | nil => intro tc _ h; simpa [TrackCreator.collectionLoop] using h
  | cons name rest ih =>
    intro tc hQ h
    have hrest : ∀ n ∈ rest, ∀ vs, ev.vertexCollection n = some vs → ∀ v ∈ vs, Q v :=
      fun n hn => hQ n (List.mem_cons_of_mem _ hn)
    simp only [TrackCreator.collectionLoop]
    cases hc : ev.vertexCollection name with
    | none => exact ih tc hrest h
    | some vs =>
      have hvs := vertexLoop_preserves Inv Q body hbody vs tc
        (hQ name (List.mem_cons_self _ _) vs hc) h
      simp only
      split
      · exact ih _ hrest hvs
      · exact hvs

/-- A vertex that does not repeat its index-0 track has that address nowhere later. -/
theorem headRepeated_false (v : Vertex) (h : headRepeated v = false) (t : Track)
    (rest : List Track) (hv : v.tracks = t :: rest) : ∀ u ∈ rest, u.addr ≠ t.addr := by
  intro u hu
  simp only [headRepeated, hv, List.any_eq_false, beq_iff_eq] at h
  exact h u hu

/-- The V0 set stays disjoint from the other two under a kink or prong/split vertex. -/
theorem kinkVertex_v0Disjoint (pdg : PdgTable) (s : Settings) (api : RelationshipApi)
    (tc : TrackCreator) (v : Vertex)
    (h : Disjoint tc.m_parentTrackList tc.m_v0TrackList ∧
      Disjoint tc.m_daughterTrackList tc.m_v0TrackList) :
    Disjoint (TrackCreator.kinkVertex pdg s api tc v).2.m_parentTrackList
        (TrackCreator.kinkVertex pdg s api tc v).2.m_v0TrackList ∧
      Disjoint (TrackCreator.kinkVertex pdg s api tc v).2.m_daughterTrackList
        (TrackCreator.kinkVertex pdg s api tc v).2.m_v0TrackList := by
  unfold TrackCreator.kinkVertex
  cases hc : tc.IsConflictingRelationship v.tracks with
  | true => simpa using h
  | false =>
    have hfree := isConflictingRelationship_false tc v.tracks hc
    obtain ⟨hV, hP, hD⟩ := kinkTrackLoop_sets pdg s api v.pdgType v.tracks 0 tc
    simp only [Bool.false_eq_true, if_false, hV]
    rw [Finset.disjoint_left, Finset.disjoint_left] at h ⊢
    constructor
    · intro a ha
      rcases hP a ha with h1 | ⟨_, t, ht, rfl⟩
      · exact h.1 h1
      · exact (hfree t (List.mem_of_mem_head? ht)).2.2
    · intro a ha
      rcases hD a ha with h1 | ⟨t, ht, rfl⟩
      · exact h.2 h1
      · simp only [if_true] at ht
        exact (hfree t (List.mem_of_mem_tail ht)).2.2

/-- The parent and daughter sets stay disjoint under a kink vertex that does not repeat its
index-0 track. -/
theorem kinkVertex_parentDaughterDisjoint (pdg : PdgTable) (s : Settings) (api : RelationshipApi)
    (tc : TrackCreator) (v : Vertex) (hv : headRepeated v = false)
    (h : Disjoint tc.m_parentTrackList tc.m_daughterTrackList) :
    Disjoint (TrackCreator.kinkVertex pdg s api tc v).2.m_parentTrackList
        (TrackCreator.kinkVertex pdg s api tc v).2.m_daughterTrackList := by
  unfold TrackCreator.kinkVertex
  cases hc : tc.IsConflictingRelationship v.tracks with
  | true => simpa using h
  | false =>
    have hfree := isConflictingRelationship_false tc v.tracks hc
    obtain ⟨_, hP, hD⟩ := kinkTrackLoop_sets pdg s api v.pdgType v.tracks 0 tc
    simp only [Bool.false_eq_true, if_false]
    rw [Finset.disjoint_left] at h ⊢
    intro a ha hda
    rcases hP a ha with h1 | ⟨_, t, ht, rfl⟩
    · rcases hD a hda with h2 | ⟨u, hu, rfl⟩
      · exact h h1 h2
      · simp only [if_true] at hu
        exact (hfree u (List.mem_of_mem_tail hu)).1 h1
    · rcases hD _ hda with h2 | ⟨u, hu, hau⟩
      · exact (hfree t (List.mem_of_mem_head? ht)).2.1 h2
      · simp only [if_true] at hu
        cases hl : v.tracks with
        | nil => simp [hl] at ht
        | cons t0 rest =>
          rw [hl] at ht hu
          simp only [List.head?_cons, Option.some.injEq] at ht
          subst ht
          exact headRepeated_false v hv t0 rest hl u hu hau.symm


/-- The V0 set stays disjoint from the other two under a prong/split vertex. -/
theorem prongSplitVertex_v0Disjoint (s : Settings) (api : RelationshipApi)
    (tc : TrackCreator) (v : Vertex)
    (h : Disjoint tc.m_parentTrackList tc.m_v0TrackList ∧
      Disjoint tc.m_daughterTrackList tc.m_v0TrackList) :
    Disjoint (TrackCreator.prongSplitVertex s api tc v).2.m_parentTrackList
        (TrackCreator.prongSplitVertex s api tc v).2.m_v0TrackList ∧
      Disjoint (TrackCreator.prongSplitVertex s api tc v).2.m_daughterTrackList
        (TrackCreator.prongSplitVertex s api tc v).2.m_v0TrackList := by
  unfold TrackCreator.prongSplitVertex
  cases hc : tc.IsConflictingRelationship v.tracks with
  | true => simpa using h
  | false =>
    have hfree := isConflictingRelationship_false tc v.tracks hc
    obtain ⟨hV, hP, hD⟩ := prongSplitTrackLoop_sets s api v.tracks 0 tc
    simp only [Bool.false_eq_true, if_false, hV]
    rw [Finset.disjoint_left, Finset.disjoint_left] at h ⊢
    constructor
    · intro a ha
      rcases hP a ha with h1 | ⟨_, t, ht, rfl⟩
      · exact h.1 h1
      · exact (hfree t (List.mem_of_mem_head? ht)).2.2
    · intro a ha
      rcases hD a ha with h1 | ⟨t, ht, rfl⟩
      · exact h.2 h1
      · simp only [if_true] at ht
        exact (hfree t (List.mem_of_mem_tail ht)).2.2

/-- The parent and daughter sets stay disjoint under a prong/split vertex that does not repeat
its index-0 track. -/
theorem prongSplitVertex_parentDaughterDisjoint (s : Settings) (api : RelationshipApi)
    (tc : TrackCreator) (v : Vertex) (hv : headRepeated v = false)
    (h : Disjoint tc.m_parentTrackList tc.m_daughterTrackList) :
    Disjoint (TrackCreator.prongSplitVertex s api tc v).2.m_parentTrackList
        (TrackCreator.prongSplitVertex s api tc v).2.m_daughterTrackList := by
  unfold TrackCreator.prongSplitVertex
  cases hc : tc.IsConflictingRelationship v.tracks with
  | true => simpa using h
  | false =>
    have hfree := isConflictingRelationship_false tc v.tracks hc
    obtain ⟨_, hP, hD⟩ := prongSplitTrackLoop_sets s api v.tracks 0 tc
    simp only [Bool.false_eq_true, if_false]
    rw [Finset.disjoint_left] at h ⊢
    intro a ha hda
    rcases hP a ha with h1 | ⟨_, t, ht, rfl⟩
    · rcases hD a hda with h2 | ⟨u, hu, rfl⟩
      · exact h h1 h2
      · simp only [if_true] at hu
        exact (hfree u (List.mem_of_mem_tail hu)).1 h1
    · rcases hD _ hda with h2 | ⟨u, hu, hau⟩
      · exact (hfree t (List.mem_of_mem_head? ht)).2.1 h2
      · simp only [if_true] at hu
        cases hl : v.tracks with
        | nil => simp [hl] at ht
        | cons t0 rest =>
          rw [hl] at ht hu
          simp only [List.head?_cons, Option.some.injEq] at ht
          subst ht
          exact headRepeated_false v hv t0 rest hl u hu hau.symm

/-- A V0 vertex leaves the parent and daughter sets as they are. -/
theorem v0Vertex_parent_daughter (pdg : PdgTable) (s : Settings) (api : RelationshipApi)
    (tc : TrackCreator) (v : Vertex) :
    (TrackCreator.v0Vertex pdg s api tc v).2.m_parentTrackList = tc.m_parentTrackList ∧
    (TrackCreator.v0Vertex pdg s api tc v).2.m_daughterTrackList = tc.m_daughterTrackList := by
  unfold TrackCreator.v0Vertex
  split
  · exact ⟨rfl, rfl⟩
  · exact ⟨(v0TrackLoop_sets pdg s api v.pdgType v.tracks tc).1,
      (v0TrackLoop_sets pdg s api v.pdgType v.tracks tc).2.1⟩

/-- The V0 set stays disjoint from the other two under a V0 vertex, whatever its track list. -/
theorem v0Vertex_v0Disjoint (pdg : PdgTable) (s : Settings) (api : RelationshipApi)
    (tc : TrackCreator) (v : Vertex)
    (h : Disjoint tc.m_parentTrackList tc.m_v0TrackList ∧
      Disjoint tc.m_daughterTrackList tc.m_v0TrackList) :
    Disjoint (TrackCreator.v0Vertex pdg s api tc v).2.m_parentTrackList
        (TrackCreator.v0Vertex pdg s api tc v).2.m_v0TrackList ∧
      Disjoint (TrackCreator.v0Vertex pdg s api tc v).2.m_daughterTrackList
        (TrackCreator.v0Vertex pdg s api tc v).2.m_v0TrackList := by
  unfold TrackCreator.v0Vertex
  cases hc : tc.IsConflictingRelationship v.tracks with
  | true => simpa using h
  | false =>
    have hfree := isConflictingRelationship_false tc v.tracks hc
    obtain ⟨hP, hD, hV⟩ := v0TrackLoop_sets pdg s api v.pdgType v.tracks tc
    simp only [Bool.false_eq_true, if_false]
    rw [hP, hD]
    constructor
    · rw [Finset.disjoint_left]
      intro a ha hav
      rcases hV a hav with h1 | ⟨t, ht, rfl⟩
      · exact Finset.disjoint_left.mp h.1 ha h1
      · exact (hfree t ht).1 ha
    · rw [Finset.disjoint_left]
      intro a ha hav
      rcases hV a hav with h1 | ⟨t, ht, rfl⟩
      · exact Finset.disjoint_left.mp h.2 ha h1
      · exact (hfree t ht).2.1 ha

/-- The state CreateTrackAssociations returns is the one left by the last extraction run. -/
theorem createTrackAssociations_state (pdg : PdgTable) (s : Settings) (api : RelationshipApi)
    (ev : LCEvent) (tc : TrackCreator) :
    (TrackCreator.CreateTrackAssociations pdg s api ev tc).2 =
        (TrackCreator.ExtractKinks pdg s api ev tc).2 ∨
    (TrackCreator.CreateTrackAssociations pdg s api ev tc).2 =
        (TrackCreator.ExtractProngsAndSplits s api ev
          (TrackCreator.ExtractKinks pdg s api ev tc).2).2 ∨
    (TrackCreator.CreateTrackAssociations pdg s api ev tc).2 =
        (TrackCreator.ExtractV0s pdg s api ev
          (TrackCreator.ExtractProngsAndSplits s api ev
            (TrackCreator.ExtractKinks pdg s api ev tc).2).2).2 := by
  unfold TrackCreator.CreateTrackAssociations
  simp only
  split
  · split
    · split
      · exact Or.inr (Or.inr rfl)
      · exact Or.inr (Or.inr rfl)
    · exact Or.inr (Or.inl rfl)
  · exact Or.inl rfl

/-- C1 (amended). From empty parent and daughter sets, after CreateTrackAssociations on any
event, with any answers of the relationship API:
the V0 set is disjoint from the parent set and from the daughter set, whatever the track
lists; and the parent and daughter sets are disjoint provided no kink or prong/split vertex
lists its index-0 track again at a later index. -/
theorem createTrackAssociations_disjoint (pdg : PdgTable) (s : Settings) (api : RelationshipApi)
    (ev : LCEvent) (tc : TrackCreator)
    (hP : tc.m_parentTrackList = ∅) (hD : tc.m_daughterTrackList = ∅) :
    (Disjoint (TrackCreator.CreateTrackAssociations pdg s api ev tc).2.m_parentTrackList
        (TrackCreator.CreateTrackAssociations pdg s api ev tc).2.m_v0TrackList ∧
      Disjoint (TrackCreator.CreateTrackAssociations pdg s api ev tc).2.m_daughterTrackList
        (TrackCreator.CreateTrackAssociations pdg s api ev tc).2.m_v0TrackList) ∧
    ((∀ name ∈ s.m_kinkVertexCollections ++ s.m_prongSplitVertexCollections,
        ∀ vs, ev.vertexCollection name = some vs → ∀ v ∈ vs, headRepeated v = false) →
      Disjoint (TrackCreator.CreateTrackAssociations pdg s api ev tc).2.m_parentTrackList
        (TrackCreator.CreateTrackAssociations pdg s api ev tc).2.m_daughterTrackList) := by
  constructor
  · have h0 : Disjoint tc.m_parentTrackList tc.m_v0TrackList ∧
        Disjoint tc.m_daughterTrackList tc.m_v0TrackList := by
      rw [hP, hD]; exact ⟨Finset.disjoint_empty_left _, Finset.disjoint_empty_left _⟩
    have h1 := collectionLoop_preserves
      (fun x => Disjoint x.m_parentTrackList x.m_v0TrackList ∧
        Disjoint x.m_daughterTrackList x.m_v0TrackList) (fun _ => True) ev
      (TrackCreator.kinkVertex pdg s api)
      (fun x v _ hx => kinkVertex_v0Disjoint pdg s api x v hx)
      s.m_kinkVertexCollections tc (fun _ _ _ _ _ _ => trivial) h0
    have h2 := collectionLoop_preserves
      (fun x => Disjoint x.m_parentTrackList x.m_v0TrackList ∧
        Disjoint x.m_daughterTrackList x.m_v0TrackList) (fun _ => True) ev
      (TrackCreator.prongSplitVertex s api)
      (fun x v _ hx => prongSplitVertex_v0Disjoint s api x v hx)
      s.m_prongSplitVertexCollections _ (fun _ _ _ _ _ _ => trivial) h1
    have h3 := collectionLoop_preserves
      (fun x => Disjoint x.m_parentTrackList x.m_v0TrackList ∧
        Disjoint x.m_daughterTrackList x.m_v0TrackList) (fun _ => True) ev
      (TrackCreator.v0Vertex pdg s api)
      (fun x v _ hx => v0Vertex_v0Disjoint pdg s api x v hx)
      s.m_v0VertexCollections _ (fun _ _ _ _ _ _ => trivial) h2
    rcases createTrackAssociations_state pdg s api ev tc with h | h | h <;> rw [h]
    · exact h1
    · exact h2
    · exact h3
  · intro hQ
    have h0 : Disjoint tc.m_parentTrackList tc.m_daughterTrackList := by
      rw [hP]; exact Finset.disjoint_empty_left _
    have h1 := collectionLoop_preserves
      (fun x => Disjoint x.m_parentTrackList x.m_daughterTrackList)
      (fun v => headRepeated v = false) ev
      (TrackCreator.kinkVertex pdg s api)
      (fun x v hv hx => kinkVertex_parentDaughterDisjoint pdg s api x v hv hx)
      s.m_kinkVertexCollections tc
      (fun name hn => hQ name (List.mem_append_left _ hn)) h0
    have h2 := collectionLoop_preserves
      (fun x => Disjoint x.m_parentTrackList x.m_daughterTrackList)
      (fun v => headRepeated v = false) ev
      (TrackCreator.prongSplitVertex s api)
      (fun x v hv hx => prongSplitVertex_parentDaughterDisjoint s api x v hv hx)
      s.m_prongSplitVertexCollections _
      (fun name hn => hQ name (List.mem_append_right _ hn)) h1
    have h3 := collectionLoop_preserves
      (fun x => Disjoint x.m_parentTrackList x.m_daughterTrackList) (fun _ => True) ev
      (TrackCreator.v0Vertex pdg s api)
      (fun x v _ hx => by
        show Disjoint (TrackCreator.v0Vertex pdg s api x v).2.m_parentTrackList
          (TrackCreator.v0Vertex pdg s api x v).2.m_daughterTrackList
        rw [(v0Vertex_parent_daughter pdg s api x v).1, (v0Vertex_parent_daughter pdg s api x v).2]
        exact hx)
      s.m_v0VertexCollections _ (fun _ _ _ _ _ _ => trivial) h2
    rcases createTrackAssociations_state pdg s api ev tc with h | h | h <;> rw [h]
    · exact h1
    · exact h2
    · exact h3

/-- C1, witness: the amended statement applied to an event with overlapping vertices and a
V0 that repeats a track. -/
theorem createTrackAssociations_disjoint_witness :
    (Disjoint (TrackCreator.CreateTrackAssociations samplePdg sampleSettings acceptAll
          overlappingEvent TrackCreator.initial).2.m_parentTrackList
        (TrackCreator.CreateTrackAssociations samplePdg sampleSettings acceptAll
          overlappingEvent TrackCreator.initial).2.m_v0TrackList ∧
      Disjoint (TrackCreator.CreateTrackAssociations samplePdg sampleSettings acceptAll
          overlappingEvent TrackCreator.initial).2.m_daughterTrackList
        (TrackCreator.CreateTrackAssociations samplePdg sampleSettings acceptAll
          overlappingEvent TrackCreator.initial).2.m_v0TrackList) ∧
    Disjoint (TrackCreator.CreateTrackAssociations samplePdg sampleSettings acceptAll
          overlappingEvent TrackCreator.initial).2.m_parentTrackList
        (TrackCreator.CreateTrackAssociations samplePdg sampleSettings acceptAll
          overlappingEvent TrackCreator.initial).2.m_daughterTrackList :=
  have h := createTrackAssociations_disjoint samplePdg sampleSettings acceptAll overlappingEvent
    TrackCreator.initial rfl rfl
  ⟨h.1, h.2 (by
    intro name hn vs hvs v hv
    simp only [sampleSettings, List.cons_append, List.nil_append, List.mem_cons,
      List.mem_singleton, List.not_mem_nil, or_false] at hn
    rcases hn with rfl | rfl
    · have hk : overlappingEvent.vertexCollection "Kinks" = some sampleKinks := by decide
      rw [hk] at hvs
      cases hvs
      revert v hv
      decide
    · have hk : overlappingEvent.vertexCollection "Prongs" = some sampleProngs := by decide
      rw [hk] at hvs
      cases hvs
      revert v hv
      decide)⟩

/-- C1, counterexample: a kink vertex that lists the same track twice puts that track in
both the parent set and the daughter set. -/
theorem createTrackAssociations_not_disjoint :
    (TrackCreator.CreateTrackAssociations samplePdg sampleSettings acceptAll repeatedTrackEvent
        TrackCreator.initial).2.m_parentTrackList = {1} ∧
    (TrackCreator.CreateTrackAssociations samplePdg sampleSettings acceptAll repeatedTrackEvent
        TrackCreator.initial).2.m_daughterTrackList = {1} ∧
    ¬ Disjoint
      (TrackCreator.CreateTrackAssociations samplePdg sampleSettings acceptAll repeatedTrackEvent
        TrackCreator.initial).2.m_parentTrackList
      (TrackCreator.CreateTrackAssociations samplePdg sampleSettings acceptAll repeatedTrackEvent
        TrackCreator.initial).2.m_daughterTrackList := by
  decide

/-! ### Conflict veto -/

/-- Every state extends itself. -/
theorem extends_refl (tc : TrackCreator) : Extends tc tc :=
  ⟨Finset.Subset.refl _, Finset.Subset.refl _, Finset.Subset.refl _, fun _ _ h => h, [], by simp⟩

/-- Extension is transitive. -/
theorem extends_trans {a b c : TrackCreator} (hab : Extends a b) (hbc : Extends b c) :
    Extends a c := by
  obtain ⟨p1, d1, v1, m1, s1, e1⟩ := hab
  obtain ⟨p2, d2, v2, m2, s2, e2⟩ := hbc
  exact ⟨p1.trans p2, d1.trans d2, v1.trans v2, fun k x h => m2 k x (m1 k x h),
    s1 ++ s2, by rw [e2, e1, List.append_assoc]⟩

/-- An insertion into the identity map keeps every entry that was there. -/
theorem pidFind_pidInsert_of_some (m : TrackToPidMap) (a : Nat) (x : Int) (k : Nat) (c : Int)
    (h : TrackCreator.pidFind m k = some c) :
    TrackCreator.pidFind (TrackCreator.pidInsert m a x) k = some c := by
  unfold TrackCreator.pidInsert
  split
  · exact h
  · unfold TrackCreator.pidFind at h ⊢
    rw [List.lookup_append, h]; rfl

/-- An insertion for a key without entry records the code given. -/
theorem pidFind_pidInsert_of_none (m : TrackToPidMap) (a : Nat) (x : Int)
    (h : TrackCreator.pidFind m a = none) :
    TrackCreator.pidFind (TrackCreator.pidInsert m a x) a = some x := by
  unfold TrackCreator.pidInsert
  rw [h]
  unfold TrackCreator.pidFind at h ⊢
  rw [List.lookup_append, h]
  simp [List.lookup_cons]

/-- After an insertion the key has an entry. -/
theorem pidFind_pidInsert_isSome (m : TrackToPidMap) (a : Nat) (x : Int) :
    (TrackCreator.pidFind (TrackCreator.pidInsert m a x) a).isSome = true := by
  cases h : TrackCreator.pidFind m a with
  | none => rw [pidFind_pidInsert_of_none m a x h]; rfl
  | some c => rw [pidFind_pidInsert_of_some m a x a c h]; rfl

/-- The membership insertion extends the state. -/
theorem extends_insertParentOrDaughter (i : Nat) (t : Track) (tc : TrackCreator) :
    Extends tc (TrackCreator.insertParentOrDaughter i t tc) := by
  unfold TrackCreator.insertParentOrDaughter
  by_cases hi : i = 0
  · simp only [hi, if_true]
    exact ⟨Finset.subset_insert _ _, Finset.Subset.refl _, Finset.Subset.refl _,
      fun _ _ h => h, [], by simp⟩
  · simp only [hi, if_false]
    exact ⟨Finset.Subset.refl _, Finset.subset_insert _ _, Finset.Subset.refl _,
      fun _ _ h => h, [], by simp⟩

/-- The insertions for a kink track, followed by further declarations, extend the state. -/
theorem extends_registerKinkTrack (pdg : PdgTable) (code : Int) (i : Nat) (t : Track)
    (tc : TrackCreator) (suffix : List Relationship) :
    Extends tc { TrackCreator.registerKinkTrack pdg code i t tc with
      pandoraRelationships :=
        (TrackCreator.registerKinkTrack pdg code i t tc).pandoraRelationships ++ suffix } := by
  obtain ⟨p, d, v, _, _⟩ := extends_insertParentOrDaughter i t tc
  have hrel : (TrackCreator.insertParentOrDaughter i t tc).pandoraRelationships
      = tc.pandoraRelationships := by
    unfold TrackCreator.insertParentOrDaughter; split <;> rfl
  have hmap : (TrackCreator.insertParentOrDaughter i t tc).m_trackToPidMap
      = tc.m_trackToPidMap := by
    unfold TrackCreator.insertParentOrDaughter; split <;> rfl
  refine ⟨p, d, v, ?_, suffix, ?_⟩
  · intro k c h
    simp only [TrackCreator.registerKinkTrack, hmap]
    exact pidFind_pidInsert_of_some _ _ _ k c h
  · simp [TrackCreator.registerKinkTrack, hrel]

/-- The kink loop only extends the state. -/
theorem kinkTrackLoop_extends (pdg : PdgTable) (s : Settings) (api : RelationshipApi)
    (code : Int) : ∀ (l : List Track) (i : Nat) (tc : TrackCreator),
      Extends tc (TrackCreator.kinkTrackLoop pdg s api code i l tc).2 := by
  intro l
  induction l with
  | nil => intro i tc; simpa [TrackCreator.kinkTrackLoop] using extends_refl tc
  | cons t rest ih =>
    intro i tc
    obtain ⟨suffix, hr⟩ := kinkTrackLoop_cons pdg s api code i t rest tc
    rcases hr with ⟨hr, _⟩ | ⟨hr, _⟩
    · rw [hr]
      exact extends_trans (extends_registerKinkTrack pdg code i t tc suffix) (ih _ _)
    · rw [hr]
      exact extends_registerKinkTrack pdg code i t tc suffix

/-- The inner loop ends with success when the API accepts every declaration. -/
theorem declareRelationships_status (api : RelationshipApi) (mk : Nat → Relationship)
    (hApi : ∀ d r, api d r = StatusCode.STATUS_CODE_SUCCESS) :
    ∀ (l : List Track) (d : List Relationship),
      (TrackCreator.declareRelationships api mk l d).1 = StatusCode.STATUS_CODE_SUCCESS := by
  intro l
  induction l with
  | nil => intro d; rfl
  | cons t rest ih => intro d; simp only [TrackCreator.declareRelationships, hApi, if_true]; exact ih _

/-- The kink loop ends with success when relationship formation is off or the API accepts
every declaration. -/
theorem kinkTrackLoop_status (pdg : PdgTable) (s : Settings) (api : RelationshipApi)
    (code : Int)
    (hOk : s.m_shouldFormTrackRelationships = 0 ∨ ∀ d r, api d r = StatusCode.STATUS_CODE_SUCCESS) :
    ∀ (l : List Track) (i : Nat) (tc : TrackCreator),
      (TrackCreator.kinkTrackLoop pdg s api code i l tc).1 = StatusCode.STATUS_CODE_SUCCESS := by
  intro l
  induction l with
  | nil => intro i tc; rfl
  | cons t rest ih =>
    intro i tc
    simp only [TrackCreator.kinkTrackLoop]
    by_cases hflag : s.m_shouldFormTrackRelationships = 0
    · simp only [hflag, if_true]; exact ih _ _
    · have hApi := hOk.resolve_left hflag
      simp only [hflag, if_false, declareRelationships_status api _ hApi, if_true]
      exact ih _ _

/-- When the kink loop ends with success, every listed track has been registered: the track
at index 0 in the parent set, the others in the daughter set, each with an identity entry,
and (flag on) each link from a track to a later one has been declared. -/
theorem kinkTrackLoop_registered (pdg : PdgTable) (s : Settings) (api : RelationshipApi)
    (code : Int) : ∀ (l : List Track) (i : Nat) (tc : TrackCreator),
      (TrackCreator.kinkTrackLoop pdg s api code i l tc).1 = StatusCode.STATUS_CODE_SUCCESS →
      (∀ t, i = 0 → l.head? = some t →
        t.addr ∈ (TrackCreator.kinkTrackLoop pdg s api code i l tc).2.m_parentTrackList ∧
        (s.m_shouldFormTrackRelationships ≠ 0 → ∀ u ∈ l.tail,
          Relationship.parentDaughter t.addr u.addr ∈
            (TrackCreator.kinkTrackLoop pdg s api code i l tc).2.pandoraRelationships)) ∧
      (∀ u ∈ (if i = 0 then l.tail else l),
        u.addr ∈ (TrackCreator.kinkTrackLoop pdg s api code i l tc).2.m_daughterTrackList) ∧
      (∀ t ∈ l, (TrackCreator.pidFind
        (TrackCreator.kinkTrackLoop pdg s api code i l tc).2.m_trackToPidMap t.addr).isSome = true) := by
  intro l
  induction l with
  | nil =>
    intro i tc _
    refine ⟨fun t _ h => by simp at h, fun u hu => ?_, fun t ht => by simp at ht⟩
    split at hu <;> simp at hu
  | cons t rest ih =>
    intro i tc hs
    obtain ⟨suffix, hr⟩ := kinkTrackLoop_cons pdg s api code i t rest tc
    rcases hr with ⟨hr, hsuf⟩ | ⟨_, hfail⟩
    · rw [hr] at hs ⊢
      obtain ⟨_, h2, h3⟩ := ih (i + 1) _ hs
      obtain ⟨eP, eD, _, eM, s2, eR⟩ := kinkTrackLoop_extends pdg s api code rest (i + 1)
        { TrackCreator.registerKinkTrack pdg code i t tc with
          pandoraRelationships :=
            (TrackCreator.registerKinkTrack pdg code i t tc).pandoraRelationships ++ suffix }
      simp only [Nat.succ_ne_zero, if_false, Nat.add_one] at h2
      refine ⟨?_, ?_, ?_⟩
      · intro t0 hi ht0
        simp only [List.head?_cons, Option.some.injEq] at ht0
        subst ht0
        constructor
        · apply eP
          simp [TrackCreator.registerKinkTrack, mem_parent_insertParentOrDaughter, hi]
        · intro hflag u hu
          rw [eR]
          apply List.mem_append_left
          apply List.mem_append_right
          rw [hsuf]
          simp only [hflag, if_false, List.mem_map]
          exact ⟨u, hu, by simp [TrackCreator.parentOrSiblingLink, hi]⟩
      · intro u hu
        by_cases hi : i = 0
        · simp only [hi, if_true, List.tail_cons] at hu
          exact h2 u hu
        · simp only [hi, if_false] at hu
          rcases List.mem_cons.mp hu with rfl | hu
          · apply eD
            simp [TrackCreator.registerKinkTrack, mem_daughter_insertParentOrDaughter, hi]
          · exact h2 u hu
      · intro u hu
        rcases List.mem_cons.mp hu with rfl | hu
        · have h0 := pidFind_pidInsert_isSome
            (TrackCreator.insertParentOrDaughter i u tc).m_trackToPidMap u.addr
            (if i = 0 then code else TrackCreator.kinkDaughterPdgCode pdg code u.omega)
          obtain ⟨c, hc⟩ := Option.isSome_iff_exists.mp h0
          have := eM u.addr c (by simpa [TrackCreator.registerKinkTrack] using hc)
          rw [this]; rfl
        · exact h3 u hu
    · exact absurd hs hfail

/-- A listed track that is in one of the sets makes the vertex conflicting. -/
theorem isConflictingRelationship_true (tc : TrackCreator) :
    ∀ l : List Track,
      (∃ t ∈ l, t.addr ∈ tc.m_parentTrackList ∨ t.addr ∈ tc.m_daughterTrackList ∨
        t.addr ∈ tc.m_v0TrackList) → tc.IsConflictingRelationship l = true := by
  intro l
  induction l with
  | nil => rintro ⟨t, ht, _⟩; simp at ht
  | cons u rest ih =>
    rintro ⟨t, ht, h⟩
    simp only [TrackCreator.IsConflictingRelationship, TrackCreator.IsDaughter,
      TrackCreator.IsParent, TrackCreator.IsV0]
    split
    · rfl
    · rename_i hu
      simp only [Bool.or_eq_true, decide_eq_true_eq, not_or] at hu
      rcases List.mem_cons.mp ht with rfl | ht
      · rcases h with h | h | h
        · exact absurd h hu.1.2
        · exact absurd h hu.1.1
        · exact absurd h hu.2
      · exact ih ⟨t, ht, h⟩

/-- A conflicting kink vertex is skipped. -/
theorem kinkVertex_of_conflict (pdg : PdgTable) (s : Settings) (api : RelationshipApi)
    (tc : TrackCreator) (v : Vertex) (h : tc.IsConflictingRelationship v.tracks = true) :
    TrackCreator.kinkVertex pdg s api tc v = (StatusCode.STATUS_CODE_SUCCESS, tc) := by
  simp [TrackCreator.kinkVertex, h]

/-- C2. A vertex of any category that lists a track already in the parent, daughter or V0
set is skipped: the state (sets, identity map, declarations) is returned unchanged. Of two
kink vertices sharing a track, the first being free of conflicts, processing both gives what
processing the first alone gives; and when relationship formation is off or the API accepts
the declarations, the first has its index-0 track in the parent set with the vertex identity
(if it had none), the parent-daughter links declared, the other tracks in the daughter set,
and an identity entry for each track. -/
theorem conflict_veto (pdg : PdgTable) (s : Settings) (api : RelationshipApi)
    (tc : TrackCreator) :
    (∀ v : Vertex,
      (∃ t ∈ v.tracks, t.addr ∈ tc.m_parentTrackList ∨ t.addr ∈ tc.m_daughterTrackList ∨
        t.addr ∈ tc.m_v0TrackList) →
      TrackCreator.kinkVertex pdg s api tc v = (StatusCode.STATUS_CODE_SUCCESS, tc) ∧
      TrackCreator.prongSplitVertex s api tc v = (StatusCode.STATUS_CODE_SUCCESS, tc) ∧
      TrackCreator.v0Vertex pdg s api tc v = (StatusCode.STATUS_CODE_SUCCESS, tc)) ∧
    (∀ (v1 v2 : Vertex) (t0 : Track) (rest : List Track),
      v1.tracks = t0 :: rest →
      tc.IsConflictingRelationship v1.tracks = false →
      (∃ t1 ∈ v1.tracks, ∃ t2 ∈ v2.tracks, t1.addr = t2.addr) →
      TrackCreator.vertexLoop (TrackCreator.kinkVertex pdg s api) [v1, v2] tc
        = TrackCreator.kinkVertex pdg s api tc v1 ∧
      ((s.m_shouldFormTrackRelationships = 0 ∨
          ∀ d r, api d r = StatusCode.STATUS_CODE_SUCCESS) →
        (TrackCreator.kinkVertex pdg s api tc v1).1 = StatusCode.STATUS_CODE_SUCCESS ∧
        t0.addr ∈ (TrackCreator.kinkVertex pdg s api tc v1).2.m_parentTrackList ∧
        (TrackCreator.pidFind tc.m_trackToPidMap t0.addr = none →
          TrackCreator.pidFind (TrackCreator.kinkVertex pdg s api tc v1).2.m_trackToPidMap t0.addr
            = some v1.pdgType) ∧
        (s.m_shouldFormTrackRelationships ≠ 0 → ∀ u ∈ rest,
          Relationship.parentDaughter t0.addr u.addr ∈
            (TrackCreator.kinkVertex pdg s api tc v1).2.pandoraRelationships) ∧
        (∀ u ∈ rest, u.addr ∈ (TrackCreator.kinkVertex pdg s api tc v1).2.m_daughterTrackList) ∧
        (∀ t ∈ v1.tracks, (TrackCreator.pidFind
          (TrackCreator.kinkVertex pdg s api tc v1).2.m_trackToPidMap t.addr).isSome = true))) := by
  constructor
  · intro v hv
    have hc := isConflictingRelationship_true tc v.tracks hv
    simp [TrackCreator.kinkVertex, TrackCreator.prongSplitVertex, TrackCreator.v0Vertex, hc]
  · intro v1 v2 t0 rest hl hfree hshare
    have hk : TrackCreator.kinkVertex pdg s api tc v1
        = TrackCreator.kinkTrackLoop pdg s api v1.pdgType 0 (t0 :: rest) tc := by
      unfold TrackCreator.kinkVertex
      rw [hfree, hl]
      simp
    constructor
    · simp only [TrackCreator.vertexLoop]
      split
      · rename_i hs
        have hreg := kinkTrackLoop_registered pdg s api v1.pdgType (t0 :: rest) 0 tc (hk ▸ hs)
        obtain ⟨t1, ht1, t2, ht2, h12⟩ := hshare
        have hconf : (TrackCreator.kinkVertex pdg s api tc v1).2.IsConflictingRelationship v2.tracks
            = true := by
          apply isConflictingRelationship_true
          refine ⟨t2, ht2, ?_⟩
          rw [← h12, hk]
          rw [hl] at ht1
          rcases List.mem_cons.mp ht1 with rfl | ht1
          · exact Or.inl (hreg.1 t1 rfl rfl).1
          · exact Or.inr (Or.inl (hreg.2.1 t1 (by simpa using ht1)))
        rw [kinkVertex_of_conflict pdg s api _ v2 hconf]
        exact Prod.ext hs.symm rfl
      · rfl
    · intro hOk
      have hs := kinkTrackLoop_status pdg s api v1.pdgType hOk (t0 :: rest) 0 tc
      have hreg := kinkTrackLoop_registered pdg s api v1.pdgType (t0 :: rest) 0 tc hs
      rw [hk]
      refine ⟨hs, (hreg.1 t0 rfl rfl).1, ?_, (hreg.1 t0 rfl rfl).2, ?_, hl ▸ hreg.2.2⟩
      · intro hnone
        obtain ⟨suffix, hr⟩ := kinkTrackLoop_cons pdg s api v1.pdgType 0 t0 rest tc
        rcases hr with ⟨hr, _⟩ | ⟨_, hfail⟩
        · rw [hr]
          apply (kinkTrackLoop_extends pdg s api v1.pdgType rest 1 _).2.2.2.1
          simp only [TrackCreator.registerKinkTrack, TrackCreator.insertParentOrDaughter, if_true]
          exact pidFind_pidInsert_of_none _ _ _ hnone
        · exact absurd hs hfail
      · intro u hu
        exact hreg.2.1 u (by simpa using hu)

/-- C2, witness: kinkB is skipped in the state left by kinkA (under each of the three
extractions), and processing kinkA then kinkB from the initial state gives what kinkA alone
gives, with kinkA fully registered. -/
theorem conflict_veto_witness :
    (TrackCreator.kinkVertex samplePdg sampleSettings acceptAll afterKinkA kinkB
        = (StatusCode.STATUS_CODE_SUCCESS, afterKinkA) ∧
      TrackCreator.prongSplitVertex sampleSettings acceptAll afterKinkA kinkB
        = (StatusCode.STATUS_CODE_SUCCESS, afterKinkA) ∧
      TrackCreator.v0Vertex samplePdg sampleSettings acceptAll afterKinkA kinkB
        = (StatusCode.STATUS_CODE_SUCCESS, afterKinkA)) ∧
    TrackCreator.vertexLoop (TrackCreator.kinkVertex samplePdg sampleSettings acceptAll)
        [kinkA, kinkB] TrackCreator.initial
      = TrackCreator.kinkVertex samplePdg sampleSettings acceptAll TrackCreator.initial kinkA ∧
    (1 ∈ afterKinkA.m_parentTrackList ∧
      TrackCreator.pidFind afterKinkA.m_trackToPidMap 1 = some 321 ∧
      Relationship.parentDaughter 1 2 ∈ afterKinkA.pandoraRelationships ∧
      2 ∈ afterKinkA.m_daughterTrackList) :=
  have h := (conflict_veto samplePdg sampleSettings acceptAll TrackCreator.initial).2
    kinkA kinkB (sampleTrack 1 1) [sampleTrack 2 (-1)] rfl (by decide)
    ⟨sampleTrack 2 (-1), by decide, sampleTrack 2 (-1), by decide, rfl⟩
  have h2 := h.2 (Or.inr (fun _ _ => rfl))
  ⟨(conflict_veto samplePdg sampleSettings acceptAll afterKinkA).1 kinkB
      ⟨sampleTrack 2 (-1), by decide, by decide⟩,
    h.1,
    h2.2.1, h2.2.2.1 (by decide), h2.2.2.2.1 (by decide) (sampleTrack 2 (-1)) (by decide),
    h2.2.2.2.2.1 (sampleTrack 2 (-1)) (by decide)⟩

/-! ### Identity of kink tracks -/

/-- An insertion leaves the lookup of every other key as it was. -/
theorem pidFind_pidInsert_of_ne (m : TrackToPidMap) (a : Nat) (x : Int) (k : Nat)
    (h : k ≠ a) :
    TrackCreator.pidFind (TrackCreator.pidInsert m a x) k = TrackCreator.pidFind m k := by
  unfold TrackCreator.pidInsert
  split
  · rfl
  · unfold TrackCreator.pidFind
    rw [List.lookup_append]
    cases List.lookup k m with
    | some c => rfl
    | none =>
      have hb : (k == a) = false := by simpa using h
      simp [List.lookup_cons, hb]

/-- The identity recorded for the daughters of a kink vertex. When the loop from an index
other than 0 ends with success, a listed track without earlier identity entry has the code the
switch gives for the first listed track with its address. -/
theorem kinkTrackLoop_daughter_identity (pdg : PdgTable) (s : Settings) (api : RelationshipApi)
    (code : Int) : ∀ (l : List Track) (i : Nat) (tc : TrackCreator), i ≠ 0 →
      (TrackCreator.kinkTrackLoop pdg s api code i l tc).1 = StatusCode.STATUS_CODE_SUCCESS →
      ∀ u ∈ l, TrackCreator.pidFind tc.m_trackToPidMap u.addr = none →
        ∃ w ∈ l, w.addr = u.addr ∧
          TrackCreator.pidFind (TrackCreator.kinkTrackLoop pdg s api code i l tc).2.m_trackToPidMap
            u.addr = some (TrackCreator.kinkDaughterPdgCode pdg code w.omega) := by
  intro l
  induction l with
  | nil => intro i tc _ _ u hu; simp at hu
  | cons t rest ih =>
    intro i tc hi hs u hu hnone
    obtain ⟨suffix, hr⟩ := kinkTrackLoop_cons pdg s api code i t rest tc
    rcases hr with ⟨hr, _⟩ | ⟨_, hfail⟩
    · rw [hr] at hs ⊢
      have hmap : (TrackCreator.registerKinkTrack pdg code i t tc).m_trackToPidMap
          = TrackCreator.pidInsert tc.m_trackToPidMap t.addr
              (TrackCreator.kinkDaughterPdgCode pdg code t.omega) := by
        simp [TrackCreator.registerKinkTrack, TrackCreator.insertParentOrDaughter, hi]
      by_cases hut : u.addr = t.addr
      · refine ⟨t, List.mem_cons_self _ _, hut.symm, ?_⟩
        apply (kinkTrackLoop_extends pdg s api code rest (i + 1) _).2.2.2.1
        show TrackCreator.pidFind (TrackCreator.registerKinkTrack pdg code i t tc).m_trackToPidMap
          u.addr = _
        rw [hmap, hut]
        exact pidFind_pidInsert_of_none _ _ _ (hut ▸ hnone)
      · have hur : u ∈ rest := by
          rcases List.mem_cons.mp hu with rfl | h
          · exact absurd rfl hut
          · exact h
        obtain ⟨w, hw, hwa, hfind⟩ := ih (i + 1) _ (Nat.succ_ne_zero i) hs u hur (by
          show TrackCreator.pidFind (TrackCreator.registerKinkTrack pdg code i t tc).m_trackToPidMap
            u.addr = none
          rw [hmap, pidFind_pidInsert_of_ne _ _ _ _ hut]
          exact hnone)
        exact ⟨w, List.mem_cons_of_mem _ hw, hwa, hfind⟩
    · exact absurd hs hfail

/-- The identities recorded by a conflict-free kink vertex whose tracks had no identity entry:
the vertex code for the index-0 track, and for a later track with another address the code
the switch gives for the first later track with its address. -/
theorem kinkVertex_identity (pdg : PdgTable) (s : Settings) (api : RelationshipApi)
    (tc : TrackCreator) (v : Vertex) (t0 : Track) (rest : List Track)
    (hv : v.tracks = t0 :: rest)
    (hfree : tc.IsConflictingRelationship v.tracks = false)
    (hnew : ∀ t ∈ v.tracks, TrackCreator.pidFind tc.m_trackToPidMap t.addr = none)
    (hOk : s.m_shouldFormTrackRelationships = 0 ∨
      ∀ d r, api d r = StatusCode.STATUS_CODE_SUCCESS) :
    TrackCreator.pidFind (TrackCreator.kinkVertex pdg s api tc v).2.m_trackToPidMap t0.addr
      = some v.pdgType ∧
    ∀ u ∈ rest, u.addr ≠ t0.addr → ∃ w ∈ rest, w.addr = u.addr ∧
      TrackCreator.pidFind (TrackCreator.kinkVertex pdg s api tc v).2.m_trackToPidMap u.addr
        = some (TrackCreator.kinkDaughterPdgCode pdg v.pdgType w.omega) := by
  have hk : TrackCreator.kinkVertex pdg s api tc v
      = TrackCreator.kinkTrackLoop pdg s api v.pdgType 0 (t0 :: rest) tc := by
    unfold TrackCreator.kinkVertex
    rw [hfree, hv]
    simp
  have hs := kinkTrackLoop_status pdg s api v.pdgType hOk (t0 :: rest) 0 tc
  have hmap : (TrackCreator.registerKinkTrack pdg v.pdgType 0 t0 tc).m_trackToPidMap
      = TrackCreator.pidInsert tc.m_trackToPidMap t0.addr v.pdgType := by
    simp [TrackCreator.registerKinkTrack, TrackCreator.insertParentOrDaughter]
  obtain ⟨suffix, hr⟩ := kinkTrackLoop_cons pdg s api v.pdgType 0 t0 rest tc
  rcases hr with ⟨hr, _⟩ | ⟨_, hfail⟩
  · rw [hk, hr]
    rw [hr] at hs
    constructor
    · apply (kinkTrackLoop_extends pdg s api v.pdgType rest 1 _).2.2.2.1
      show TrackCreator.pidFind (TrackCreator.registerKinkTrack pdg v.pdgType 0 t0 tc).m_trackToPidMap
        t0.addr = _
      rw [hmap]
      exact pidFind_pidInsert_of_none _ _ _ (hnew t0 (hv ▸ List.mem_cons_self _ _))
    · intro u hu hne
      exact kinkTrackLoop_daughter_identity pdg s api v.pdgType rest 1 _ (Nat.succ_ne_zero 0) hs u hu
        (by
          show TrackCreator.pidFind
            (TrackCreator.registerKinkTrack pdg v.pdgType 0 t0 tc).m_trackToPidMap u.addr = none
          rw [hmap, pidFind_pidInsert_of_ne _ _ _ _ hne]
          exact hnew u (hv ▸ List.mem_cons_of_mem _ hu))
  · exact absurd hs hfail

/-- C3 (amended). For a conflict-free kink vertex with identity K+ whose tracks have no
identity entry yet (relationship formation off, or the API accepting the declarations),
ExtractKinks records K+ for the index-0 track and MU_PLUS, the muon of the sign of the
parent, for every later track with another address, whatever that track's curvature. -/
theorem kink_kplus_daughter_is_mu_plus (pdg : PdgTable) (s : Settings) (api : RelationshipApi)
    (tc : TrackCreator) (v : Vertex) (t0 : Track) (rest : List Track)
    (hv : v.tracks = t0 :: rest) (hK : v.pdgType = pdg.K_PLUS)
    (hfree : tc.IsConflictingRelationship v.tracks = false)
    (hnew : ∀ t ∈ v.tracks, TrackCreator.pidFind tc.m_trackToPidMap t.addr = none)
    (hOk : s.m_shouldFormTrackRelationships = 0 ∨
      ∀ d r, api d r = StatusCode.STATUS_CODE_SUCCESS) :
    TrackCreator.pidFind (TrackCreator.kinkVertex pdg s api tc v).2.m_trackToPidMap t0.addr
      = some pdg.K_PLUS ∧
    ∀ u ∈ rest, u.addr ≠ t0.addr →
      TrackCreator.pidFind (TrackCreator.kinkVertex pdg s api tc v).2.m_trackToPidMap u.addr
        = some pdg.MU_PLUS := by
  obtain ⟨h0, hd⟩ := kinkVertex_identity pdg s api tc v t0 rest hv hfree hnew hOk
  refine ⟨hK ▸ h0, ?_⟩
  intro u hu hne
  obtain ⟨w, _, _, hfind⟩ := hd u hu hne
  rw [hfind, hK]
  simp [TrackCreator.kinkDaughterPdgCode]

/-- C3, witness: the K+ kink with a daughter of negative curvature, from the initial state. -/
theorem kink_kplus_daughter_is_mu_plus_witness :
    TrackCreator.pidFind afterKinkA.m_trackToPidMap 1 = some samplePdg.K_PLUS ∧
    TrackCreator.pidFind afterKinkA.m_trackToPidMap 2 = some samplePdg.MU_PLUS :=
  have h := kink_kplus_daughter_is_mu_plus samplePdg sampleSettings acceptAll TrackCreator.initial
    kinkA (sampleTrack 1 1) [sampleTrack 2 (-1)] rfl rfl (by decide) (by decide)
    (Or.inr (fun _ _ => rfl))
  ⟨h.1, h.2 (sampleTrack 2 (-1)) (by decide) (by decide)⟩

/-- C3, counterexample: for the K+ kink whose daughter (track 2) has curvature -1, the
identity recorded for the daughter is MU_PLUS (-13), not MU_MINUS (13). -/
theorem kink_kplus_daughter_not_mu_minus :
    (sampleTrack 2 (-1)).omega < 0 ∧ kinkA.pdgType = samplePdg.K_PLUS ∧
    TrackCreator.IsConflictingRelationship TrackCreator.initial kinkA.tracks = false ∧
    TrackCreator.pidFind
      (TrackCreator.kinkVertex samplePdg sampleSettings acceptAll TrackCreator.initial
        kinkA).2.m_trackToPidMap 2 = some samplePdg.MU_PLUS ∧
    TrackCreator.pidFind
      (TrackCreator.kinkVertex samplePdg sampleSettings acceptAll TrackCreator.initial
        kinkA).2.m_trackToPidMap 2 ≠ some samplePdg.MU_MINUS := by
  decide

/-! ### Hit-count threshold -/

/-- A read inside the vector gives its element. -/
theorem vecAt_of_lt (v : List ℚ) (i : Nat) (h : i < v.length) :
    vecAt v i = Except.ok (v.get ⟨i, h⟩) := by
  unfold vecAt
  rw [List.getElem?_eq_getElem h]
  rfl

/-- What the first-pass validation checks. -/
theorem geometryIsValid_iff (g : Geometry) :
    TrackCreator.geometryIsValid g = true ↔
      g.ftdZPositions.length ≠ 0 ∧ g.etdZPositions ≠ [] ∧ g.setInnerRadii ≠ [] ∧
      g.ftdZPositions.length = g.ftdInnerRadii.length ∧
      g.ftdZPositions.length = g.ftdOuterRadii.length := by
  simp only [TrackCreator.geometryIsValid, Bool.and_eq_true, Bool.not_eq_true', Bool.or_eq_false_iff,
    decide_eq_false_iff_not, List.isEmpty_eq_false, ne_eq, Decidable.not_not]
  tauto

/-- The minimum element of a non-empty vector is defined. -/
theorem minElement_ok (v : List ℚ) (h : v ≠ []) : ∃ m, minElement v = Except.ok m := by
  cases v with
  | nil => exact absurd rfl h
  | cons a rest => exact ⟨_, rfl⟩

/-- With forward-disk arrays of equal length the disk loop of TrackReachesECAL reads inside
them. -/
theorem hitInFtdLayer_ok (g : Geometry) (s : Settings) (r z : ℚ)
    (hInner : g.ftdZPositions.length = g.ftdInnerRadii.length)
    (hOuter : g.ftdZPositions.length = g.ftdOuterRadii.length) :
    ∀ l : List Nat, (∀ j ∈ l, j < g.ftdZPositions.length) →
      ∃ b, TrackCreator.hitInFtdLayer g s r z l = Except.ok b := by
  intro l
  induction l with
  | nil => intro _; exact ⟨false, rfl⟩
  | cons j rest ih =>
    intro hl
    have hj := hl j (List.mem_cons_self _ _)
    have hrest := ih (fun k hk => hl k (List.mem_cons_of_mem _ hk))
    simp only [TrackCreator.hitInFtdLayer, vecAt_of_lt _ j hj, vecAt_of_lt _ j (hOuter ▸ hj),
      vecAt_of_lt _ j (hInner ▸ hj)]
    split
    · split
      · split
        · exact ⟨true, rfl⟩
        · exact hrest
      · exact hrest
    · exact hrest

/-- One step of the hit loop, when it ends normally, leaves hitOuterR at least as large as it
was and as the radius of the hit. -/
theorem hitStep_outerR (fo : FloatOps) (g : Geometry) (s : Settings)
    (info info1 : TrackCreator.HitInformation) (hit : TrackerHit) (h : TrackCreator.hitStep fo g s info hit = Except.ok info1) :
    info.hitOuterR ≤ info1.hitOuterR ∧
    fo.sqrt (fo.toFloat hit.x * fo.toFloat hit.x + fo.toFloat hit.y * fo.toFloat hit.y)
      ≤ info1.hitOuterR := by
  have key : ∀ r : ℚ, info.hitOuterR ≤ (if r > info.hitOuterR then r else info.hitOuterR) ∧
      r ≤ (if r > info.hitOuterR then r else info.hitOuterR) := by
    intro r
    split
    · rename_i hgt; exact ⟨le_of_lt hgt, le_refl _⟩
    · rename_i hgt; exact ⟨le_refl _, not_lt.mp hgt⟩
  unfold TrackCreator.hitStep at h
  simp only at h
  split at h
  · cases h; exact key _
  · split at h
    · cases h
    · cases h; exact key _
    · cases h; exact key _

/-- With valid forward-disk arrays one step of the hit loop ends normally. -/
theorem hitStep_ok (fo : FloatOps) (g : Geometry) (s : Settings)
    (hInner : g.ftdZPositions.length = g.ftdInnerRadii.length)
    (hOuter : g.ftdZPositions.length = g.ftdOuterRadii.length)
    (info : TrackCreator.HitInformation) (hit : TrackerHit) :
    ∃ info1, TrackCreator.hitStep fo g s info hit = Except.ok info1 := by
  unfold TrackCreator.hitStep
  simp only
  split
  · exact ⟨_, rfl⟩
  · obtain ⟨b, hb⟩ := hitInFtdLayer_ok g s
      (fo.sqrt (fo.toFloat hit.x * fo.toFloat hit.x + fo.toFloat hit.y * fo.toFloat hit.y))
      (fo.toFloat hit.z) hInner hOuter (List.range g.ftdZPositions.length) (fun j hj => List.mem_range.mp hj)
    rw [hb]
    cases b
    · exact ⟨_, rfl⟩
    · exact ⟨_, rfl⟩

/-- With valid forward-disk arrays the hit loop ends normally, and hitOuterR is then at least
its starting value and the radius of every hit. -/
theorem hitLoop_outerR (fo : FloatOps) (g : Geometry) (s : Settings)
    (hInner : g.ftdZPositions.length = g.ftdInnerRadii.length)
    (hOuter : g.ftdZPositions.length = g.ftdOuterRadii.length) :
    ∀ (hits : List TrackerHit) (info : TrackCreator.HitInformation),
      ∃ info1, TrackCreator.hitLoop fo g s info hits = Except.ok info1 ∧
        info.hitOuterR ≤ info1.hitOuterR ∧
        ∀ hit ∈ hits,
          fo.sqrt (fo.toFloat hit.x * fo.toFloat hit.x + fo.toFloat hit.y * fo.toFloat hit.y)
            ≤ info1.hitOuterR := by
  intro hits
  induction hits with
  | nil => intro info; exact ⟨info, rfl, le_refl _, fun _ h => by simp at h⟩
  | cons hit rest ih =>
    intro info
    obtain ⟨infoA, hA⟩ := hitStep_ok fo g s hInner hOuter info hit
    obtain ⟨hA1, hA2⟩ := hitStep_outerR fo g s info infoA hit hA
    obtain ⟨infoB, hB, hB1, hB2⟩ := ih infoA
    refine ⟨infoB, ?_, le_trans hA1 hB1, ?_⟩
    · simp only [TrackCreator.hitLoop, hA]; exact hB
    · intro h hh
      rcases List.mem_cons.mp hh with rfl | hh
      · exact le_trans hA2 hB1
      · exact hB2 h hh

/-- With valid geometry, a hit list holding a hit of radius above the smallest
outer-tracker-extension radius is classified as reaching the calorimeter (rule 1). -/
theorem reachDecision_of_set_hit (fo : FloatOps) (g : Geometry) (s : Settings)
    (hvalid : TrackCreator.geometryIsValid g = true) (hits : List TrackerHit)
    (momentum : Option CartesianVector) (minSetRadius : ℚ)
    (hmin : minElement g.setInnerRadii = Except.ok minSetRadius)
    (hhit : ∃ hit ∈ hits,
      fo.sqrt (fo.toFloat hit.x * fo.toFloat hit.x + fo.toFloat hit.y * fo.toFloat hit.y)
        > minSetRadius) :
    TrackCreator.reachDecision fo g s hits momentum = Except.ok true := by
  obtain ⟨_, hetd, _, hInner, hOuter⟩ := (geometryIsValid_iff g).mp hvalid
  obtain ⟨minEtd, hminEtd⟩ := minElement_ok g.etdZPositions hetd
  obtain ⟨info, hinfo, _, hr⟩ := hitLoop_outerR fo g s hInner hOuter hits
    { hitZMin := FLT_MAX, hitZMax := -FLT_MAX, hitOuterR := -FLT_MAX, nTpcHits := 0, nFtdHits := 0 }
  obtain ⟨hit, hmem, hgt⟩ := hhit
  have hout : info.hitOuterR > minSetRadius := lt_of_lt_of_le hgt (hr hit hmem)
  simp only [TrackCreator.reachDecision, hminEtd, hmin, hinfo]
  simp [hout]

/-- C5. With valid geometry, if TrackReachesECAL sets reach = true on a track, it sets
reach = true on the same track with further hits added anywhere in its hit list, each of
radius above the smallest outer-tracker-extension radius (the radius as the function computes
it, from the x and y of the hit converted to float). -/
theorem trackReachesECAL_monotone (fo : FloatOps) (g : Geometry) (s : Settings)
    (isFirstPass : Bool) (pTrack : Track) (trackParameters : TrackParameters)
    (before added after : List TrackerHit) (minSetRadius : ℚ)
    (hvalid : TrackCreator.geometryIsValid g = true)
    (hmin : minElement g.setInnerRadii = Except.ok minSetRadius)
    (hadded : ∀ hit ∈ added,
      fo.sqrt (fo.toFloat hit.x * fo.toFloat hit.x + fo.toFloat hit.y * fo.toFloat hit.y)
        > minSetRadius)
    (hreach : (TrackCreator.TrackReachesECAL fo g s isFirstPass
        { pTrack with hits := before ++ after } trackParameters).2
      = Except.ok { trackParameters with m_reachesECal := some true }) :
    (TrackCreator.TrackReachesECAL fo g s isFirstPass
        { pTrack with hits := before ++ added ++ after } trackParameters).2
      = Except.ok { trackParameters with m_reachesECal := some true } := by
  cases added with
  | nil => simpa using hreach
  | cons hit rest =>
    have hdec := reachDecision_of_set_hit fo g s hvalid (before ++ hit :: rest ++ after)
      trackParameters.m_momentumAtDca minSetRadius hmin
      ⟨hit, by simp, hadded hit (List.mem_cons_self _ _)⟩
    simp only [TrackCreator.TrackReachesECAL, hvalid, hdec]
    simp [TrackCreator.rethrowInvalidParameter]

/-- The sample square root of 0. -/
theorem sqrtSearch_0 : sqrtSearch 32 0 = 0 := by
  norm_num [sqrtSearch]

/-- The sample square root of 1. -/
theorem sqrtSearch_1 : sqrtSearch 32 1 = 1 := by
  norm_num [sqrtSearch]

/-- The sample square root of 16. -/
theorem sqrtSearch_16 : sqrtSearch 32 16 = 4 := by
  norm_num [sqrtSearch]

/-- The sample square root of 400. -/
theorem sqrtSearch_400 : sqrtSearch 32 400 = 20 := by
  norm_num [sqrtSearch]

/-- The sample square root of 493, rounded down. -/
theorem sqrtSearch_493 : sqrtSearch 32 493 = 22 := by
  norm_num [sqrtSearch]

/-- C5, witness: in the small detector a track with one main-tracker hit and a purely
longitudinal momentum reaches the calorimeter, and still does with a hit of radius 20 (beyond
the outer-tracker layer of radius 19) added. -/
theorem trackReachesECAL_monotone_witness :
    (TrackCreator.TrackReachesECAL sampleFloatOps smallGeometry sampleSettings true
        (hitTrack ([⟨4, 0, 1⟩] ++ [⟨20, 0, 2⟩] ++ [])) (momentumOnly ⟨0, 0, 1⟩)).2
      = Except.ok { momentumOnly ⟨0, 0, 1⟩ with m_reachesECal := some true } :=
  trackReachesECAL_monotone sampleFloatOps smallGeometry sampleSettings true (hitTrack [])
    (momentumOnly ⟨0, 0, 1⟩) [⟨4, 0, 1⟩] [⟨20, 0, 2⟩] [] 19
    (by decide) rfl
    (by
      intro hit hmem
      simp only [List.mem_singleton] at hmem
      subst hmem
      norm_num [sampleFloatOps, sqrtSearch_400])
    (by
      norm_num [TrackCreator.TrackReachesECAL, TrackCreator.geometryIsValid, smallGeometry,
        TrackCreator.reachDecision, minElement, TrackCreator.hitLoop, TrackCreator.hitStep,
        hitTrack, momentumOnly, inputGet, sampleSettings, CartesianVector.GetMagnitude,
        sampleFloatOps, sqrtSearch_0, sqrtSearch_1, sqrtSearch_16, sqrtSearch_493, FLT_MAX,
        TrackCreator.rethrowInvalidParameter, floatDiv, FloatValue.lt])

/-! ### Calorimeter projection -/

/-- The running comparison over a list of candidates ends on the start value or one of the
candidates, and on a time not above any of them. -/
theorem foldl_keepEarlier (cs : List (ℚ × CartesianVector)) :
    ∀ init : ℚ × CartesianVector,
      cs.foldl TrackCreator.keepEarlier init ∈ init :: cs ∧
      ∀ c ∈ init :: cs, (cs.foldl TrackCreator.keepEarlier init).1 ≤ c.1 := by
  induction cs with
  | nil => intro init; simp
  | cons c rest ih =>
    intro init
    obtain ⟨hmem, hle⟩ := ih (TrackCreator.keepEarlier init c)
    have hk : TrackCreator.keepEarlier init c ∈ [init, c] ∧
        (TrackCreator.keepEarlier init c).1 ≤ init.1 ∧
        (TrackCreator.keepEarlier init c).1 ≤ c.1 := by
      unfold TrackCreator.keepEarlier
      split
      · rename_i hlt; exact ⟨by simp, le_of_lt hlt, le_refl _⟩
      · rename_i hlt; exact ⟨by simp, le_refl _, not_lt.mp hlt⟩
    simp only [List.foldl_cons]
    constructor
    · rcases List.mem_cons.mp hmem with h | h
      · rw [h]
        rcases List.mem_cons.mp hk.1 with h1 | h1
        · rw [h1]; simp
        · simp only [List.mem_singleton] at h1
          rw [h1]; simp
      · exact List.mem_cons_of_mem _ (List.mem_cons_of_mem _ h)
    · intro d hd
      have h0 := hle _ (List.mem_cons_self _ _)
      rcases List.mem_cons.mp hd with rfl | hd
      · exact le_trans h0 hk.2.1
      · rcases List.mem_cons.mp hd with rfl | hd
        · exact le_trans h0 hk.2.2
        · exact hle d (List.mem_cons_of_mem _ hd)

/-- The search of GetECalProjection is the running comparison over the candidate list. -/
theorem ecalProjectionSearch_eq_foldl (fo : FloatOps) (g : Geometry) (pHelix : HelixClass)
    (referencePoint : CartesianVector) (signPz : Int) :
    TrackCreator.ecalProjectionSearch fo g pHelix referencePoint signPz =
      (ecalCandidates fo g pHelix referencePoint signPz).tail.foldl TrackCreator.keepEarlier
        (pHelix.getPointInZ ((signPz : ℚ) * g.zOfEndCap) referencePoint) := by
  unfold TrackCreator.ecalProjectionSearch ecalCandidates
  by_cases hN : g.ecalSymmetryOrder > 0
  · simp only [hN, if_true, List.tail_cons, List.foldl_map]
  · simp only [hN, if_false, List.tail_cons, List.foldl_cons, List.foldl_nil]

/-- C6 (amended). For every helix (its intersection routines being arbitrary functions
returning a time and a point), the search of GetECalProjection ends on one of the candidates
(the endcap plane and all barrel candidates), its time is the smallest of all candidate times,
whatever their sign, and GetECalProjection returns that candidate's point; so the selected time
is non-negative exactly when every candidate time is. -/
theorem getECalProjection_selects_earliest (fo : FloatOps) (g : Geometry) (pHelix : HelixClass)
    (referencePoint : CartesianVector) (signPz : Int) :
    TrackCreator.ecalProjectionSearch fo g pHelix referencePoint signPz
      ∈ ecalCandidates fo g pHelix referencePoint signPz ∧
    (∀ c ∈ ecalCandidates fo g pHelix referencePoint signPz,
      (TrackCreator.ecalProjectionSearch fo g pHelix referencePoint signPz).1 ≤ c.1) ∧
    (TrackCreator.GetECalProjection fo g pHelix referencePoint signPz).position
      = (TrackCreator.ecalProjectionSearch fo g pHelix referencePoint signPz).2 ∧
    (0 ≤ (TrackCreator.ecalProjectionSearch fo g pHelix referencePoint signPz).1 ↔
      ∀ c ∈ ecalCandidates fo g pHelix referencePoint signPz, 0 ≤ c.1) := by
  have hfold := foldl_keepEarlier (ecalCandidates fo g pHelix referencePoint signPz).tail
    (pHelix.getPointInZ ((signPz : ℚ) * g.zOfEndCap) referencePoint)
  have hc : pHelix.getPointInZ ((signPz : ℚ) * g.zOfEndCap) referencePoint ::
      (ecalCandidates fo g pHelix referencePoint signPz).tail
      = ecalCandidates fo g pHelix referencePoint signPz := by
    simp [ecalCandidates]
  rw [hc, ← ecalProjectionSearch_eq_foldl] at hfold
  refine ⟨hfold.1, hfold.2, rfl, ?_⟩
  constructor
  · intro h c hcmem
    exact le_trans h (hfold.2 c hcmem)
  · intro h
    exact h _ hfold.1

/-- C6, counterexample: with a cylindrical barrel, an endcap intersection of time -1 and a
cylinder intersection of time 2, the projection selects the endcap point with the negative
time -1, not the candidate of smallest non-negative time (the cylinder, time 2). -/
theorem getECalProjection_negative_time :
    ecalCandidates sampleFloatOps cylinderGeometry backwardEndcapHelix ⟨0, 0, 0⟩ 1
      = [(-1, ⟨0, 0, -5⟩), (2, ⟨20, 0, 3⟩)] ∧
    TrackCreator.ecalProjectionSearch sampleFloatOps cylinderGeometry backwardEndcapHelix
      ⟨0, 0, 0⟩ 1 = (-1, ⟨0, 0, -5⟩) ∧
    (TrackCreator.GetECalProjection sampleFloatOps cylinderGeometry backwardEndcapHelix
      ⟨0, 0, 0⟩ 1).position = ⟨0, 0, -5⟩ ∧
    (TrackCreator.ecalProjectionSearch sampleFloatOps cylinderGeometry backwardEndcapHelix
      ⟨0, 0, 0⟩ 1).1 < 0 := by
  refine ⟨?_, ?_, ?_, ?_⟩ <;>
  norm_num [ecalCandidates, TrackCreator.GetECalProjection, TrackCreator.ecalProjectionSearch,
    TrackCreator.keepEarlier, cylinderGeometry, smallGeometry, backwardEndcapHelix]

/-! ### First-pass validation of the geometry -/

/-- On the first invocation an invalid geometry makes TrackReachesECAL throw the
invalid-parameter exception, set no flag and clear the static isFirstPass. -/
theorem trackReachesECAL_first_pass_invalid (fo : FloatOps) (g : Geometry) (s : Settings)
    (pTrack : Track) (trackParameters : TrackParameters)
    (hinvalid : TrackCreator.geometryIsValid g = false) :
    TrackCreator.TrackReachesECAL fo g s true pTrack trackParameters =
      (false, Except.error (Fault.statusCodeException StatusCode.STATUS_CODE_INVALID_PARAMETER)) := by
  simp [TrackCreator.TrackReachesECAL, hinvalid, TrackCreator.rethrowInvalidParameter]

/-- C7, the code at the failing input. With forward-disk arrays of unequal length the first
invocation throws the invalid-parameter exception and clears isFirstPass; the second
invocation, on the same geometry, skips the validation and sets the reach flag. With an empty
outer-endcap array the second invocation dereferences the end iterator of that array. -/
theorem trackReachesECAL_second_pass_not_validated :
    TrackCreator.geometryIsValid mismatchedGeometry = false ∧
    TrackCreator.TrackReachesECAL sampleFloatOps mismatchedGeometry sampleSettings true
        (hitTrack [⟨4, 0, 1⟩]) (momentumOnly ⟨0, 0, 1⟩)
      = (false, Except.error (Fault.statusCodeException StatusCode.STATUS_CODE_INVALID_PARAMETER)) ∧
    TrackCreator.TrackReachesECAL sampleFloatOps mismatchedGeometry sampleSettings false
        (hitTrack [⟨4, 0, 1⟩]) (momentumOnly ⟨0, 0, 1⟩)
      = (false, Except.ok { momentumOnly ⟨0, 0, 1⟩ with m_reachesECal := some true }) ∧
    TrackCreator.geometryIsValid noEtdGeometry = false ∧
    TrackCreator.TrackReachesECAL sampleFloatOps noEtdGeometry sampleSettings false
        (hitTrack [⟨4, 0, 1⟩]) (momentumOnly ⟨0, 0, 1⟩)
      = (false, Except.error Fault.undefinedBehaviour) := by
  refine ⟨by decide, ?_, ?_, by decide, ?_⟩
  · exact trackReachesECAL_first_pass_invalid _ _ _ _ _ (by decide)
  · norm_num [TrackCreator.TrackReachesECAL, mismatchedGeometry, smallGeometry,
      TrackCreator.reachDecision, minElement, TrackCreator.hitLoop, TrackCreator.hitStep,
      hitTrack, momentumOnly, inputGet, sampleSettings, CartesianVector.GetMagnitude,
      sampleFloatOps, sqrtSearch_0, sqrtSearch_1, sqrtSearch_16, sqrtSearch_493, FLT_MAX,
      TrackCreator.rethrowInvalidParameter]
  · norm_num [TrackCreator.TrackReachesECAL, noEtdGeometry, smallGeometry,
      TrackCreator.reachDecision, minElement, TrackCreator.rethrowInvalidParameter]

/-! ### Helix fit of tracks with few hits -/

/-- A hit list with one hit is left as it is by the ordering loops. -/
theorem orderHits_singleton (h : TrackerHit) : TrackCreator.orderHits [h] = [h] := by
  simp [TrackCreator.orderHits]

/-- The result of FitTrackHelices for a track with exactly one hit: both helices are anchored
at the z of the hit, converted to float. -/
theorem fitTrackHelices_single_hit (fo : FloatOps) (lib : HelixLibrary) (g : Geometry)
    (s : Settings) (pTrack : Track) (trackParameters : TrackParameters) (h : TrackerHit)
    (hh : pTrack.hits = [h]) (hK : 0 ≤ s.m_nHitsForHelixFits) :
    TrackCreator.FitTrackHelices fo lib g s pTrack trackParameters = Except.ok
      { trackParameters with
        m_momentumAtDca := some (lib.Initialize_Canonical pTrack.phi pTrack.d0 pTrack.z0
          pTrack.omega pTrack.tanLambda g.bField).getMomentum,
        m_trackStateAtStart := some
          { position := (lib.Initialize_BZ
                (lib.FitHelix ([h].take (min s.m_nHitsForHelixFits 1).toNat))
                g.bField (-1) (fo.toFloat h.z)).getReferencePoint,
            momentum := (lib.Initialize_BZ
                (lib.FitHelix ([h].take (min s.m_nHitsForHelixFits 1).toNat))
                g.bField (-1) (fo.toFloat h.z)).getMomentum },
        m_trackStateAtEnd := some
          { position := (lib.Initialize_BZ
                (lib.FitHelix ([h].take (min s.m_nHitsForHelixFits 1).toNat))
                g.bField (-1) (fo.toFloat h.z)).getReferencePoint,
            momentum := (lib.Initialize_BZ
                (lib.FitHelix ([h].take (min s.m_nHitsForHelixFits 1).toNat))
                g.bField (-1) (fo.toFloat h.z)).getMomentum },
        m_trackStateAtECal := some
          (TrackCreator.GetECalProjection fo g
            (if s.m_useEndTrackHelixForECalProjection ≠ 0 then
              lib.Initialize_BZ (lib.FitHelix ([h].take (min s.m_nHitsForHelixFits 1).toNat))
                g.bField (-1) (fo.toFloat h.z)
             else lib.Initialize_Canonical pTrack.phi pTrack.d0 pTrack.z0 pTrack.omega
                pTrack.tanLambda g.bField)
            (if s.m_useEndTrackHelixForECalProjection ≠ 0 then
              lib.Initialize_BZ (lib.FitHelix ([h].take (min s.m_nHitsForHelixFits 1).toNat))
                g.bField (-1) (fo.toFloat h.z)
             else lib.Initialize_Canonical pTrack.phi pTrack.d0 pTrack.z0 pTrack.omega
                pTrack.tanLambda g.bField).getReferencePoint (-1)) } := by
  have hneg : ¬ (min s.m_nHitsForHelixFits 1 < 0) := by
    rw [not_lt]; exact le_min hK (by norm_num)
  simp only [TrackCreator.FitTrackHelices, hh, orderHits_singleton, List.length_singleton,
    Nat.sub_self, List.getElem?_cons_zero, lt_self_iff_false, if_false, List.reverse_singleton,
    Nat.cast_one, hneg]
  simp

/-- In the model a track without hits makes FitTrackHelices read element 0 of an empty
vector. -/
theorem fitTrackHelices_no_hits (fo : FloatOps) (lib : HelixLibrary) (g : Geometry)
    (s : Settings) (pTrack : Track) (trackParameters : TrackParameters)
    (hh : pTrack.hits = []) :
    TrackCreator.FitTrackHelices fo lib g s pTrack trackParameters
      = Except.error Fault.undefinedBehaviour := by
  simp [TrackCreator.FitTrackHelices, hh, TrackCreator.orderHits]

/-- C8 (amended). FitTrackHelices has no hit-count check. For a track with exactly one hit
(and a non-negative fit sample size) it does not fail: it produces the momentum at closest
approach and start, end and calorimeter states, the start and end states both taken from the
helix anchored at the z of that hit (read as a float) with orientation sign -1. Tracks with
few hits are filtered before the fit instead: CreateTracks skips a track, leaving its state
unchanged (no descriptor, no error), when the hit count of the track is below the minimum that
CreateTracks computes for it or above the configured maximum. -/
theorem fitTrackHelices_few_hits (fo : FloatOps) (lib : HelixLibrary) (pdg : PdgTable)
    (g : Geometry) (s : Settings) (trackApi : TrackApi) (tc : TrackCreator) (pTrack : Track)
    (trackParameters : TrackParameters) :
    (∀ h : TrackerHit, pTrack.hits = [h] → 0 ≤ s.m_nHitsForHelixFits →
      ∃ fitted, TrackCreator.FitTrackHelices fo lib g s pTrack trackParameters = Except.ok fitted ∧
        fitted.m_trackStateAtStart = some
          { position := (lib.Initialize_BZ
                (lib.FitHelix ([h].take (min s.m_nHitsForHelixFits 1).toNat))
                g.bField (-1) (fo.toFloat h.z)).getReferencePoint,
            momentum := (lib.Initialize_BZ
                (lib.FitHelix ([h].take (min s.m_nHitsForHelixFits 1).toNat))
                g.bField (-1) (fo.toFloat h.z)).getMomentum } ∧
        fitted.m_trackStateAtEnd = fitted.m_trackStateAtStart ∧
        fitted.m_trackStateAtECal.isSome = true ∧
        fitted.m_momentumAtDca.isSome = true) ∧
    (∀ minHits : Int, TrackCreator.minTrackHits fo g s pTrack = Except.ok minHits →
      ((pTrack.hits.length : Int) < minHits ∨ (pTrack.hits.length : Int) > s.m_maxTrackHits) →
      TrackCreator.createTrack fo lib pdg g s trackApi tc pTrack = Except.ok tc) := by
  refine ⟨?_, ?_⟩
  · intro h hh hK
    refine ⟨_, fitTrackHelices_single_hit fo lib g s pTrack trackParameters h hh hK,
      rfl, rfl, rfl, rfl⟩
  · intro minHits hmin hout
    simp only [TrackCreator.createTrack, hmin]
    rw [if_pos hout]

/-- C8, witness: a one-hit track is fitted when handed to FitTrackHelices, and CreateTracks
skips it because its minimum is 5. -/
theorem fitTrackHelices_few_hits_witness :
    (∃ fitted, TrackCreator.FitTrackHelices sampleFloatOps sampleLibrary smallGeometry
        sampleSettings (hitTrack [⟨4, 0, 1⟩]) TrackParameters.unset = Except.ok fitted ∧
      fitted.m_trackStateAtStart = some
        { position := (sampleLibrary.Initialize_BZ
              (sampleLibrary.FitHelix
                ([(⟨4, 0, 1⟩ : TrackerHit)].take (min sampleSettings.m_nHitsForHelixFits 1).toNat))
              smallGeometry.bField (-1) 1).getReferencePoint,
          momentum := (sampleLibrary.Initialize_BZ
              (sampleLibrary.FitHelix
                ([(⟨4, 0, 1⟩ : TrackerHit)].take (min sampleSettings.m_nHitsForHelixFits 1).toNat))
              smallGeometry.bField (-1) 1).getMomentum } ∧
      fitted.m_trackStateAtEnd = fitted.m_trackStateAtStart ∧
      fitted.m_trackStateAtECal.isSome = true ∧
      fitted.m_momentumAtDca.isSome = true) ∧
    TrackCreator.createTrack sampleFloatOps sampleLibrary samplePdg smallGeometry sampleSettings
      acceptAllTracks TrackCreator.initial (hitTrack [⟨4, 0, 1⟩]) = Except.ok TrackCreator.initial :=
  ⟨(fitTrackHelices_few_hits sampleFloatOps sampleLibrary samplePdg smallGeometry sampleSettings
      acceptAllTracks TrackCreator.initial (hitTrack [⟨4, 0, 1⟩]) TrackParameters.unset).1
      ⟨4, 0, 1⟩ rfl (by decide),
    (fitTrackHelices_few_hits sampleFloatOps sampleLibrary samplePdg smallGeometry sampleSettings
      acceptAllTracks TrackCreator.initial (hitTrack [⟨4, 0, 1⟩]) TrackParameters.unset).2 5
      (by norm_num [TrackCreator.minTrackHits, TrackCreator.tanLambdaFtd, vecAt, smallGeometry,
        sampleSettings, hitTrack, floatDiv, FloatValue.narrow, FloatValue.lt, sampleFloatOps])
      (Or.inl (by decide))⟩

/-- C8, counterexample: for a track with a single hit (at z = 1) FitTrackHelices does not
fail; it returns start, end and calorimeter states. -/
theorem fitTrackHelices_one_hit_succeeds :
    (hitTrack [⟨4, 0, 1⟩]).hits.length = 1 ∧
    TrackCreator.FitTrackHelices sampleFloatOps sampleLibrary smallGeometry sampleSettings
        (hitTrack [⟨4, 0, 1⟩]) TrackParameters.unset
      = Except.ok { TrackParameters.unset with
          m_momentumAtDca := some ⟨0, 0, 1⟩,
          m_trackStateAtStart := some ⟨⟨0, 0, 1⟩, ⟨0, 0, -1⟩⟩,
          m_trackStateAtEnd := some ⟨⟨0, 0, 1⟩, ⟨0, 0, -1⟩⟩,
          m_trackStateAtECal := some ⟨⟨0, 0, -25⟩, ⟨0, 0, -1⟩⟩ } := by
  refine ⟨rfl, ?_⟩
  rw [fitTrackHelices_single_hit sampleFloatOps sampleLibrary smallGeometry sampleSettings
    (hitTrack [⟨4, 0, 1⟩]) TrackParameters.unset ⟨4, 0, 1⟩ rfl (by decide)]
  norm_num [sampleLibrary, axisHelix, hitTrack, sampleSettings, sampleFloatOps,
    TrackCreator.GetECalProjection,
    TrackCreator.ecalProjectionSearch, smallGeometry, TrackCreator.keepEarlier,
    TrackCreator.barrelFaceProjection, List.range, List.range.loop, TrackParameters.unset]

/-! ### Charge of the descriptor -/

/-- Agreement on the members set before the helix fit is transitive. -/
theorem sameIdentity_trans {a b c : TrackParameters} (hab : SameIdentity a b)
    (hbc : SameIdentity b c) : SameIdentity a c :=
  ⟨hab.1.trans hbc.1, hab.2.1.trans hbc.2.1, hab.2.2.1.trans hbc.2.2.1,
    hab.2.2.2.1.trans hbc.2.2.2.1, hab.2.2.2.2.1.trans hbc.2.2.2.2.1,
    hab.2.2.2.2.2.trans hbc.2.2.2.2.2⟩

/-- FitTrackHelices leaves impact parameters, address, identity, mass and charge as set. -/
theorem fitTrackHelices_frame (fo : FloatOps) (lib : HelixLibrary) (g : Geometry) (s : Settings)
    (pTrack : Track) (trackParameters fitted : TrackParameters)
    (h : TrackCreator.FitTrackHelices fo lib g s pTrack trackParameters = Except.ok fitted) :
    SameIdentity trackParameters fitted := by
  unfold TrackCreator.FitTrackHelices at h
  simp only at h
  split at h
  · split at h
    · cases h
    · cases h; exact ⟨rfl, rfl, rfl, rfl, rfl, rfl⟩
  · cases h

/-- TrackReachesECAL leaves impact parameters, address, identity, mass and charge as set. -/
theorem trackReachesECAL_frame (fo : FloatOps) (g : Geometry) (s : Settings) (isFirstPass : Bool)
    (pTrack : Track) (trackParameters reached : TrackParameters)
    (h : (TrackCreator.TrackReachesECAL fo g s isFirstPass pTrack trackParameters).2
      = Except.ok reached) :
    SameIdentity trackParameters reached := by
  unfold TrackCreator.TrackReachesECAL at h
  simp only at h
  by_cases hv : (isFirstPass && !TrackCreator.geometryIsValid g) = true
  · simp [hv, TrackCreator.rethrowInvalidParameter] at h
  · simp only [hv, Bool.false_eq_true, if_false] at h
    cases hdec : TrackCreator.reachDecision fo g s pTrack.hits trackParameters.m_momentumAtDca with
    | error e =>
      rw [hdec] at h
      cases e <;> simp [TrackCreator.rethrowInvalidParameter] at h
    | ok reaches =>
      rw [hdec] at h
      simp only [TrackCreator.rethrowInvalidParameter, Except.ok.injEq] at h
      subst h
      exact ⟨rfl, rfl, rfl, rfl, rfl, rfl⟩

/-- DefineTrackPfoUsage leaves impact parameters, address, identity, mass and charge as set. -/
theorem defineTrackPfoUsage_frame (fo : FloatOps) (g : Geometry) (s : Settings)
    (tc : TrackCreator) (pTrack : Track) (trackParameters result : TrackParameters)
    (h : TrackCreator.DefineTrackPfoUsage fo g s tc pTrack trackParameters = Except.ok result) :
    SameIdentity trackParameters result := by
  unfold TrackCreator.DefineTrackPfoUsage at h
  split at h
  · cases h
  · split at h
    · simp only at h
      split at h
      · cases h
      · split at h
        · cases h
        · cases h; exact ⟨rfl, rfl, rfl, rfl, rfl, rfl⟩
      · cases h; exact ⟨rfl, rfl, rfl, rfl, rfl, rfl⟩
    · cases h; exact ⟨rfl, rfl, rfl, rfl, rfl, rfl⟩

/-- What the handler of the per-track try block changes: nothing but the list of reported
failures. -/
theorem reportAndContinue_tracks (tc tc1 : TrackCreator) (f : Fault)
    (h : TrackCreator.reportAndContinue tc f = Except.ok tc1) :
    tc1.pandoraTracks = tc.pandoraTracks := by
  unfold TrackCreator.reportAndContinue at h
  split at h
  · cases h
  · cases h; rfl

/-- The body of the track loop either emits no descriptor, or emits exactly one, which carries
the impact parameters, address, identity, mass and charge set before the helix fit. -/
theorem createTrack_descriptor (fo : FloatOps) (lib : HelixLibrary) (pdg : PdgTable)
    (g : Geometry) (s : Settings) (trackApi : TrackApi) (tc tc1 : TrackCreator) (pTrack : Track)
    (h : TrackCreator.createTrack fo lib pdg g s trackApi tc pTrack = Except.ok tc1) :
    tc1.pandoraTracks = tc.pandoraTracks ∨
    ∃ d, tc1.pandoraTracks = tc.pandoraTracks ++ [d] ∧
      SameIdentity (TrackCreator.initialTrackParameters pdg tc pTrack) d := by
  unfold TrackCreator.createTrack at h
  split at h
  · cases h
  · simp only at h
    split at h
    · cases h; exact Or.inl rfl
    · split at h
      · have hkeep := reportAndContinue_tracks _ _ _ h
        exact Or.inl hkeep
      · rename_i fitted hfit
        split at h
        · have hkeep := reportAndContinue_tracks _ _ _ h
          exact Or.inl hkeep
        · rename_i reached hreach
          split at h
          · have hkeep := reportAndContinue_tracks _ _ _ h
            exact Or.inl hkeep
          · rename_i result husage
            split at h
            · cases h
              refine Or.inr ⟨result, rfl, ?_⟩
              exact sameIdentity_trans (fitTrackHelices_frame _ _ _ _ _ _ _ hfit)
                (sameIdentity_trans (trackReachesECAL_frame _ _ _ _ _ _ _ hreach)
                  (defineTrackPfoUsage_frame _ _ _ _ _ _ _ husage))
            · have hkeep := reportAndContinue_tracks _ _ _ h
              exact Or.inl hkeep

/-- The conversion to int of a curvature divided by its absolute value. -/
theorem truncToInt_sign (omega : ℚ) :
    (0 < omega → truncToInt (omega / |omega|) = 1) ∧
    (omega < 0 → truncToInt (omega / |omega|) = -1) := by
  constructor
  · intro h
    rw [abs_of_pos h, div_self (ne_of_gt h)]
    rfl
  · intro h
    rw [abs_of_neg h, div_neg, div_self (ne_of_lt h)]
    rfl

/-- C9 (amended). For every track for which CreateTracks emits a descriptor, the descriptor's
charge is +1 when the curvature omega is positive and -1 when it is negative; when omega is
exactly zero the charge member is never assigned and the descriptor carries it unset. -/
theorem createTrack_charge (fo : FloatOps) (lib : HelixLibrary) (pdg : PdgTable)
    (g : Geometry) (s : Settings) (trackApi : TrackApi) (tc tc1 : TrackCreator) (pTrack : Track)
    (d : TrackParameters)
    (h : TrackCreator.createTrack fo lib pdg g s trackApi tc pTrack = Except.ok tc1)
    (hd : tc1.pandoraTracks = tc.pandoraTracks ++ [d]) :
    (0 < pTrack.omega → d.m_charge = some 1) ∧
    (pTrack.omega < 0 → d.m_charge = some (-1)) ∧
    (pTrack.omega = 0 → d.m_charge = none) := by
  have hsame : SameIdentity (TrackCreator.initialTrackParameters pdg tc pTrack) d := by
    rcases createTrack_descriptor fo lib pdg g s trackApi tc tc1 pTrack h with h1 | ⟨d1, h1, h2⟩
    · rw [h1] at hd
      exact absurd hd (by simp)
    · rw [h1] at hd
      have : d1 = d := by simpa using hd
      exact this ▸ h2
  have hcharge : d.m_charge = (TrackCreator.initialTrackParameters pdg tc pTrack).m_charge :=
    hsame.2.2.2.2.2.symm
  rw [hcharge]
  unfold TrackCreator.initialTrackParameters
  refine ⟨?_, ?_, ?_⟩
  · intro hpos
    simp only [ne_eq, ne_of_gt hpos, not_false_eq_true, if_true, (truncToInt_sign pTrack.omega).1 hpos]
  · intro hneg
    simp only [ne_eq, ne_of_lt hneg, not_false_eq_true, if_true, (truncToInt_sign pTrack.omega).2 hneg]
  · intro hzero
    simp only [ne_eq, hzero, not_true_eq_false, if_false]
    split <;> rfl

/-- The sample square root of 625. -/
theorem sqrtSearch_625 : sqrtSearch 32 625 = 25 := by
  norm_num [sqrtSearch]

/-- The sample pipeline on the one-hit track of curvature 1. -/
theorem createTrack_positiveCurvatureTrack :
    TrackCreator.createTrack sampleFloatOps sampleLibrary samplePdg smallGeometry
        lowThresholdSettings acceptAllTracks TrackCreator.initial positiveCurvatureTrack
      = Except.ok (afterDescriptor 8 (sampleDescriptor 8 211 (some 1))) := by
  norm_num [TrackCreator.createTrack, TrackCreator.minTrackHits, TrackCreator.tanLambdaFtd, vecAt,
    smallGeometry, lowThresholdSettings, sampleSettings, positiveCurvatureTrack,
    TrackCreator.FitTrackHelices, TrackCreator.orderHits, TrackCreator.initialTrackParameters,
    TrackCreator.pidFind, TrackCreator.initial, TrackParameters.unset,
    sampleLibrary, axisHelix, TrackCreator.GetECalProjection,
    TrackCreator.ecalProjectionSearch, TrackCreator.keepEarlier,
    TrackCreator.barrelFaceProjection, List.range, List.range.loop,
    TrackCreator.TrackReachesECAL, TrackCreator.geometryIsValid,
    TrackCreator.reachDecision, minElement, TrackCreator.hitLoop, TrackCreator.hitStep,
    inputGet, CartesianVector.GetMagnitude, CartesianVector.GetMagnitudeSquared,
    sampleFloatOps, sqrtSearch_0, sqrtSearch_1, sqrtSearch_16, sqrtSearch_493, sqrtSearch_625,
    FLT_MAX, TrackCreator.rethrowInvalidParameter, TrackCreator.DefineTrackPfoUsage,
    TrackCreator.IsParent, TrackCreator.PassesQualityCuts, TrackCreator.innerHitLoop,
    acceptAllTracks, samplePdg, TrackCreator.reportAndContinue, afterDescriptor,
    floatDiv, FloatValue.narrow, FloatValue.lt, FloatValue.abs, FloatValue.scale,
    FloatValue.add, TrackCreator.pfoUsageFlags, sampleDescriptor, truncToInt]

/-- The sample pipeline on the one-hit track of curvature 0. -/
theorem createTrack_zeroCurvatureTrack :
    TrackCreator.createTrack sampleFloatOps sampleLibrary samplePdg smallGeometry
        lowThresholdSettings acceptAllTracks TrackCreator.initial zeroCurvatureTrack
      = Except.ok (afterDescriptor 9 (sampleDescriptor 9 (-211) none)) := by
  norm_num [TrackCreator.createTrack, TrackCreator.minTrackHits, TrackCreator.tanLambdaFtd, vecAt,
    smallGeometry, lowThresholdSettings, sampleSettings, zeroCurvatureTrack,
    TrackCreator.FitTrackHelices, TrackCreator.orderHits, TrackCreator.initialTrackParameters,
    TrackCreator.pidFind, TrackCreator.initial, TrackParameters.unset,
    sampleLibrary, axisHelix, TrackCreator.GetECalProjection,
    TrackCreator.ecalProjectionSearch, TrackCreator.keepEarlier,
    TrackCreator.barrelFaceProjection, List.range, List.range.loop,
    TrackCreator.TrackReachesECAL, TrackCreator.geometryIsValid,
    TrackCreator.reachDecision, minElement, TrackCreator.hitLoop, TrackCreator.hitStep,
    inputGet, CartesianVector.GetMagnitude, CartesianVector.GetMagnitudeSquared,
    sampleFloatOps, sqrtSearch_0, sqrtSearch_1, sqrtSearch_16, sqrtSearch_493, sqrtSearch_625,
    FLT_MAX, TrackCreator.rethrowInvalidParameter, TrackCreator.DefineTrackPfoUsage,
    TrackCreator.IsParent, TrackCreator.PassesQualityCuts, TrackCreator.innerHitLoop,
    acceptAllTracks, samplePdg, TrackCreator.reportAndContinue, afterDescriptor,
    floatDiv, FloatValue.narrow, FloatValue.lt, FloatValue.abs, FloatValue.scale,
    FloatValue.add, TrackCreator.pfoUsageFlags, sampleDescriptor]

/-- C9, witness: the descriptor emitted for the one-hit track of curvature 1 has charge +1. -/
theorem createTrack_charge_witness :
    TrackCreator.createTrack sampleFloatOps sampleLibrary samplePdg smallGeometry
        lowThresholdSettings acceptAllTracks TrackCreator.initial positiveCurvatureTrack
      = Except.ok (afterDescriptor 8 (sampleDescriptor 8 211 (some 1))) ∧
    (afterDescriptor 8 (sampleDescriptor 8 211 (some 1))).pandoraTracks
      = TrackCreator.initial.pandoraTracks ++ [sampleDescriptor 8 211 (some 1)] ∧
    (0 : ℚ) < positiveCurvatureTrack.omega ∧
    (sampleDescriptor 8 211 (some 1)).m_charge = some 1 :=
  ⟨createTrack_positiveCurvatureTrack, rfl, by norm_num [positiveCurvatureTrack],
    (createTrack_charge sampleFloatOps sampleLibrary samplePdg smallGeometry lowThresholdSettings
      acceptAllTracks TrackCreator.initial (afterDescriptor 8 (sampleDescriptor 8 211 (some 1)))
      positiveCurvatureTrack (sampleDescriptor 8 211 (some 1))
      createTrack_positiveCurvatureTrack rfl).1 (by norm_num [positiveCurvatureTrack])⟩

/-- C9, counterexample: a track of curvature exactly 0 is accepted and its descriptor is
emitted with the charge unset, not with the charge 0. -/
theorem createTrack_zero_curvature_charge_unset :
    zeroCurvatureTrack.omega = 0 ∧
    TrackCreator.createTrack sampleFloatOps sampleLibrary samplePdg smallGeometry
        lowThresholdSettings acceptAllTracks TrackCreator.initial zeroCurvatureTrack
      = Except.ok (afterDescriptor 9 (sampleDescriptor 9 (-211) none)) ∧
    (afterDescriptor 9 (sampleDescriptor 9 (-211) none)).pandoraTracks
      = [sampleDescriptor 9 (-211) none] ∧
    (sampleDescriptor 9 (-211) none).m_charge = none ∧
    (sampleDescriptor 9 (-211) none).m_charge ≠ some 0 :=
  ⟨rfl, createTrack_zeroCurvatureTrack, rfl, rfl, by simp [sampleDescriptor]⟩

/-! ### Usability of tracks that do not reach the calorimeter and of parents -/

/-- C10. For every track whose reach flag has been set: if the flag is false or the track is in
the parent membership set, DefineTrackPfoUsage sets canFormPfo and canFormClusterlessPfo to
false and changes nothing else, whatever the hits, impact parameters, momentum, configuration
and V0 or daughter membership. -/
theorem defineTrackPfoUsage_unusable (fo : FloatOps) (g : Geometry) (s : Settings)
    (tc : TrackCreator) (pTrack : Track) (trackParameters : TrackParameters) (reachesECal : Bool)
    (hset : trackParameters.m_reachesECal = some reachesECal)
    (h : reachesECal = false ∨ pTrack.addr ∈ tc.m_parentTrackList) :
    TrackCreator.DefineTrackPfoUsage fo g s tc pTrack trackParameters =
      Except.ok { trackParameters with
        m_canFormPfo := some false, m_canFormClusterlessPfo := some false } := by
  have hcond : ¬ (reachesECal = true ∧ tc.IsParent pTrack = false) := by
    rintro ⟨hr, hp⟩
    rcases h with h | h
    · rw [h] at hr; exact absurd hr (by simp)
    · simp [TrackCreator.IsParent, h] at hp
  simp only [TrackCreator.DefineTrackPfoUsage, hset, inputGet, hcond, if_false]

/-- C10, witness: a track whose reach flag is false, and a parent track whose reach flag is
true (track 1 after the extraction of kinkA). -/
theorem defineTrackPfoUsage_unusable_witness :
    TrackCreator.DefineTrackPfoUsage sampleFloatOps smallGeometry sampleSettings
        TrackCreator.initial positiveCurvatureTrack
        { sampleDescriptor 8 211 (some 1) with m_reachesECal := some false }
      = Except.ok { sampleDescriptor 8 211 (some 1) with
          m_reachesECal := some false,
          m_canFormPfo := some false, m_canFormClusterlessPfo := some false } ∧
    (1 ∈ afterKinkA.m_parentTrackList ∧
      TrackCreator.DefineTrackPfoUsage sampleFloatOps smallGeometry sampleSettings
          afterKinkA (sampleTrack 1 1) (sampleDescriptor 1 321 (some 1))
        = Except.ok { sampleDescriptor 1 321 (some 1) with
            m_canFormPfo := some false, m_canFormClusterlessPfo := some false }) :=
  ⟨defineTrackPfoUsage_unusable sampleFloatOps smallGeometry sampleSettings TrackCreator.initial
      positiveCurvatureTrack { sampleDescriptor 8 211 (some 1) with m_reachesECal := some false }
      false rfl (Or.inl rfl),
    by decide,
    defineTrackPfoUsage_unusable sampleFloatOps smallGeometry sampleSettings afterKinkA
      (sampleTrack 1 1) (sampleDescriptor 1 321 (some 1)) true rfl (Or.inr (by decide))⟩

/-! ### Usability flags of tracks that reach the calorimeter -/

/-- C11 (amended). For every track whose reach flag is true and which is not a parent, if the
distance from the origin of its calorimeter-surface state position is strictly below the
configured minimum m_minTrackECalDistanceFromIp, DefineTrackPfoUsage sets both usability
flags to false. -/
theorem defineTrackPfoUsage_fails_sanity_cut (fo : FloatOps) (g : Geometry) (s : Settings)
    (tc : TrackCreator) (pTrack : Track) (trackParameters : TrackParameters)
    (stateAtECal : TrackState)
    (hreach : trackParameters.m_reachesECal = some true)
    (hparent : pTrack.addr ∉ tc.m_parentTrackList)
    (hstate : trackParameters.m_trackStateAtECal = some stateAtECal)
    (hbelow : stateAtECal.position.GetMagnitude fo < s.m_minTrackECalDistanceFromIp) :
    TrackCreator.DefineTrackPfoUsage fo g s tc pTrack trackParameters =
      Except.ok { trackParameters with
        m_canFormPfo := some false, m_canFormClusterlessPfo := some false } := by
  have hp : tc.IsParent pTrack = false := by simp [TrackCreator.IsParent, hparent]
  simp [TrackCreator.DefineTrackPfoUsage, hreach, inputGet, hp, TrackCreator.PassesQualityCuts,
    hstate, hbelow]


/-- C11, witness: the sample descriptor has its calorimeter state at distance 25, below the
configured minimum 100. -/
theorem defineTrackPfoUsage_fails_sanity_cut_witness :
    (sampleDescriptor 8 211 (some 1)).m_reachesECal = some true ∧
    positiveCurvatureTrack.addr ∉ TrackCreator.initial.m_parentTrackList ∧
    CartesianVector.GetMagnitude sampleFloatOps ⟨0, 0, -25⟩
      < sampleSettings.m_minTrackECalDistanceFromIp ∧
    TrackCreator.DefineTrackPfoUsage sampleFloatOps smallGeometry sampleSettings
        TrackCreator.initial positiveCurvatureTrack (sampleDescriptor 8 211 (some 1))
      = Except.ok { sampleDescriptor 8 211 (some 1) with
          m_canFormPfo := some false, m_canFormClusterlessPfo := some false } :=
  have hbelow : CartesianVector.GetMagnitude sampleFloatOps ⟨0, 0, -25⟩
      < sampleSettings.m_minTrackECalDistanceFromIp := by
    norm_num [CartesianVector.GetMagnitude, sampleFloatOps, sqrtSearch_625, sampleSettings]
  ⟨rfl, by decide, hbelow,
    defineTrackPfoUsage_fails_sanity_cut sampleFloatOps smallGeometry sampleSettings
      TrackCreator.initial positiveCurvatureTrack (sampleDescriptor 8 211 (some 1))
      ⟨⟨0, 0, -25⟩, ⟨0, 0, -1⟩⟩ rfl (by decide) rfl hbelow⟩

/-- C11, counterexample: with the configured minimum 25 and the calorimeter state at distance
exactly 25 (momentum (1, 0, 1)), the track passes the sanity cut and both usability flags are
set to true. -/
theorem defineTrackPfoUsage_at_minimum_distance :
    CartesianVector.GetMagnitude sampleFloatOps ⟨0, 0, -25⟩
      = boundarySettings.m_minTrackECalDistanceFromIp ∧
    transverseDescriptor.m_reachesECal = some true ∧
    positiveCurvatureTrack.addr ∉ TrackCreator.initial.m_parentTrackList ∧
    TrackCreator.DefineTrackPfoUsage sampleFloatOps smallGeometry boundarySettings
        TrackCreator.initial positiveCurvatureTrack transverseDescriptor
      = Except.ok { transverseDescriptor with
          m_canFormPfo := some true, m_canFormClusterlessPfo := some true } := by
  refine ⟨?_, rfl, by decide, ?_⟩
  · norm_num [CartesianVector.GetMagnitude, sampleFloatOps, sqrtSearch_625, boundarySettings,
      sampleSettings]
  · norm_num [TrackCreator.DefineTrackPfoUsage, transverseDescriptor, sampleDescriptor, inputGet,
      TrackCreator.IsParent, TrackCreator.initial, positiveCurvatureTrack, TrackCreator.innerHitLoop,
      TrackCreator.PassesQualityCuts, CartesianVector.GetMagnitude, sampleFloatOps,
      sqrtSearch_625, boundarySettings, sampleSettings, TrackCreator.pfoUsageFlags,
      smallGeometry, sqrtSearch_16, sqrtSearch_0, TrackCreator.IsV0, TrackCreator.IsDaughter,
      CartesianVector.GetMagnitudeSquared, FLT_MAX, sqrtSearch]

/-- The two flags computed once the quality cuts are passed, as conditions on the inputs:
the three-way rule for each flag, with the z test of the relaxed position cut as the function
evaluates it. -/
theorem pfoUsageFlags_spec (fo : FloatOps) (g : Geometry) (s : Settings) (tc : TrackCreator)
    (pTrack : Track) (trackParameters : TrackParameters) (rInner zMin : ℚ)
    (p : CartesianVector) (mass : ℚ)
    (hmom : trackParameters.m_momentumAtDca = some p)
    (hmass : trackParameters.m_mass = some mass) :
    ∃ canFormPfo canFormClusterlessPfo : Bool,
      TrackCreator.pfoUsageFlags fo g s tc pTrack trackParameters rInner zMin
        = Except.ok (canFormPfo, canFormClusterlessPfo) ∧
      (canFormPfo = true ↔
        (|pTrack.d0| < s.m_d0TrackCut ∧ |pTrack.z0| < s.m_z0TrackCut ∧
          rInner < g.tpcInnerR + s.m_maxTpcInnerRDistance) ∨
        (relaxedZTest fo g s p zMin = true ∧
          rInner < g.tpcInnerR + s.m_maxTpcInnerRDistance ∧ s.m_usingNonVertexTracks ≠ 0) ∨
        (pTrack.addr ∈ tc.m_v0TrackList ∨ pTrack.addr ∈ tc.m_daughterTrackList)) ∧
      (canFormClusterlessPfo = true ↔
        s.m_usingUnmatchedVertexTracks ≠ 0 ∧
        fo.sqrt (p.GetMagnitudeSquared + mass * mass) < s.m_unmatchedVertexTrackMaxEnergy ∧
        ((|pTrack.d0| < s.m_d0UnmatchedVertexTrackCut ∧ |pTrack.z0| < s.m_z0UnmatchedVertexTrackCut ∧
            rInner < g.tpcInnerR + s.m_maxTpcInnerRDistance) ∨
          (relaxedZTest fo g s p zMin = true ∧
            rInner < g.tpcInnerR + s.m_maxTpcInnerRDistance ∧ s.m_usingNonVertexTracks ≠ 0 ∧
            s.m_usingUnmatchedNonVertexTracks ≠ 0) ∨
          (pTrack.addr ∈ tc.m_v0TrackList ∨ pTrack.addr ∈ tc.m_daughterTrackList))) := by
  simp only [TrackCreator.pfoUsageFlags, hmom, hmass, inputGet, TrackCreator.IsV0,
    TrackCreator.IsDaughter]
  refine ⟨_, _, rfl, ?_, ?_⟩
  · simp only [relaxedZTest, Bool.and_eq_true, decide_eq_true_eq, ne_eq]
    split_ifs <;> simp_all
  · simp only [relaxedZTest, Bool.and_eq_true, decide_eq_true_eq, ne_eq]
    split_ifs <;> simp_all

/-- With a zero transverse momentum the quotient pZ / pT is infinite or NaN: for a positive
inner radius of the main tracker the z test of the relaxed position cut then passes exactly
when pZ is not zero, whatever the hits. -/
theorem relaxedZTest_of_eq_zero (fo : FloatOps) (g : Geometry) (s : Settings)
    (p : CartesianVector) (zMin : ℚ) (hpT : fo.sqrt (p.x * p.x + p.y * p.y) = 0)
    (hR : 0 < g.tpcInnerR) :
    relaxedZTest fo g s p zMin = true ↔ p.z ≠ 0 := by
  rcases lt_trichotomy p.z 0 with hz | hz | hz
  · simp [relaxedZTest, floatDiv, hpT, FloatValue.abs, FloatValue.scale, FloatValue.add,
      FloatValue.lt, hz, not_lt_of_gt hz, ne_of_lt hz, hR]
  · simp [relaxedZTest, floatDiv, hpT, FloatValue.abs, FloatValue.scale, FloatValue.add,
      FloatValue.lt, hz]
  · simp [relaxedZTest, floatDiv, hpT, FloatValue.abs, FloatValue.scale, FloatValue.add,
      FloatValue.lt, hz, ne_of_gt hz, hR]

/-- The switch of ExtractKinks as a table, the eight case labels being pairwise distinct. -/
theorem kinkDaughterPdgCode_table (pdg : PdgTable) (code : Int) (omega : ℚ)
    (hlabels : [pdg.PI_PLUS, pdg.K_PLUS, pdg.PI_MINUS, pdg.K_MINUS, pdg.HYPERON_MINUS_BAR,
      pdg.SIGMA_PLUS, pdg.SIGMA_MINUS, pdg.HYPERON_MINUS].Nodup) :
    ((code = pdg.PI_PLUS ∨ code = pdg.K_PLUS) →
      TrackCreator.kinkDaughterPdgCode pdg code omega = pdg.MU_PLUS) ∧
    ((code = pdg.PI_MINUS ∨ code = pdg.K_MINUS) →
      TrackCreator.kinkDaughterPdgCode pdg code omega = pdg.MU_MINUS) ∧
    ((code = pdg.SIGMA_PLUS ∨ code = pdg.SIGMA_MINUS ∨ code = pdg.HYPERON_MINUS ∨
        code = pdg.HYPERON_MINUS_BAR) →
      TrackCreator.kinkDaughterPdgCode pdg code omega = pdg.PI_PLUS) ∧
    (code ∉ [pdg.PI_PLUS, pdg.K_PLUS, pdg.PI_MINUS, pdg.K_MINUS, pdg.HYPERON_MINUS_BAR,
        pdg.SIGMA_PLUS, pdg.SIGMA_MINUS, pdg.HYPERON_MINUS] →
      TrackCreator.kinkDaughterPdgCode pdg code omega
        = if omega > 0 then pdg.PI_PLUS else pdg.PI_MINUS) := by
  simp only [List.nodup_cons, List.mem_cons, List.mem_singleton, not_or, List.not_mem_nil,
    not_false_eq_true, List.nodup_nil, and_true] at hlabels
  obtain ⟨⟨a1, a2, a3, a4, a5, a6, a7⟩, ⟨b2, b3, b4, b5, b6, b7⟩, ⟨c3, c4, c5, c6, c7⟩,
    ⟨d4, d5, d6, d7⟩, ⟨e5, e6, e7⟩, ⟨f6, f7⟩, g7⟩ := hlabels
  refine ⟨?_, ?_, ?_, ?_⟩
  · intro h
    simp [TrackCreator.kinkDaughterPdgCode, h]
  · rintro (h | h) <;> subst h <;>
      simp [TrackCreator.kinkDaughterPdgCode, Ne.symm a2, Ne.symm a3, Ne.symm b2, Ne.symm b3]
  · rintro (h | h | h | h) <;> subst h <;>
      simp [TrackCreator.kinkDaughterPdgCode, Ne.symm a4, Ne.symm a5, Ne.symm a6, Ne.symm a7,
        Ne.symm b4, Ne.symm b5, Ne.symm b6, Ne.symm b7, Ne.symm c4, Ne.symm c5, Ne.symm c6,
        Ne.symm c7, Ne.symm d4, Ne.symm d5, Ne.symm d6, Ne.symm d7]
  · intro h
    simp only [List.mem_cons, List.mem_singleton, not_or, List.not_mem_nil, not_false_eq_true,
      and_true] at h
    obtain ⟨h1, h2, h3, h4, h5, h6, h7, h8⟩ := h
    simp [TrackCreator.kinkDaughterPdgCode, h1, h2, h3, h4, h5, h6, h7, h8]

/-- In a track list with pairwise distinct addresses, a listed track is determined by its
address. -/
theorem track_eq_of_addr (l : List Track) (hd : (l.map (fun t => t.addr)).Nodup)
    (u w : Track) (hu : u ∈ l) (hw : w ∈ l) (h : w.addr = u.addr) : w = u :=
  List.inj_on_of_nodup_map hd hw hu h

/-- C17. For every conflict-free kink vertex with distinct tracks, none of which has an
identity entry yet (relationship formation off, or the API accepting the declarations; the
eight case labels pairwise distinct), ExtractKinks maps the index-0 track to the vertex code
and each later track to: MU_PLUS when the vertex code is PI_PLUS or K_PLUS, MU_MINUS when it
is PI_MINUS or K_MINUS, a pion (PI_PLUS) when it is SIGMA_PLUS, SIGMA_MINUS, HYPERON_MINUS or
HYPERON_MINUS_BAR, and for every other vertex code PI_PLUS if that track's curvature is
positive and PI_MINUS otherwise. -/
theorem kink_identity_table (pdg : PdgTable) (s : Settings) (api : RelationshipApi)
    (tc : TrackCreator) (v : Vertex) (t0 : Track) (rest : List Track)
    (hv : v.tracks = t0 :: rest)
    (hdistinct : (v.tracks.map (fun t => t.addr)).Nodup)
    (hlabels : [pdg.PI_PLUS, pdg.K_PLUS, pdg.PI_MINUS, pdg.K_MINUS, pdg.HYPERON_MINUS_BAR,
      pdg.SIGMA_PLUS, pdg.SIGMA_MINUS, pdg.HYPERON_MINUS].Nodup)
    (hfree : tc.IsConflictingRelationship v.tracks = false)
    (hnew : ∀ t ∈ v.tracks, TrackCreator.pidFind tc.m_trackToPidMap t.addr = none)
    (hOk : s.m_shouldFormTrackRelationships = 0 ∨
      ∀ d r, api d r = StatusCode.STATUS_CODE_SUCCESS) :
    TrackCreator.pidFind (TrackCreator.kinkVertex pdg s api tc v).2.m_trackToPidMap t0.addr
      = some v.pdgType ∧
    ∀ u ∈ rest,
      ((v.pdgType = pdg.PI_PLUS ∨ v.pdgType = pdg.K_PLUS) →
        TrackCreator.pidFind (TrackCreator.kinkVertex pdg s api tc v).2.m_trackToPidMap u.addr
          = some pdg.MU_PLUS) ∧
      ((v.pdgType = pdg.PI_MINUS ∨ v.pdgType = pdg.K_MINUS) →
        TrackCreator.pidFind (TrackCreator.kinkVertex pdg s api tc v).2.m_trackToPidMap u.addr
          = some pdg.MU_MINUS) ∧
      ((v.pdgType = pdg.SIGMA_PLUS ∨ v.pdgType = pdg.SIGMA_MINUS ∨
          v.pdgType = pdg.HYPERON_MINUS ∨ v.pdgType = pdg.HYPERON_MINUS_BAR) →
        TrackCreator.pidFind (TrackCreator.kinkVertex pdg s api tc v).2.m_trackToPidMap u.addr
          = some pdg.PI_PLUS) ∧
      (v.pdgType ∉ [pdg.PI_PLUS, pdg.K_PLUS, pdg.PI_MINUS, pdg.K_MINUS, pdg.HYPERON_MINUS_BAR,
          pdg.SIGMA_PLUS, pdg.SIGMA_MINUS, pdg.HYPERON_MINUS] →
        TrackCreator.pidFind (TrackCreator.kinkVertex pdg s api tc v).2.m_trackToPidMap u.addr
          = some (if u.omega > 0 then pdg.PI_PLUS else pdg.PI_MINUS)) := by
  obtain ⟨h0, hd⟩ := kinkVertex_identity pdg s api tc v t0 rest hv hfree hnew hOk
  refine ⟨h0, ?_⟩
  intro u hu
  rw [hv] at hdistinct
  have hne : u.addr ≠ t0.addr := by
    intro h
    have := track_eq_of_addr (t0 :: rest) hdistinct t0 u (List.mem_cons_self _ _)
      (List.mem_cons_of_mem _ hu) h
    subst this
    simp only [List.map_cons, List.nodup_cons, List.mem_map, not_exists, not_and] at hdistinct
    exact hdistinct.1 u hu rfl
  obtain ⟨w, hw, hwa, hfind⟩ := hd u hu hne
  have hwu : w = u := track_eq_of_addr (t0 :: rest) hdistinct u w (List.mem_cons_of_mem _ hu)
    (List.mem_cons_of_mem _ hw) hwa
  rw [hwu] at hfind
  obtain ⟨k1, k2, k3, k4⟩ := kinkDaughterPdgCode_table pdg v.pdgType u.omega hlabels
  exact ⟨fun h => by rw [hfind, k1 h], fun h => by rw [hfind, k2 h],
    fun h => by rw [hfind, k3 h], fun h => by rw [hfind, k4 h]⟩

/-- C17, witness: the pi-plus kink on tracks 2 and 3, from the initial state: track 2 is
recorded as pi-plus (211) and track 3, whose curvature is positive, as mu-plus (-13). -/
theorem kink_identity_table_witness :
    TrackCreator.pidFind
        (TrackCreator.kinkVertex samplePdg sampleSettings acceptAll TrackCreator.initial
          kinkB).2.m_trackToPidMap 2 = some 211 ∧
    TrackCreator.pidFind
        (TrackCreator.kinkVertex samplePdg sampleSettings acceptAll TrackCreator.initial
          kinkB).2.m_trackToPidMap 3 = some (-13) :=
  have h := kink_identity_table samplePdg sampleSettings acceptAll TrackCreator.initial
    kinkB (sampleTrack 2 (-1)) [sampleTrack 3 1] rfl (by decide) (by decide) rfl (by decide)
    (Or.inr (fun _ _ => rfl))
  ⟨h.1, (h.2 (sampleTrack 3 1) (by decide)).1 (Or.inl rfl)⟩

/-! ### Exact effect of the track loops when the declarations are accepted -/

/-- With an API that accepts every declaration the inner loop ends with success, having
appended one declaration for every later track, in order. -/
theorem declareRelationships_accepting (api : RelationshipApi) (mk : Nat → Relationship)
    (hApi : ∀ d r, api d r = StatusCode.STATUS_CODE_SUCCESS) :
    ∀ (l : List Track) (d : List Relationship),
      TrackCreator.declareRelationships api mk l d
        = (StatusCode.STATUS_CODE_SUCCESS, d ++ l.map (fun t => mk t.addr)) := by
  intro l
  induction l with
  | nil => intro d; simp [TrackCreator.declareRelationships]
  | cons t rest ih =>
    intro d
    simp only [TrackCreator.declareRelationships, hApi, if_true, ih, List.map_cons,
      List.append_assoc, List.singleton_append]

/-- One step of the V0 loop when relationship formation is off or the API accepts every
declaration: the track is registered, its sibling links to the later tracks are declared (flag
on), and the loop goes on. -/
theorem v0TrackLoop_step (pdg : PdgTable) (s : Settings) (api : RelationshipApi) (code : Int)
    (hOk : s.m_shouldFormTrackRelationships = 0 ∨ ∀ d r, api d r = StatusCode.STATUS_CODE_SUCCESS)
    (t : Track) (rest : List Track) (tc : TrackCreator) :
    TrackCreator.v0TrackLoop pdg s api code (t :: rest) tc
      = TrackCreator.v0TrackLoop pdg s api code rest
          { TrackCreator.registerV0Track pdg code t tc with
            pandoraRelationships :=
              (TrackCreator.registerV0Track pdg code t tc).pandoraRelationships ++
                (if s.m_shouldFormTrackRelationships = 0 then []
                 else rest.map (fun u => Relationship.sibling t.addr u.addr)) } := by
  simp only [TrackCreator.v0TrackLoop]
  by_cases hflag : s.m_shouldFormTrackRelationships = 0
  · simp [hflag]
  · have hApi := hOk.resolve_left hflag
    simp [hflag, declareRelationships_accepting api _ hApi]

/-- One step of the kink loop when relationship formation is off or the API accepts every
declaration. -/
theorem kinkTrackLoop_step (pdg : PdgTable) (s : Settings) (api : RelationshipApi) (code : Int)
    (hOk : s.m_shouldFormTrackRelationships = 0 ∨ ∀ d r, api d r = StatusCode.STATUS_CODE_SUCCESS)
    (i : Nat) (t : Track) (rest : List Track) (tc : TrackCreator) :
    TrackCreator.kinkTrackLoop pdg s api code i (t :: rest) tc
      = TrackCreator.kinkTrackLoop pdg s api code (i + 1) rest
          { TrackCreator.registerKinkTrack pdg code i t tc with
            pandoraRelationships :=
              (TrackCreator.registerKinkTrack pdg code i t tc).pandoraRelationships ++
                (if s.m_shouldFormTrackRelationships = 0 then []
                 else rest.map (fun u => TrackCreator.parentOrSiblingLink i t u.addr)) } := by
  simp only [TrackCreator.kinkTrackLoop]
  by_cases hflag : s.m_shouldFormTrackRelationships = 0
  · simp [hflag]
  · have hApi := hOk.resolve_left hflag
    simp [hflag, declareRelationships_accepting api _ hApi]

/-- One step of the prong/split loop when relationship formation is off or the API accepts
every declaration. -/
theorem prongSplitTrackLoop_step (s : Settings) (api : RelationshipApi)
    (hOk : s.m_shouldFormTrackRelationships = 0 ∨ ∀ d r, api d r = StatusCode.STATUS_CODE_SUCCESS)
    (i : Nat) (t : Track) (rest : List Track) (tc : TrackCreator) :
    TrackCreator.prongSplitTrackLoop s api i (t :: rest) tc
      = TrackCreator.prongSplitTrackLoop s api (i + 1) rest
          { TrackCreator.insertParentOrDaughter i t tc with
            pandoraRelationships :=
              (TrackCreator.insertParentOrDaughter i t tc).pandoraRelationships ++
                (if s.m_shouldFormTrackRelationships = 0 then []
                 else rest.map (fun u => TrackCreator.parentOrSiblingLink i t u.addr)) } := by
  simp only [TrackCreator.prongSplitTrackLoop]
  by_cases hflag : s.m_shouldFormTrackRelationships = 0
  · simp [hflag]
  · have hApi := hOk.resolve_left hflag
    simp [hflag, declareRelationships_accepting api _ hApi]

/-- The V0 loop, when relationship formation is off or the API accepts every declaration,
ends with success; every listed track is then in the V0 set, the parent and daughter sets are
as before, and the sibling links of all pairs have been declared (flag on). -/
theorem v0TrackLoop_exact (pdg : PdgTable) (s : Settings) (api : RelationshipApi) (code : Int)
    (hOk : s.m_shouldFormTrackRelationships = 0 ∨ ∀ d r, api d r = StatusCode.STATUS_CODE_SUCCESS) :
    ∀ (l : List Track) (tc : TrackCreator),
      (TrackCreator.v0TrackLoop pdg s api code l tc).1 = StatusCode.STATUS_CODE_SUCCESS ∧
      (TrackCreator.v0TrackLoop pdg s api code l tc).2.m_v0TrackList
        = tc.m_v0TrackList ∪ (l.map (fun t => t.addr)).toFinset ∧
      (TrackCreator.v0TrackLoop pdg s api code l tc).2.m_parentTrackList = tc.m_parentTrackList ∧
      (TrackCreator.v0TrackLoop pdg s api code l tc).2.m_daughterTrackList
        = tc.m_daughterTrackList ∧
      (TrackCreator.v0TrackLoop pdg s api code l tc).2.pandoraRelationships
        = tc.pandoraRelationships ++
            (if s.m_shouldFormTrackRelationships = 0 then [] else siblingLinks l) := by
  intro l
  induction l with
  | nil =>
    intro tc
    simp [TrackCreator.v0TrackLoop, siblingLinks]
  | cons t rest ih =>
    intro tc
    rw [v0TrackLoop_step pdg s api code hOk t rest tc]
    obtain ⟨h1, h2, h3, h4, h5⟩ := ih
      { TrackCreator.registerV0Track pdg code t tc with
        pandoraRelationships :=
          (TrackCreator.registerV0Track pdg code t tc).pandoraRelationships ++
            (if s.m_shouldFormTrackRelationships = 0 then []
             else rest.map (fun u => Relationship.sibling t.addr u.addr)) }
    refine ⟨h1, ?_, ?_, ?_, ?_⟩
    · rw [h2]
      ext a
      simp [TrackCreator.registerV0Track]
    · rw [h3]
      simp [TrackCreator.registerV0Track]
    · rw [h4]
      simp [TrackCreator.registerV0Track]
    · rw [h5]
      by_cases hflag : s.m_shouldFormTrackRelationships = 0
      · simp [hflag, TrackCreator.registerV0Track]
      · simp [hflag, TrackCreator.registerV0Track, siblingLinks]

/-- The identities after the V0 loop, when relationship formation is off or the API accepts
every declaration: entries already there are kept, and a listed track without an entry gets
the code the switch gives for the first listed track with its address. -/
theorem v0TrackLoop_identity (pdg : PdgTable) (s : Settings) (api : RelationshipApi) (code : Int)
    (hOk : s.m_shouldFormTrackRelationships = 0 ∨ ∀ d r, api d r = StatusCode.STATUS_CODE_SUCCESS) :
    ∀ (l : List Track) (tc : TrackCreator),
      (∀ k c, TrackCreator.pidFind tc.m_trackToPidMap k = some c →
        TrackCreator.pidFind (TrackCreator.v0TrackLoop pdg s api code l tc).2.m_trackToPidMap k
          = some c) ∧
      (∀ u ∈ l, TrackCreator.pidFind tc.m_trackToPidMap u.addr = none →
        ∃ w ∈ l, w.addr = u.addr ∧
          TrackCreator.pidFind (TrackCreator.v0TrackLoop pdg s api code l tc).2.m_trackToPidMap
            u.addr = some (TrackCreator.v0TrackPdgCode pdg code w.omega)) := by
  intro l
  induction l with
  | nil =>
    intro tc
    exact ⟨fun k c h => h, fun u hu => absurd hu (List.not_mem_nil u)⟩
  | cons t rest ih =>
    intro tc
    rw [v0TrackLoop_step pdg s api code hOk t rest tc]
    obtain ⟨k1, k2⟩ := ih
      { TrackCreator.registerV0Track pdg code t tc with
        pandoraRelationships :=
          (TrackCreator.registerV0Track pdg code t tc).pandoraRelationships ++
            (if s.m_shouldFormTrackRelationships = 0 then []
             else rest.map (fun u => Relationship.sibling t.addr u.addr)) }
    have hmap : (TrackCreator.registerV0Track pdg code t tc).m_trackToPidMap
        = TrackCreator.pidInsert tc.m_trackToPidMap t.addr
            (TrackCreator.v0TrackPdgCode pdg code t.omega) := by
      simp [TrackCreator.registerV0Track]
    constructor
    · intro k c h
      apply k1
      show TrackCreator.pidFind (TrackCreator.registerV0Track pdg code t tc).m_trackToPidMap k = _
      rw [hmap]
      exact pidFind_pidInsert_of_some _ _ _ _ _ h
    · intro u hu hnone
      by_cases ha : u.addr = t.addr
      · refine ⟨t, List.mem_cons_self _ _, ha.symm, ?_⟩
        apply k1
        show TrackCreator.pidFind (TrackCreator.registerV0Track pdg code t tc).m_trackToPidMap
          u.addr = _
        rw [hmap, ha]
        exact pidFind_pidInsert_of_none _ _ _ (ha ▸ hnone)
      · rcases List.mem_cons.mp hu with h | h
        · exact absurd (congrArg Track.addr h) ha
        · obtain ⟨w, hw, hwa, hfind⟩ := k2 u h (by
            show TrackCreator.pidFind
              (TrackCreator.registerV0Track pdg code t tc).m_trackToPidMap u.addr = none
            rw [hmap, pidFind_pidInsert_of_ne _ _ _ _ ha]
            exact hnone)
          exact ⟨w, List.mem_cons_of_mem _ hw, hwa, hfind⟩

/-! ### Identity table of V0 vertices -/

/-- The switch of ExtractV0s as a table; the labels PHOTON, LAMBDA and LAMBDA_BAR being
pairwise distinct, K_SHORT and every other code give the pion pair. -/
theorem v0TrackPdgCode_table (pdg : PdgTable) (code : Int) (omega : ℚ)
    (hlabels : [pdg.PHOTON, pdg.LAMBDA, pdg.LAMBDA_BAR].Nodup) :
    (code = pdg.PHOTON → TrackCreator.v0TrackPdgCode pdg code omega
      = if omega > 0 then pdg.E_PLUS else pdg.E_MINUS) ∧
    (code = pdg.LAMBDA → TrackCreator.v0TrackPdgCode pdg code omega
      = if omega > 0 then pdg.PROTON else pdg.PI_MINUS) ∧
    (code = pdg.LAMBDA_BAR → TrackCreator.v0TrackPdgCode pdg code omega
      = if omega > 0 then pdg.PI_PLUS else pdg.PROTON_BAR) ∧
    (code ∉ [pdg.PHOTON, pdg.LAMBDA, pdg.LAMBDA_BAR] → TrackCreator.v0TrackPdgCode pdg code omega
      = if omega > 0 then pdg.PI_PLUS else pdg.PI_MINUS) := by
  simp only [List.nodup_cons, List.mem_cons, List.mem_singleton, not_or, List.not_mem_nil,
    not_false_eq_true, List.nodup_nil, and_true] at hlabels
  obtain ⟨⟨a1, a2⟩, b2⟩ := hlabels
  refine ⟨?_, ?_, ?_, ?_⟩
  · intro h
    simp [TrackCreator.v0TrackPdgCode, h]
  · intro h
    subst h
    simp [TrackCreator.v0TrackPdgCode, Ne.symm a1]
  · intro h
    subst h
    simp [TrackCreator.v0TrackPdgCode, Ne.symm a2, Ne.symm b2]
  · intro h
    simp only [List.mem_cons, List.mem_singleton, not_or, List.not_mem_nil, not_false_eq_true,
      and_true] at h
    obtain ⟨h1, h2, h3⟩ := h
    simp [TrackCreator.v0TrackPdgCode, h1, h2, h3]

/-- C18. For every conflict-free V0 vertex with distinct tracks, none of which has an identity
entry yet (relationship formation off, or the API accepting the declarations; the case labels
PHOTON, LAMBDA and LAMBDA_BAR pairwise distinct), the identity ExtractV0s records for a listed
track is: for a photon vertex positron / electron, for Lambda proton / pi-minus, for Lambda-bar
pi-plus / antiproton, for K-short and every other vertex code pi-plus / pi-minus (positive
curvature first, non-positive second). It is the value of the switch on the vertex code and
the curvature, and the switch gives the same code for any curvature of the same positivity. -/
theorem v0_identity_table (pdg : PdgTable) (s : Settings) (api : RelationshipApi)
    (tc : TrackCreator) (v : Vertex)
    (hdistinct : (v.tracks.map (fun t => t.addr)).Nodup)
    (hlabels : [pdg.PHOTON, pdg.LAMBDA, pdg.LAMBDA_BAR].Nodup)
    (hfree : tc.IsConflictingRelationship v.tracks = false)
    (hnew : ∀ t ∈ v.tracks, TrackCreator.pidFind tc.m_trackToPidMap t.addr = none)
    (hOk : s.m_shouldFormTrackRelationships = 0 ∨
      ∀ d r, api d r = StatusCode.STATUS_CODE_SUCCESS) :
    ∀ u ∈ v.tracks,
      (v.pdgType = pdg.PHOTON →
        TrackCreator.pidFind (TrackCreator.v0Vertex pdg s api tc v).2.m_trackToPidMap u.addr
          = some (if u.omega > 0 then pdg.E_PLUS else pdg.E_MINUS)) ∧
      (v.pdgType = pdg.LAMBDA →
        TrackCreator.pidFind (TrackCreator.v0Vertex pdg s api tc v).2.m_trackToPidMap u.addr
          = some (if u.omega > 0 then pdg.PROTON else pdg.PI_MINUS)) ∧
      (v.pdgType = pdg.LAMBDA_BAR →
        TrackCreator.pidFind (TrackCreator.v0Vertex pdg s api tc v).2.m_trackToPidMap u.addr
          = some (if u.omega > 0 then pdg.PI_PLUS else pdg.PROTON_BAR)) ∧
      (v.pdgType ∉ [pdg.PHOTON, pdg.LAMBDA, pdg.LAMBDA_BAR] →
        TrackCreator.pidFind (TrackCreator.v0Vertex pdg s api tc v).2.m_trackToPidMap u.addr
          = some (if u.omega > 0 then pdg.PI_PLUS else pdg.PI_MINUS)) ∧
      TrackCreator.pidFind (TrackCreator.v0Vertex pdg s api tc v).2.m_trackToPidMap u.addr
        = some (TrackCreator.v0TrackPdgCode pdg v.pdgType u.omega) ∧
      ∀ omega : ℚ, (omega > 0 ↔ u.omega > 0) →
        TrackCreator.v0TrackPdgCode pdg v.pdgType omega
          = TrackCreator.v0TrackPdgCode pdg v.pdgType u.omega := by
  intro u hu
  have hk : TrackCreator.v0Vertex pdg s api tc v
      = TrackCreator.v0TrackLoop pdg s api v.pdgType v.tracks tc := by
    unfold TrackCreator.v0Vertex
    rw [hfree]
    simp
  obtain ⟨w, hw, hwa, hfind⟩ :=
    (v0TrackLoop_identity pdg s api v.pdgType hOk v.tracks tc).2 u hu (hnew u hu)
  have hwu : w = u := track_eq_of_addr v.tracks hdistinct u w hu hw hwa
  rw [hwu, ← hk] at hfind
  obtain ⟨k1, k2, k3, k4⟩ := v0TrackPdgCode_table pdg v.pdgType u.omega hlabels
  refine ⟨fun h => by rw [hfind, k1 h], fun h => by rw [hfind, k2 h],
    fun h => by rw [hfind, k3 h], fun h => by rw [hfind, k4 h], hfind, ?_⟩
  intro omega hpos
  by_cases h : u.omega > 0
  · simp [TrackCreator.v0TrackPdgCode, h, hpos.mpr h]
  · simp [TrackCreator.v0TrackPdgCode, h, mt hpos.mp h]

/-- C18, witness: the Lambda vertex on tracks 6 (positive curvature) and 7 (negative), from
the initial state: track 6 is recorded as proton (2212) and track 7 as pi-minus (-211). -/
theorem v0_identity_table_witness :
    TrackCreator.pidFind
        (TrackCreator.v0Vertex samplePdg sampleSettings acceptAll TrackCreator.initial
          lambdaV0).2.m_trackToPidMap 6 = some 2212 ∧
    TrackCreator.pidFind
        (TrackCreator.v0Vertex samplePdg sampleSettings acceptAll TrackCreator.initial
          lambdaV0).2.m_trackToPidMap 7 = some (-211) :=
  have h := v0_identity_table samplePdg sampleSettings acceptAll TrackCreator.initial
    lambdaV0 (by decide) (by decide) rfl (by decide) (Or.inr (fun _ _ => rfl))
  ⟨by simpa [sampleTrack, samplePdg] using
      (h (sampleTrack 6 1) (by decide)).2.1 rfl,
    by simpa [sampleTrack, samplePdg] using
      (h (sampleTrack 7 (-1)) (by decide)).2.1 rfl⟩

/-! ### Links declared for a kink or prong/split vertex -/

/-- Twice the number of sibling links among n tracks is n (n - 1). -/
theorem length_siblingLinks_two (l : List Track) :
    (siblingLinks l).length * 2 = l.length * (l.length - 1) := by
  induction l with
  | nil => rfl
  | cons t rest ih =>
    simp only [siblingLinks, List.length_append, List.length_map, List.length_cons,
      Nat.add_sub_cancel]
    cases rest with
    | nil => rfl
    | cons u rest2 =>
      simp only [List.length_cons, Nat.add_sub_cancel] at ih ⊢
      rw [Nat.add_mul, ih]
      ring

/-- The number of sibling links among n tracks is n (n - 1) / 2. -/
theorem length_siblingLinks (l : List Track) :
    (siblingLinks l).length = l.length * (l.length - 1) / 2 := by
  have h := length_siblingLinks_two l
  omega

/-- The sibling links among the tracks of a list are those of the pairs of an earlier and a
later position. -/
theorem mem_siblingLinks_iff (r : Relationship) :
    ∀ l : List Track, r ∈ siblingLinks l ↔
      ∃ (i j : Nat) (a b : Track), i < j ∧ l[i]? = some a ∧ l[j]? = some b ∧
        r = Relationship.sibling a.addr b.addr := by
  intro l
  induction l with
  | nil => simp [siblingLinks]
  | cons t rest ih =>
    simp only [siblingLinks, List.mem_append, List.mem_map]
    constructor
    · rintro (⟨b, hb, rfl⟩ | h)
      · obtain ⟨j, hj⟩ := List.mem_iff_getElem?.mp hb
        exact ⟨0, j + 1, t, b, Nat.succ_pos j, by simp, by simpa using hj, rfl⟩
      · obtain ⟨i, j, a, b, hij, ha, hb, hr⟩ := ih.mp h
        exact ⟨i + 1, j + 1, a, b, Nat.succ_lt_succ hij, by simpa using ha, by simpa using hb, hr⟩
    · rintro ⟨i, j, a, b, hij, ha, hb, hr⟩
      cases j with
      | zero => exact absurd hij (Nat.not_lt_zero i)
      | succ j =>
        have hb1 : rest[j]? = some b := by simpa using hb
        cases i with
        | zero =>
          have ha1 : t = a := by simpa using ha
          subst ha1
          exact Or.inl ⟨b, List.mem_iff_getElem?.mpr ⟨j, hb1⟩, hr.symm⟩
        | succ i =>
          have ha1 : rest[i]? = some a := by simpa using ha
          exact Or.inr (ih.mpr ⟨i, j, a, b, Nat.lt_of_succ_lt_succ hij, ha1, hb1, hr⟩)

/-- Every sibling link among the tracks of a list joins two listed tracks, and with pairwise
distinct addresses they are two different tracks. -/
theorem siblingLinks_ends (r : Relationship) :
    ∀ l : List Track, (l.map (fun t => t.addr)).Nodup → r ∈ siblingLinks l →
      ∃ a ∈ l, ∃ b ∈ l, r = Relationship.sibling a.addr b.addr ∧ a.addr ≠ b.addr := by
  intro l
  induction l with
  | nil => intro _ h; simp [siblingLinks] at h
  | cons t rest ih =>
    intro hd h
    simp only [List.map_cons, List.nodup_cons, List.mem_map, not_exists, not_and] at hd
    simp only [siblingLinks, List.mem_append, List.mem_map] at h
    rcases h with ⟨b, hb, rfl⟩ | h
    · exact ⟨t, List.mem_cons_self _ _, b, List.mem_cons_of_mem _ hb, rfl,
        fun heq => hd.1 b hb heq.symm⟩
    · obtain ⟨a, ha, b, hb, hr, hne⟩ := ih hd.2 h
      exact ⟨a, List.mem_cons_of_mem _ ha, b, List.mem_cons_of_mem _ hb, hr, hne⟩

/-- With pairwise distinct addresses no sibling link is declared twice. -/
theorem nodup_siblingLinks :
    ∀ l : List Track, (l.map (fun t => t.addr)).Nodup → (siblingLinks l).Nodup := by
  intro l
  induction l with
  | nil => intro _; simp [siblingLinks]
  | cons t rest ih =>
    intro hd
    have hd0 := hd
    simp only [List.map_cons, List.nodup_cons, List.mem_map, not_exists, not_and] at hd
    simp only [siblingLinks]
    rw [List.nodup_append]
    refine ⟨?_, ih hd.2, ?_⟩
    · have hmap : rest.map (fun u => Relationship.sibling t.addr u.addr)
          = (rest.map (fun u => u.addr)).map (Relationship.sibling t.addr) := by
        simp [List.map_map, Function.comp]
      rw [hmap]
      exact List.Nodup.map (fun x y hxy => by injection hxy) hd.2
    · intro r h1 h2
      obtain ⟨b, _, hb⟩ := List.mem_map.mp h1
      obtain ⟨a, ha, _, _, hr, _⟩ := siblingLinks_ends r rest hd.2 h2
      rw [← hb] at hr
      injection hr with h3 _
      exact hd.1 a ha h3.symm

/-- The links declared for the tracks t0 :: rest of a kink or prong/split vertex with pairwise
distinct addresses: none is declared twice and none joins a track with itself. -/
theorem parentDaughterLinks_distinct (t0 : Track) (rest : List Track)
    (hd : ((t0 :: rest).map (fun t => t.addr)).Nodup) :
    (parentDaughterLinks t0 rest ++ siblingLinks rest).Nodup ∧
    ∀ r ∈ parentDaughterLinks t0 rest ++ siblingLinks rest, isSelfLink r = false := by
  have hd0 := hd
  simp only [List.map_cons, List.nodup_cons, List.mem_map, not_exists, not_and] at hd
  constructor
  · rw [List.nodup_append]
    refine ⟨?_, nodup_siblingLinks rest hd.2, ?_⟩
    · have hmap : parentDaughterLinks t0 rest
          = (rest.map (fun u => u.addr)).map (Relationship.parentDaughter t0.addr) := by
        simp [parentDaughterLinks, List.map_map, Function.comp]
      rw [hmap]
      exact List.Nodup.map (fun x y hxy => by injection hxy) hd.2
    · intro r h1 h2
      obtain ⟨b, _, hb⟩ := List.mem_map.mp h1
      obtain ⟨a, _, c, _, hr, _⟩ := siblingLinks_ends r rest hd.2 h2
      rw [← hb] at hr
      cases hr
  · intro r hr
    rcases List.mem_append.mp hr with h | h
    · obtain ⟨b, hb, hb2⟩ := List.mem_map.mp h
      rw [← hb2]
      simp only [isSelfLink, decide_eq_false_iff_not]
      exact fun heq => hd.1 b hb heq.symm
    · obtain ⟨a, _, b, _, hr2, hne⟩ := siblingLinks_ends r rest hd.2 h
      rw [hr2]
      simp only [isSelfLink, decide_eq_false_iff_not]
      exact hne

/-- The later part of a kink or prong/split loop (index not 0), for any loop that at each step
makes the insertion of insertParentOrDaughter, appends the links to the later tracks when the
flag is on, and goes on: it ends with success, the tracks are in the daughter set and the
sibling links of all pairs have been declared. -/
theorem daughterLoop_exact (s : Settings)
    (loop : Nat → List Track → TrackCreator → StatusCode × TrackCreator)
    (hnil : ∀ i tc, loop i [] tc = (StatusCode.STATUS_CODE_SUCCESS, tc))
    (hstep : ∀ i t rest tc, ∃ tc1 : TrackCreator,
      SameSets tc1 (TrackCreator.insertParentOrDaughter i t tc) ∧
      tc1.pandoraRelationships = tc.pandoraRelationships ++
        (if s.m_shouldFormTrackRelationships = 0 then []
         else rest.map (fun u => TrackCreator.parentOrSiblingLink i t u.addr)) ∧
      loop i (t :: rest) tc = loop (i + 1) rest tc1) :
    ∀ (l : List Track) (i : Nat) (tc : TrackCreator), i ≠ 0 →
      (loop i l tc).1 = StatusCode.STATUS_CODE_SUCCESS ∧
      (loop i l tc).2.m_parentTrackList = tc.m_parentTrackList ∧
      (loop i l tc).2.m_daughterTrackList
        = tc.m_daughterTrackList ∪ (l.map (fun t => t.addr)).toFinset ∧
      (loop i l tc).2.m_v0TrackList = tc.m_v0TrackList ∧
      (loop i l tc).2.pandoraRelationships = tc.pandoraRelationships ++
        (if s.m_shouldFormTrackRelationships = 0 then [] else siblingLinks l) := by
  intro l
  induction l with
  | nil =>
    intro i tc _
    rw [hnil]
    simp [siblingLinks]
  | cons t rest ih =>
    intro i tc hi
    obtain ⟨tc1, ⟨hP, hD, hV⟩, hrel, hgo⟩ := hstep i t rest tc
    obtain ⟨h1, h2, h3, h4, h5⟩ := ih (i + 1) tc1 (Nat.succ_ne_zero i)
    rw [hgo]
    refine ⟨h1, ?_, ?_, ?_, ?_⟩
    · rw [h2, hP]
      simp [TrackCreator.insertParentOrDaughter, hi]
    · rw [h3, hD]
      ext a
      simp [TrackCreator.insertParentOrDaughter, hi]
    · rw [h4, hV]
      simp [TrackCreator.insertParentOrDaughter, hi]
    · rw [h5, hrel]
      by_cases hflag : s.m_shouldFormTrackRelationships = 0
      · simp [hflag]
      · simp [hflag, siblingLinks, TrackCreator.parentOrSiblingLink, hi]

/-- A kink or prong/split loop over the tracks t0 :: rest from index 0, for any loop as in
daughterLoop_exact: it ends with success, t0 is in the parent set, the others are in the
daughter set, and the parent-daughter links from t0 and then the sibling links among the others
have been declared. -/
theorem parentDaughterLoop_exact (s : Settings)
    (loop : Nat → List Track → TrackCreator → StatusCode × TrackCreator)
    (hnil : ∀ i tc, loop i [] tc = (StatusCode.STATUS_CODE_SUCCESS, tc))
    (hstep : ∀ i t rest tc, ∃ tc1 : TrackCreator,
      SameSets tc1 (TrackCreator.insertParentOrDaughter i t tc) ∧
      tc1.pandoraRelationships = tc.pandoraRelationships ++
        (if s.m_shouldFormTrackRelationships = 0 then []
         else rest.map (fun u => TrackCreator.parentOrSiblingLink i t u.addr)) ∧
      loop i (t :: rest) tc = loop (i + 1) rest tc1)
    (t0 : Track) (rest : List Track) (tc : TrackCreator) :
    (loop 0 (t0 :: rest) tc).1 = StatusCode.STATUS_CODE_SUCCESS ∧
    (loop 0 (t0 :: rest) tc).2.m_parentTrackList = insert t0.addr tc.m_parentTrackList ∧
    (loop 0 (t0 :: rest) tc).2.m_daughterTrackList
      = tc.m_daughterTrackList ∪ (rest.map (fun t => t.addr)).toFinset ∧
    (loop 0 (t0 :: rest) tc).2.m_v0TrackList = tc.m_v0TrackList ∧
    (loop 0 (t0 :: rest) tc).2.pandoraRelationships = tc.pandoraRelationships ++
      (if s.m_shouldFormTrackRelationships = 0 then []
       else parentDaughterLinks t0 rest ++ siblingLinks rest) := by
  obtain ⟨tc1, ⟨hP, hD, hV⟩, hrel, hgo⟩ := hstep 0 t0 rest tc
  obtain ⟨h1, h2, h3, h4, h5⟩ := daughterLoop_exact s loop hnil hstep rest 1 tc1 (Nat.succ_ne_zero 0)
  rw [hgo]
  refine ⟨h1, ?_, ?_, ?_, ?_⟩
  · rw [h2, hP]
    simp [TrackCreator.insertParentOrDaughter]
  · rw [h3, hD]
    simp [TrackCreator.insertParentOrDaughter]
  · rw [h4, hV]
    simp [TrackCreator.insertParentOrDaughter]
  · rw [h5, hrel]
    by_cases hflag : s.m_shouldFormTrackRelationships = 0
    · simp [hflag]
    · simp [hflag, parentDaughterLinks, TrackCreator.parentOrSiblingLink]

/-- The kink loop is a loop as in daughterLoop_exact when relationship formation is off or the
API accepts every declaration. -/
theorem kinkTrackLoop_isParentDaughterLoop (pdg : PdgTable) (s : Settings)
    (api : RelationshipApi) (code : Int)
    (hOk : s.m_shouldFormTrackRelationships = 0 ∨ ∀ d r, api d r = StatusCode.STATUS_CODE_SUCCESS)
    (i : Nat) (t : Track) (rest : List Track) (tc : TrackCreator) :
    ∃ tc1 : TrackCreator,
      SameSets tc1 (TrackCreator.insertParentOrDaughter i t tc) ∧
      tc1.pandoraRelationships = tc.pandoraRelationships ++
        (if s.m_shouldFormTrackRelationships = 0 then []
         else rest.map (fun u => TrackCreator.parentOrSiblingLink i t u.addr)) ∧
      TrackCreator.kinkTrackLoop pdg s api code i (t :: rest) tc
        = TrackCreator.kinkTrackLoop pdg s api code (i + 1) rest tc1 := by
  refine ⟨_, ?_, ?_, kinkTrackLoop_step pdg s api code hOk i t rest tc⟩
  · simp [SameSets, TrackCreator.registerKinkTrack]
  · have h : (TrackCreator.registerKinkTrack pdg code i t tc).pandoraRelationships
        = tc.pandoraRelationships := by
      unfold TrackCreator.registerKinkTrack TrackCreator.insertParentOrDaughter
      by_cases hi : i = 0 <;> simp [hi]
    simp only [h]

/-- The prong/split loop is a loop as in daughterLoop_exact when relationship formation is off
or the API accepts every declaration. -/
theorem prongSplitTrackLoop_isParentDaughterLoop (s : Settings) (api : RelationshipApi)
    (hOk : s.m_shouldFormTrackRelationships = 0 ∨ ∀ d r, api d r = StatusCode.STATUS_CODE_SUCCESS)
    (i : Nat) (t : Track) (rest : List Track) (tc : TrackCreator) :
    ∃ tc1 : TrackCreator,
      SameSets tc1 (TrackCreator.insertParentOrDaughter i t tc) ∧
      tc1.pandoraRelationships = tc.pandoraRelationships ++
        (if s.m_shouldFormTrackRelationships = 0 then []
         else rest.map (fun u => TrackCreator.parentOrSiblingLink i t u.addr)) ∧
      TrackCreator.prongSplitTrackLoop s api i (t :: rest) tc
        = TrackCreator.prongSplitTrackLoop s api (i + 1) rest tc1 := by
  refine ⟨_, ?_, ?_, prongSplitTrackLoop_step s api hOk i t rest tc⟩
  · simp [SameSets]
  · have h : (TrackCreator.insertParentOrDaughter i t tc).pandoraRelationships
        = tc.pandoraRelationships := by
      unfold TrackCreator.insertParentOrDaughter
      by_cases hi : i = 0 <;> simp [hi]
    simp only [h]

/-- The parent-daughter links from the track at index 0 are those to the tracks at the later
positions. -/
theorem mem_parentDaughterLinks_iff (r : Relationship) (t0 : Track) (rest : List Track) :
    r ∈ parentDaughterLinks t0 rest ↔
      ∃ (j : Nat) (b : Track), 1 ≤ j ∧ (t0 :: rest)[j]? = some b ∧
        r = Relationship.parentDaughter t0.addr b.addr := by
  simp only [parentDaughterLinks, List.mem_map]
  constructor
  · rintro ⟨b, hb, rfl⟩
    obtain ⟨j, hj⟩ := List.mem_iff_getElem?.mp hb
    exact ⟨j + 1, b, Nat.succ_pos j, by simpa using hj, rfl⟩
  · rintro ⟨j, b, hj, hb, hr⟩
    cases j with
    | zero => exact absurd hj (by decide)
    | succ j =>
      have hb1 : rest[j]? = some b := by simpa using hb
      exact ⟨b, List.mem_iff_getElem?.mpr ⟨j, hb1⟩, hr.symm⟩

/-- The sibling links among the tracks after the first are those of the pairs of positions
1 <= i < j of the whole list. -/
theorem mem_siblingLinks_tail_iff (r : Relationship) (t0 : Track) (rest : List Track) :
    r ∈ siblingLinks rest ↔
      ∃ (i j : Nat) (a b : Track), 1 ≤ i ∧ i < j ∧ (t0 :: rest)[i]? = some a ∧
        (t0 :: rest)[j]? = some b ∧ r = Relationship.sibling a.addr b.addr := by
  rw [mem_siblingLinks_iff]
  constructor
  · rintro ⟨i, j, a, b, hij, ha, hb, hr⟩
    exact ⟨i + 1, j + 1, a, b, Nat.succ_pos i, Nat.succ_lt_succ hij, by simpa using ha,
      by simpa using hb, hr⟩
  · rintro ⟨i, j, a, b, hi, hij, ha, hb, hr⟩
    cases i with
    | zero => exact absurd hi (by decide)
    | succ i =>
      cases j with
      | zero => exact absurd hij (Nat.not_lt_zero _)
      | succ j =>
        exact ⟨i, j, a, b, Nat.lt_of_succ_lt_succ hij, by simpa using ha, by simpa using hb, hr⟩

/-- C19. For every conflict-free kink or prong/split vertex with n >= 1 distinct tracks,
relationship formation enabled and the API accepting the declarations, the extraction of the
vertex (by ExtractKinks or by ExtractProngsAndSplits) ends with success; the track at index 0
joins the parent set and all others the daughter set; the declarations emitted are the
parent-daughter links (0, j) for 1 <= j <= n-1 followed by the sibling links (i, j) for
1 <= i < j <= n-1, each once: n-1 parent-daughter links and (n-1)(n-2)/2 sibling links, none
between a track and itself. -/
theorem parent_daughter_vertex_links (pdg : PdgTable) (s : Settings) (api : RelationshipApi)
    (tc : TrackCreator) (v : Vertex) (t0 : Track) (rest : List Track)
    (result : StatusCode × TrackCreator)
    (hv : v.tracks = t0 :: rest)
    (hdistinct : (v.tracks.map (fun t => t.addr)).Nodup)
    (hfree : tc.IsConflictingRelationship v.tracks = false)
    (hflag : s.m_shouldFormTrackRelationships ≠ 0)
    (hApi : ∀ d r, api d r = StatusCode.STATUS_CODE_SUCCESS)
    (hresult : result = TrackCreator.kinkVertex pdg s api tc v ∨
      result = TrackCreator.prongSplitVertex s api tc v) :
    result.1 = StatusCode.STATUS_CODE_SUCCESS ∧
    result.2.m_parentTrackList = insert t0.addr tc.m_parentTrackList ∧
    result.2.m_daughterTrackList
      = tc.m_daughterTrackList ∪ (rest.map (fun t => t.addr)).toFinset ∧
    result.2.pandoraRelationships
      = tc.pandoraRelationships ++ (parentDaughterLinks t0 rest ++ siblingLinks rest) ∧
    (∀ r, r ∈ parentDaughterLinks t0 rest ↔
      ∃ (j : Nat) (b : Track), 1 ≤ j ∧ v.tracks[j]? = some b ∧
        r = Relationship.parentDaughter t0.addr b.addr) ∧
    (∀ r, r ∈ siblingLinks rest ↔
      ∃ (i j : Nat) (a b : Track), 1 ≤ i ∧ i < j ∧ v.tracks[i]? = some a ∧
        v.tracks[j]? = some b ∧ r = Relationship.sibling a.addr b.addr) ∧
    (parentDaughterLinks t0 rest ++ siblingLinks rest).Nodup ∧
    (parentDaughterLinks t0 rest).length = v.tracks.length - 1 ∧
    (siblingLinks rest).length = (v.tracks.length - 1) * (v.tracks.length - 2) / 2 ∧
    ∀ r ∈ parentDaughterLinks t0 rest ++ siblingLinks rest, isSelfLink r = false := by
  have hloop : result.1 = StatusCode.STATUS_CODE_SUCCESS ∧
      result.2.m_parentTrackList = insert t0.addr tc.m_parentTrackList ∧
      result.2.m_daughterTrackList
        = tc.m_daughterTrackList ∪ (rest.map (fun t => t.addr)).toFinset ∧
      result.2.m_v0TrackList = tc.m_v0TrackList ∧
      result.2.pandoraRelationships = tc.pandoraRelationships ++
        (if s.m_shouldFormTrackRelationships = 0 then []
         else parentDaughterLinks t0 rest ++ siblingLinks rest) := by
    rcases hresult with h | h
    · have hk : result = TrackCreator.kinkTrackLoop pdg s api v.pdgType 0 (t0 :: rest) tc := by
        rw [h]
        unfold TrackCreator.kinkVertex
        rw [hfree, hv]
        simp
      rw [hk]
      exact parentDaughterLoop_exact s (TrackCreator.kinkTrackLoop pdg s api v.pdgType)
        (fun i tc => by simp [TrackCreator.kinkTrackLoop])
        (kinkTrackLoop_isParentDaughterLoop pdg s api v.pdgType (Or.inr hApi)) t0 rest tc
    · have hk : result = TrackCreator.prongSplitTrackLoop s api 0 (t0 :: rest) tc := by
        rw [h]
        unfold TrackCreator.prongSplitVertex
        rw [hfree, hv]
        simp
      rw [hk]
      exact parentDaughterLoop_exact s (TrackCreator.prongSplitTrackLoop s api)
        (fun i tc => by simp [TrackCreator.prongSplitTrackLoop])
        (prongSplitTrackLoop_isParentDaughterLoop s api (Or.inr hApi)) t0 rest tc
  obtain ⟨h1, h2, h3, _, h5⟩ := hloop
  rw [if_neg hflag] at h5
  rw [hv] at hdistinct
  obtain ⟨hnodup, hself⟩ := parentDaughterLinks_distinct t0 rest hdistinct
  refine ⟨h1, h2, h3, h5, ?_, ?_, hnodup, ?_, ?_, hself⟩
  · intro r
    rw [hv]
    exact mem_parentDaughterLinks_iff r t0 rest
  · intro r
    rw [hv]
    exact mem_siblingLinks_tail_iff r t0 rest
  · simp [parentDaughterLinks, hv]
  · rw [length_siblingLinks, hv]
    simp only [List.length_cons, Nat.add_sub_cancel]
    rfl

/-- C19, witness: the prong vertex on tracks 4, 5 and 6, from the initial state: track 4 is
the parent, tracks 5 and 6 are daughters, and the declarations are the two parent-daughter
links from 4 and the sibling link of 5 and 6. -/
theorem parent_daughter_vertex_links_witness :
    (TrackCreator.prongSplitVertex sampleSettings acceptAll TrackCreator.initial
        prongA).2.m_parentTrackList = insert 4 TrackCreator.initial.m_parentTrackList ∧
    (TrackCreator.prongSplitVertex sampleSettings acceptAll TrackCreator.initial
        prongA).2.pandoraRelationships
      = [Relationship.parentDaughter 4 5, Relationship.parentDaughter 4 6,
          Relationship.sibling 5 6] :=
  have h := parent_daughter_vertex_links samplePdg sampleSettings acceptAll TrackCreator.initial
    prongA (sampleTrack 4 1) [sampleTrack 5 1, sampleTrack 6 (-1)]
    (TrackCreator.prongSplitVertex sampleSettings acceptAll TrackCreator.initial prongA)
    rfl (by decide) rfl (by decide) (fun _ _ => rfl) (Or.inr rfl)
  ⟨h.2.1, h.2.2.2.1⟩

/-! ### Links declared for a V0 vertex -/

/-- No sibling link is a parent-daughter link. -/
theorem siblingLinks_not_parentDaughter (r : Relationship) :
    ∀ l : List Track, r ∈ siblingLinks l → isParentDaughterLink r = false := by
  intro l
  induction l with
  | nil => intro h; simp [siblingLinks] at h
  | cons t rest ih =>
    intro h
    simp only [siblingLinks, List.mem_append, List.mem_map] at h
    rcases h with ⟨b, _, rfl⟩ | h
    · rfl
    · exact ih h

/-- C20. For every conflict-free V0 vertex with n distinct tracks (relationship formation off,
or the API accepting the declarations), the extraction of the vertex by ExtractV0s ends with
success, every listed track joins the V0 set and the parent and daughter sets are unchanged,
so that no listed track is in either; with relationship formation enabled the declarations
emitted are the sibling links (i, j) for 0 <= i < j <= n-1, each once: n(n-1)/2 sibling links,
no parent-daughter link and none between a track and itself. -/
theorem v0_vertex_links (pdg : PdgTable) (s : Settings) (api : RelationshipApi)
    (tc : TrackCreator) (v : Vertex)
    (hdistinct : (v.tracks.map (fun t => t.addr)).Nodup)
    (hfree : tc.IsConflictingRelationship v.tracks = false)
    (hOk : s.m_shouldFormTrackRelationships = 0 ∨
      ∀ d r, api d r = StatusCode.STATUS_CODE_SUCCESS) :
    (TrackCreator.v0Vertex pdg s api tc v).1 = StatusCode.STATUS_CODE_SUCCESS ∧
    (TrackCreator.v0Vertex pdg s api tc v).2.m_v0TrackList
      = tc.m_v0TrackList ∪ (v.tracks.map (fun t => t.addr)).toFinset ∧
    (TrackCreator.v0Vertex pdg s api tc v).2.m_parentTrackList = tc.m_parentTrackList ∧
    (TrackCreator.v0Vertex pdg s api tc v).2.m_daughterTrackList = tc.m_daughterTrackList ∧
    (∀ t ∈ v.tracks,
      t.addr ∈ (TrackCreator.v0Vertex pdg s api tc v).2.m_v0TrackList ∧
      t.addr ∉ (TrackCreator.v0Vertex pdg s api tc v).2.m_parentTrackList ∧
      t.addr ∉ (TrackCreator.v0Vertex pdg s api tc v).2.m_daughterTrackList) ∧
    (s.m_shouldFormTrackRelationships ≠ 0 →
      (TrackCreator.v0Vertex pdg s api tc v).2.pandoraRelationships
        = tc.pandoraRelationships ++ siblingLinks v.tracks ∧
      (∀ r, r ∈ siblingLinks v.tracks ↔
        ∃ (i j : Nat) (a b : Track), i < j ∧ v.tracks[i]? = some a ∧ v.tracks[j]? = some b ∧
          r = Relationship.sibling a.addr b.addr) ∧
      (siblingLinks v.tracks).Nodup ∧
      (siblingLinks v.tracks).length = v.tracks.length * (v.tracks.length - 1) / 2 ∧
      ∀ r ∈ siblingLinks v.tracks, isParentDaughterLink r = false ∧ isSelfLink r = false) := by
  have hk : TrackCreator.v0Vertex pdg s api tc v
      = TrackCreator.v0TrackLoop pdg s api v.pdgType v.tracks tc := by
    unfold TrackCreator.v0Vertex
    rw [hfree]
    simp
  obtain ⟨h1, h2, h3, h4, h5⟩ := v0TrackLoop_exact pdg s api v.pdgType hOk v.tracks tc
  rw [← hk] at h1 h2 h3 h4 h5
  refine ⟨h1, h2, h3, h4, ?_, ?_⟩
  · intro t ht
    obtain ⟨k1, k2, _⟩ := isConflictingRelationship_false tc v.tracks hfree t ht
    rw [h2, h3, h4]
    refine ⟨?_, k1, k2⟩
    simp only [Finset.mem_union, List.mem_toFinset, List.mem_map]
    exact Or.inr ⟨t, ht, rfl⟩
  · intro hflag
    rw [if_neg hflag] at h5
    refine ⟨h5, fun r => mem_siblingLinks_iff r v.tracks, nodup_siblingLinks v.tracks hdistinct,
      length_siblingLinks v.tracks, ?_⟩
    intro r hr
    refine ⟨siblingLinks_not_parentDaughter r v.tracks hr, ?_⟩
    obtain ⟨a, _, b, _, hr2, hne⟩ := siblingLinks_ends r v.tracks hdistinct hr
    rw [hr2]
    simp only [isSelfLink, decide_eq_false_iff_not]
    exact hne

/-- C20, witness: the Lambda vertex on tracks 6 and 7, from the initial state: both tracks are
in the V0 set, the parent set is still empty and the one sibling link is declared. -/
theorem v0_vertex_links_witness :
    (TrackCreator.v0Vertex samplePdg sampleSettings acceptAll TrackCreator.initial
        lambdaV0).2.m_v0TrackList
      = TrackCreator.initial.m_v0TrackList ∪ (lambdaV0.tracks.map (fun t => t.addr)).toFinset ∧
    (TrackCreator.v0Vertex samplePdg sampleSettings acceptAll TrackCreator.initial
        lambdaV0).2.m_parentTrackList = TrackCreator.initial.m_parentTrackList ∧
    (TrackCreator.v0Vertex samplePdg sampleSettings acceptAll TrackCreator.initial
        lambdaV0).2.pandoraRelationships = [Relationship.sibling 6 7] :=
  have h := v0_vertex_links samplePdg sampleSettings acceptAll TrackCreator.initial lambdaV0
    (by decide) rfl (Or.inr (fun _ _ => rfl))
  ⟨h.2.1, h.2.2.1, (h.2.2.2.2.2 (by decide)).1⟩

/-! ### Relationship formation switched off -/

/-- The conflict check reads the three membership sets only. -/
theorem isConflictingRelationship_congr (a b : TrackCreator) (h : SameRegistration a b) :
    ∀ l : List Track, a.IsConflictingRelationship l = b.IsConflictingRelationship l := by
  obtain ⟨hP, hD, hV, _⟩ := h
  intro l
  induction l with
  | nil => rfl
  | cons t rest ih =>
    simp only [TrackCreator.IsConflictingRelationship, TrackCreator.IsDaughter,
      TrackCreator.IsParent, TrackCreator.IsV0, hP, hD, hV, ih]

/-- The insertions for a kink track keep two states in agreement on sets and identities. -/
theorem sameRegistration_registerKinkTrack (pdg : PdgTable) (code : Int) (i : Nat) (t : Track)
    (a b : TrackCreator) (h : SameRegistration a b) :
    SameRegistration (TrackCreator.registerKinkTrack pdg code i t a)
      (TrackCreator.registerKinkTrack pdg code i t b) := by
  obtain ⟨hP, hD, hV, hM⟩ := h
  unfold TrackCreator.registerKinkTrack TrackCreator.insertParentOrDaughter SameRegistration
  by_cases hi : i = 0 <;> simp [hi, hP, hD, hV, hM]

/-- The insertion for a prong/split track keeps two states in agreement on sets and identities. -/
theorem sameRegistration_insertParentOrDaughter (i : Nat) (t : Track)
    (a b : TrackCreator) (h : SameRegistration a b) :
    SameRegistration (TrackCreator.insertParentOrDaughter i t a)
      (TrackCreator.insertParentOrDaughter i t b) := by
  obtain ⟨hP, hD, hV, hM⟩ := h
  unfold TrackCreator.insertParentOrDaughter SameRegistration
  by_cases hi : i = 0 <;> simp [hi, hP, hD, hV, hM]

/-- The insertions for a V0 track keep two states in agreement on sets and identities. -/
theorem sameRegistration_registerV0Track (pdg : PdgTable) (code : Int) (t : Track)
    (a b : TrackCreator) (h : SameRegistration a b) :
    SameRegistration (TrackCreator.registerV0Track pdg code t a)
      (TrackCreator.registerV0Track pdg code t b) := by
  obtain ⟨hP, hD, hV, hM⟩ := h
  unfold TrackCreator.registerV0Track SameRegistration
  simp [hP, hD, hV, hM]

/-- The declarations are untouched by the insertions for a kink track. -/
theorem registerKinkTrack_relationships (pdg : PdgTable) (code : Int) (i : Nat) (t : Track)
    (a : TrackCreator) :
    (TrackCreator.registerKinkTrack pdg code i t a).pandoraRelationships
      = a.pandoraRelationships := by
  unfold TrackCreator.registerKinkTrack TrackCreator.insertParentOrDaughter
  by_cases hi : i = 0 <;> simp [hi]

/-- The declarations are untouched by the insertion for a prong/split track. -/
theorem insertParentOrDaughter_relationships (i : Nat) (t : Track) (a : TrackCreator) :
    (TrackCreator.insertParentOrDaughter i t a).pandoraRelationships
      = a.pandoraRelationships := by
  unfold TrackCreator.insertParentOrDaughter
  by_cases hi : i = 0 <;> simp [hi]

/-- The kink loop with formation off, against the kink loop with the given configuration and an
API that accepts every declaration, from states in agreement: both end with success, still in
agreement, and the run with formation off has declared nothing. -/
theorem kinkTrackLoop_formationOff (pdg : PdgTable) (s : Settings) (api apiOff : RelationshipApi)
    (code : Int) (hApi : ∀ d r, api d r = StatusCode.STATUS_CODE_SUCCESS) :
    ∀ (l : List Track) (i : Nat) (a b : TrackCreator), SameRegistration a b →
      (TrackCreator.kinkTrackLoop pdg (formationOff s) apiOff code i l a).1
        = StatusCode.STATUS_CODE_SUCCESS ∧
      (TrackCreator.kinkTrackLoop pdg s api code i l b).1 = StatusCode.STATUS_CODE_SUCCESS ∧
      SameRegistration (TrackCreator.kinkTrackLoop pdg (formationOff s) apiOff code i l a).2
        (TrackCreator.kinkTrackLoop pdg s api code i l b).2 ∧
      (TrackCreator.kinkTrackLoop pdg (formationOff s) apiOff code i l a).2.pandoraRelationships
        = a.pandoraRelationships := by
  intro l
  induction l with
  | nil => intro i a b h; exact ⟨rfl, rfl, h, rfl⟩
  | cons t rest ih =>
    intro i a b h
    rw [kinkTrackLoop_step pdg (formationOff s) apiOff code (Or.inl rfl) i t rest a,
      kinkTrackLoop_step pdg s api code (Or.inr hApi) i t rest b]
    obtain ⟨h1, h2, h3, h4⟩ := ih (i + 1)
      { TrackCreator.registerKinkTrack pdg code i t a with
        pandoraRelationships :=
          (TrackCreator.registerKinkTrack pdg code i t a).pandoraRelationships ++
            (if (formationOff s).m_shouldFormTrackRelationships = 0 then []
             else rest.map (fun u => TrackCreator.parentOrSiblingLink i t u.addr)) }
      { TrackCreator.registerKinkTrack pdg code i t b with
        pandoraRelationships :=
          (TrackCreator.registerKinkTrack pdg code i t b).pandoraRelationships ++
            (if s.m_shouldFormTrackRelationships = 0 then []
             else rest.map (fun u => TrackCreator.parentOrSiblingLink i t u.addr)) }
      (sameRegistration_registerKinkTrack pdg code i t a b h)
    refine ⟨h1, h2, h3, ?_⟩
    rw [h4]
    simp [formationOff, registerKinkTrack_relationships]

/-- The prong/split loop with formation off against the loop with the given configuration and
an accepting API, from states in agreement. -/
theorem prongSplitTrackLoop_formationOff (s : Settings) (api apiOff : RelationshipApi)
    (hApi : ∀ d r, api d r = StatusCode.STATUS_CODE_SUCCESS) :
    ∀ (l : List Track) (i : Nat) (a b : TrackCreator), SameRegistration a b →
      (TrackCreator.prongSplitTrackLoop (formationOff s) apiOff i l a).1
        = StatusCode.STATUS_CODE_SUCCESS ∧
      (TrackCreator.prongSplitTrackLoop s api i l b).1 = StatusCode.STATUS_CODE_SUCCESS ∧
      SameRegistration (TrackCreator.prongSplitTrackLoop (formationOff s) apiOff i l a).2
        (TrackCreator.prongSplitTrackLoop s api i l b).2 ∧
      (TrackCreator.prongSplitTrackLoop (formationOff s) apiOff i l a).2.pandoraRelationships
        = a.pandoraRelationships := by
  intro l
  induction l with
  | nil => intro i a b h; exact ⟨rfl, rfl, h, rfl⟩
  | cons t rest ih =>
    intro i a b h
    rw [prongSplitTrackLoop_step (formationOff s) apiOff (Or.inl rfl) i t rest a,
      prongSplitTrackLoop_step s api (Or.inr hApi) i t rest b]
    obtain ⟨h1, h2, h3, h4⟩ := ih (i + 1)
      { TrackCreator.insertParentOrDaughter i t a with
        pandoraRelationships :=
          (TrackCreator.insertParentOrDaughter i t a).pandoraRelationships ++
            (if (formationOff s).m_shouldFormTrackRelationships = 0 then []
             else rest.map (fun u => TrackCreator.parentOrSiblingLink i t u.addr)) }
      { TrackCreator.insertParentOrDaughter i t b with
        pandoraRelationships :=
          (TrackCreator.insertParentOrDaughter i t b).pandoraRelationships ++
            (if s.m_shouldFormTrackRelationships = 0 then []
             else rest.map (fun u => TrackCreator.parentOrSiblingLink i t u.addr)) }
      (sameRegistration_insertParentOrDaughter i t a b h)
    refine ⟨h1, h2, h3, ?_⟩
    rw [h4]
    simp [formationOff, insertParentOrDaughter_relationships]

/-- The V0 loop with formation off against the loop with the given configuration and an
accepting API, from states in agreement. -/
theorem v0TrackLoop_formationOff (pdg : PdgTable) (s : Settings) (api apiOff : RelationshipApi)
    (code : Int) (hApi : ∀ d r, api d r = StatusCode.STATUS_CODE_SUCCESS) :
    ∀ (l : List Track) (a b : TrackCreator), SameRegistration a b →
      (TrackCreator.v0TrackLoop pdg (formationOff s) apiOff code l a).1
        = StatusCode.STATUS_CODE_SUCCESS ∧
      (TrackCreator.v0TrackLoop pdg s api code l b).1 = StatusCode.STATUS_CODE_SUCCESS ∧
      SameRegistration (TrackCreator.v0TrackLoop pdg (formationOff s) apiOff code l a).2
        (TrackCreator.v0TrackLoop pdg s api code l b).2 ∧
      (TrackCreator.v0TrackLoop pdg (formationOff s) apiOff code l a).2.pandoraRelationships
        = a.pandoraRelationships := by
  intro l
  induction l with
  | nil => intro a b h; exact ⟨rfl, rfl, h, rfl⟩
  | cons t rest ih =>
    intro a b h
    rw [v0TrackLoop_step pdg (formationOff s) apiOff code (Or.inl rfl) t rest a,
      v0TrackLoop_step pdg s api code (Or.inr hApi) t rest b]
    obtain ⟨h1, h2, h3, h4⟩ := ih
      { TrackCreator.registerV0Track pdg code t a with
        pandoraRelationships :=
          (TrackCreator.registerV0Track pdg code t a).pandoraRelationships ++
            (if (formationOff s).m_shouldFormTrackRelationships = 0 then []
             else rest.map (fun u => Relationship.sibling t.addr u.addr)) }
      { TrackCreator.registerV0Track pdg code t b with
        pandoraRelationships :=
          (TrackCreator.registerV0Track pdg code t b).pandoraRelationships ++
            (if s.m_shouldFormTrackRelationships = 0 then []
             else rest.map (fun u => Relationship.sibling t.addr u.addr)) }
      (sameRegistration_registerV0Track pdg code t a b h)
    refine ⟨h1, h2, h3, ?_⟩
    rw [h4]
    simp [formationOff, TrackCreator.registerV0Track]

/-- Two element loops whose bodies, from related states, both end with success in related
states, end with success in related states. -/
theorem vertexLoop_related (R : TrackCreator → TrackCreator → Prop)
    (body1 body2 : TrackCreator → Vertex → StatusCode × TrackCreator)
    (hbody : ∀ a b v, R a b →
      (body1 a v).1 = StatusCode.STATUS_CODE_SUCCESS ∧
      (body2 b v).1 = StatusCode.STATUS_CODE_SUCCESS ∧ R (body1 a v).2 (body2 b v).2) :
    ∀ (vs : List Vertex) (a b : TrackCreator), R a b →
      (TrackCreator.vertexLoop body1 vs a).1 = StatusCode.STATUS_CODE_SUCCESS ∧
      (TrackCreator.vertexLoop body2 vs b).1 = StatusCode.STATUS_CODE_SUCCESS ∧
      R (TrackCreator.vertexLoop body1 vs a).2 (TrackCreator.vertexLoop body2 vs b).2 := by
  intro vs
  induction vs with
  | nil => intro a b h; exact ⟨rfl, rfl, h⟩
  | cons v rest ih =>
    intro a b h
    obtain ⟨h1, h2, h3⟩ := hbody a b v h
    simp only [TrackCreator.vertexLoop, h1, h2, if_true]
    exact ih _ _ h3

/-- Two loops over the same collection names whose bodies, from related states, both end with
success in related states, end with success in related states. -/
theorem collectionLoop_related (R : TrackCreator → TrackCreator → Prop) (ev : LCEvent)
    (body1 body2 : TrackCreator → Vertex → StatusCode × TrackCreator)
    (hbody : ∀ a b v, R a b →
      (body1 a v).1 = StatusCode.STATUS_CODE_SUCCESS ∧
      (body2 b v).1 = StatusCode.STATUS_CODE_SUCCESS ∧ R (body1 a v).2 (body2 b v).2) :
    ∀ (names : List String) (a b : TrackCreator), R a b →
      (TrackCreator.collectionLoop ev body1 names a).1 = StatusCode.STATUS_CODE_SUCCESS ∧
      (TrackCreator.collectionLoop ev body2 names b).1 = StatusCode.STATUS_CODE_SUCCESS ∧
      R (TrackCreator.collectionLoop ev body1 names a).2
        (TrackCreator.collectionLoop ev body2 names b).2 := by
  intro names
  induction names with
  | nil => intro a b h; exact ⟨rfl, rfl, h⟩
  | cons name rest ih =>
    intro a b h
    simp only [TrackCreator.collectionLoop]
    cases hc : ev.vertexCollection name with
    | none => exact ih a b h
    | some vs =>
      obtain ⟨h1, h2, h3⟩ := vertexLoop_related R body1 body2 hbody vs a b h
      simp only [h1, h2, if_true]
      exact ih _ _ h3

/-- The three vertex bodies with formation off against the same bodies with the given
configuration and an accepting API: from states in agreement, with the first having the
declarations d0, both end with success, in agreement, the first still with the declarations
d0. -/
theorem vertexBodies_formationOff (pdg : PdgTable) (s : Settings) (api apiOff : RelationshipApi)
    (hApi : ∀ d r, api d r = StatusCode.STATUS_CODE_SUCCESS) (d0 : List Relationship)
    (a b : TrackCreator) (v : Vertex)
    (h : SameRegistration a b ∧ a.pandoraRelationships = d0) :
    ((TrackCreator.kinkVertex pdg (formationOff s) apiOff a v).1 = StatusCode.STATUS_CODE_SUCCESS ∧
      (TrackCreator.kinkVertex pdg s api b v).1 = StatusCode.STATUS_CODE_SUCCESS ∧
      (SameRegistration (TrackCreator.kinkVertex pdg (formationOff s) apiOff a v).2
          (TrackCreator.kinkVertex pdg s api b v).2 ∧
        (TrackCreator.kinkVertex pdg (formationOff s) apiOff a v).2.pandoraRelationships = d0)) ∧
    ((TrackCreator.prongSplitVertex (formationOff s) apiOff a v).1
        = StatusCode.STATUS_CODE_SUCCESS ∧
      (TrackCreator.prongSplitVertex s api b v).1 = StatusCode.STATUS_CODE_SUCCESS ∧
      (SameRegistration (TrackCreator.prongSplitVertex (formationOff s) apiOff a v).2
          (TrackCreator.prongSplitVertex s api b v).2 ∧
        (TrackCreator.prongSplitVertex (formationOff s) apiOff a v).2.pandoraRelationships
          = d0)) ∧
    ((TrackCreator.v0Vertex pdg (formationOff s) apiOff a v).1 = StatusCode.STATUS_CODE_SUCCESS ∧
      (TrackCreator.v0Vertex pdg s api b v).1 = StatusCode.STATUS_CODE_SUCCESS ∧
      (SameRegistration (TrackCreator.v0Vertex pdg (formationOff s) apiOff a v).2
          (TrackCreator.v0Vertex pdg s api b v).2 ∧
        (TrackCreator.v0Vertex pdg (formationOff s) apiOff a v).2.pandoraRelationships = d0)) := by
  obtain ⟨hR, hd⟩ := h
  have hc := isConflictingRelationship_congr a b hR v.tracks
  unfold TrackCreator.kinkVertex TrackCreator.prongSplitVertex TrackCreator.v0Vertex
  rw [← hc]
  cases hconf : a.IsConflictingRelationship v.tracks with
  | true =>
    simp only [if_true]
    exact ⟨⟨trivial, trivial, hR, hd⟩, ⟨trivial, trivial, hR, hd⟩, ⟨trivial, trivial, hR, hd⟩⟩
  | false =>
    simp only [Bool.false_eq_true, if_false]
    obtain ⟨k1, k2, k3, k4⟩ :=
      kinkTrackLoop_formationOff pdg s api apiOff v.pdgType hApi v.tracks 0 a b hR
    obtain ⟨p1, p2, p3, p4⟩ := prongSplitTrackLoop_formationOff s api apiOff hApi v.tracks 0 a b hR
    obtain ⟨v1, v2, v3, v4⟩ :=
      v0TrackLoop_formationOff pdg s api apiOff v.pdgType hApi v.tracks a b hR
    exact ⟨⟨k1, k2, k3, k4.trans hd⟩, ⟨p1, p2, p3, p4.trans hd⟩, ⟨v1, v2, v3, v4.trans hd⟩⟩

/-- C21. For every event (every list of vertices in every collection) and every starting state,
CreateTrackAssociations run with relationship formation off emits no relationship declaration
(whatever the API would answer), and the parent, daughter and V0 sets and the identity map it
ends with are identical to those of the run with the flag as configured (in particular on) and
the API accepting every declaration; both runs return success. -/
theorem createTrackAssociations_formation_off (pdg : PdgTable) (s : Settings)
    (api apiOff : RelationshipApi) (ev : LCEvent) (tc : TrackCreator)
    (hApi : ∀ d r, api d r = StatusCode.STATUS_CODE_SUCCESS) :
    (TrackCreator.CreateTrackAssociations pdg (formationOff s) apiOff ev tc).2.pandoraRelationships
      = tc.pandoraRelationships ∧
    SameRegistration (TrackCreator.CreateTrackAssociations pdg (formationOff s) apiOff ev tc).2
      (TrackCreator.CreateTrackAssociations pdg s api ev tc).2 ∧
    (TrackCreator.CreateTrackAssociations pdg (formationOff s) apiOff ev tc).1
      = StatusCode.STATUS_CODE_SUCCESS ∧
    (TrackCreator.CreateTrackAssociations pdg s api ev tc).1 = StatusCode.STATUS_CODE_SUCCESS := by
  have hb := vertexBodies_formationOff pdg s api apiOff hApi tc.pandoraRelationships
  obtain ⟨a1, a2, a3⟩ := collectionLoop_related
    (fun a b => SameRegistration a b ∧ a.pandoraRelationships = tc.pandoraRelationships) ev
    (TrackCreator.kinkVertex pdg (formationOff s) apiOff) (TrackCreator.kinkVertex pdg s api)
    (fun a b v h => (hb a b v h).1) s.m_kinkVertexCollections tc tc ⟨⟨rfl, rfl, rfl, rfl⟩, rfl⟩
  obtain ⟨b1, b2, b3⟩ := collectionLoop_related
    (fun a b => SameRegistration a b ∧ a.pandoraRelationships = tc.pandoraRelationships) ev
    (TrackCreator.prongSplitVertex (formationOff s) apiOff) (TrackCreator.prongSplitVertex s api)
    (fun a b v h => (hb a b v h).2.1) s.m_prongSplitVertexCollections _ _ a3
  obtain ⟨c1, c2, c3⟩ := collectionLoop_related
    (fun a b => SameRegistration a b ∧ a.pandoraRelationships = tc.pandoraRelationships) ev
    (TrackCreator.v0Vertex pdg (formationOff s) apiOff) (TrackCreator.v0Vertex pdg s api)
    (fun a b v h => (hb a b v h).2.2) s.m_v0VertexCollections _ _ b3
  have e1 : TrackCreator.CreateTrackAssociations pdg (formationOff s) apiOff ev tc
      = (StatusCode.STATUS_CODE_SUCCESS,
          (TrackCreator.collectionLoop ev (TrackCreator.v0Vertex pdg (formationOff s) apiOff)
            s.m_v0VertexCollections
            (TrackCreator.collectionLoop ev
              (TrackCreator.prongSplitVertex (formationOff s) apiOff)
              s.m_prongSplitVertexCollections
              (TrackCreator.collectionLoop ev (TrackCreator.kinkVertex pdg (formationOff s) apiOff)
                s.m_kinkVertexCollections tc).2).2).2) := by
    simp only [TrackCreator.CreateTrackAssociations, TrackCreator.ExtractKinks,
      TrackCreator.ExtractProngsAndSplits, TrackCreator.ExtractV0s, formationOff]
    simp only [formationOff] at a1 b1 c1
    simp only [a1, b1, c1, if_true]
  have e2 : TrackCreator.CreateTrackAssociations pdg s api ev tc
      = (StatusCode.STATUS_CODE_SUCCESS,
          (TrackCreator.collectionLoop ev (TrackCreator.v0Vertex pdg s api)
            s.m_v0VertexCollections
            (TrackCreator.collectionLoop ev (TrackCreator.prongSplitVertex s api)
              s.m_prongSplitVertexCollections
              (TrackCreator.collectionLoop ev (TrackCreator.kinkVertex pdg s api)
                s.m_kinkVertexCollections tc).2).2).2) := by
    simp only [TrackCreator.CreateTrackAssociations, TrackCreator.ExtractKinks,
      TrackCreator.ExtractProngsAndSplits, TrackCreator.ExtractV0s]
    simp only [a2, b2, c2, if_true]
  rw [e1, e2]
  exact ⟨c3.2, c3.1, rfl, rfl⟩

/-- C21, witness: the event with overlapping vertices, from the initial state, with the sample
configuration (formation on) and the API that accepts everything. -/
theorem createTrackAssociations_formation_off_witness :
    (TrackCreator.CreateTrackAssociations samplePdg (formationOff sampleSettings) acceptAll
        overlappingEvent TrackCreator.initial).2.pandoraRelationships = [] ∧
    SameRegistration
      (TrackCreator.CreateTrackAssociations samplePdg (formationOff sampleSettings) acceptAll
        overlappingEvent TrackCreator.initial).2
      (TrackCreator.CreateTrackAssociations samplePdg sampleSettings acceptAll
        overlappingEvent TrackCreator.initial).2 :=
  have h := createTrackAssociations_formation_off samplePdg sampleSettings acceptAll acceptAll
    overlappingEvent TrackCreator.initial (fun _ _ => rfl)
  ⟨h.1, h.2.1⟩

/-! ### Identity and mass of the descriptor -/

/-- The handler of the per-track try block leaves the identity map as it is. -/
theorem reportAndContinue_pidMap (tc tc1 : TrackCreator) (f : Fault)
    (h : TrackCreator.reportAndContinue tc f = Except.ok tc1) :
    tc1.m_trackToPidMap = tc.m_trackToPidMap := by
  unfold TrackCreator.reportAndContinue at h
  split at h
  · cases h
  · cases h; rfl

/-- The body of the track loop leaves the identity map as it is. -/
theorem createTrack_pidMap (fo : FloatOps) (lib : HelixLibrary) (pdg : PdgTable)
    (g : Geometry) (s : Settings) (trackApi : TrackApi) (tc tc1 : TrackCreator) (pTrack : Track)
    (h : TrackCreator.createTrack fo lib pdg g s trackApi tc pTrack = Except.ok tc1) :
    tc1.m_trackToPidMap = tc.m_trackToPidMap := by
  unfold TrackCreator.createTrack at h
  split at h
  · cases h
  · simp only at h
    split at h
    · cases h; rfl
    · split at h
      · exact reportAndContinue_pidMap _ _ _ h
      · split at h
        · have hkeep := reportAndContinue_pidMap _ _ _ h
          exact hkeep
        · split at h
          · have hkeep := reportAndContinue_pidMap _ _ _ h
            exact hkeep
          · split at h
            · cases h; rfl
            · have hkeep := reportAndContinue_pidMap _ _ _ h
              exact hkeep

/-- The loop over the tracks of a collection leaves the identity map as it is. -/
theorem trackLoop_pidMap (body : TrackCreator → Track → Except Fault TrackCreator)
    (hbody : ∀ tc tc1 t, body tc t = Except.ok tc1 → tc1.m_trackToPidMap = tc.m_trackToPidMap) :
    ∀ (l : List Track) (tc tc1 : TrackCreator), TrackCreator.trackLoop body l tc = Except.ok tc1 →
      tc1.m_trackToPidMap = tc.m_trackToPidMap := by
  intro l
  induction l with
  | nil =>
    intro tc tc1 h
    simp only [TrackCreator.trackLoop] at h
    cases h
    rfl
  | cons t rest ih =>
    intro tc tc1 h
    simp only [TrackCreator.trackLoop] at h
    cases hb : body tc t with
    | error e => rw [hb] at h; cases h
    | ok tc2 =>
      rw [hb] at h
      exact (ih tc2 tc1 h).trans (hbody tc tc2 t hb)

/-- The loop over the track collections leaves the identity map as it is. -/
theorem trackCollectionLoop_pidMap (ev : LCEvent)
    (body : TrackCreator → Track → Except Fault TrackCreator)
    (hbody : ∀ tc tc1 t, body tc t = Except.ok tc1 → tc1.m_trackToPidMap = tc.m_trackToPidMap) :
    ∀ (names : List String) (tc tc1 : TrackCreator),
      TrackCreator.trackCollectionLoop ev body names tc = Except.ok tc1 →
      tc1.m_trackToPidMap = tc.m_trackToPidMap := by
  intro names
  induction names with
  | nil =>
    intro tc tc1 h
    simp only [TrackCreator.trackCollectionLoop] at h
    cases h
    rfl
  | cons name rest ih =>
    intro tc tc1 h
    simp only [TrackCreator.trackCollectionLoop] at h
    cases hc : ev.trackCollection name with
    | none => rw [hc] at h; exact ih tc tc1 h
    | some tracks =>
      rw [hc] at h
      simp only at h
      cases hl : TrackCreator.trackLoop body tracks tc with
      | error e => rw [hl] at h; cases h
      | ok tc2 =>
        rw [hl] at h
        exact (ih tc2 tc1 h).trans (trackLoop_pidMap body hbody tracks tc tc2 hl)

/-- C22. For every track for which CreateTracks emits a descriptor, the descriptor's identity is
the identity map's entry for the track when there is one, with the table mass of that identity;
with no entry it is PI_PLUS for positive curvature and PI_MINUS otherwise, with the table mass
of PI_PLUS (the charged-pion mass). Neither the body of the track loop nor CreateTracks as a
whole changes the identity map. -/
theorem createTrack_identity (fo : FloatOps) (lib : HelixLibrary) (pdg : PdgTable)
    (g : Geometry) (s : Settings) (trackApi : TrackApi) (tc tc1 : TrackCreator) (pTrack : Track)
    (d : TrackParameters)
    (h : TrackCreator.createTrack fo lib pdg g s trackApi tc pTrack = Except.ok tc1)
    (hd : tc1.pandoraTracks = tc.pandoraTracks ++ [d]) :
    (∀ code, TrackCreator.pidFind tc.m_trackToPidMap pTrack.addr = some code →
      d.m_particleId = some code ∧ d.m_mass = some (pdg.GetParticleMass code)) ∧
    (TrackCreator.pidFind tc.m_trackToPidMap pTrack.addr = none →
      d.m_particleId = some (if pTrack.omega > 0 then pdg.PI_PLUS else pdg.PI_MINUS) ∧
      d.m_mass = some (pdg.GetParticleMass pdg.PI_PLUS)) ∧
    tc1.m_trackToPidMap = tc.m_trackToPidMap ∧
    ∀ (ev : LCEvent) (before : TrackCreator) (result : StatusCode × TrackCreator),
      TrackCreator.CreateTracks fo lib pdg g s trackApi ev before = Except.ok result →
      result.2.m_trackToPidMap = before.m_trackToPidMap := by
  have hsame : SameIdentity (TrackCreator.initialTrackParameters pdg tc pTrack) d := by
    rcases createTrack_descriptor fo lib pdg g s trackApi tc tc1 pTrack h with h1 | ⟨d1, h1, h2⟩
    · rw [h1] at hd
      exact absurd hd (by simp)
    · rw [h1] at hd
      have : d1 = d := by simpa using hd
      exact this ▸ h2
  have hid : d.m_particleId = (TrackCreator.initialTrackParameters pdg tc pTrack).m_particleId :=
    hsame.2.2.2.1.symm
  have hmass : d.m_mass = (TrackCreator.initialTrackParameters pdg tc pTrack).m_mass :=
    hsame.2.2.2.2.1.symm
  refine ⟨?_, ?_, createTrack_pidMap fo lib pdg g s trackApi tc tc1 pTrack h, ?_⟩
  · intro code hfind
    rw [hid, hmass]
    unfold TrackCreator.initialTrackParameters
    simp only [hfind]
    by_cases h0 : pTrack.omega ≠ 0 <;> simp [h0]
  · intro hfind
    rw [hid, hmass]
    unfold TrackCreator.initialTrackParameters
    simp only [hfind]
    by_cases h0 : pTrack.omega ≠ 0 <;> simp [h0, TrackParameters.unset]
  · intro ev before result hrun
    unfold TrackCreator.CreateTracks at hrun
    split at hrun
    · cases hrun
    · split at hrun
      · cases hrun
      · rename_i tc2 hloop
        cases hrun
        exact trackCollectionLoop_pidMap ev (TrackCreator.createTrack fo lib pdg g s trackApi)
          (fun a b t hb => createTrack_pidMap fo lib pdg g s trackApi a b t hb)
          s.m_trackCollections before tc2 hloop

/-- C22, witness: the one-hit track of curvature 1, with no identity entry, is described as a
pi-plus with the charged-pion mass, and the identity map is still empty. -/
theorem createTrack_identity_witness :
    ((sampleDescriptor 8 211 (some 1)).m_particleId
        = some (if positiveCurvatureTrack.omega > 0 then samplePdg.PI_PLUS
            else samplePdg.PI_MINUS) ∧
      (sampleDescriptor 8 211 (some 1)).m_mass
        = some (samplePdg.GetParticleMass samplePdg.PI_PLUS)) ∧
    (afterDescriptor 8 (sampleDescriptor 8 211 (some 1))).m_trackToPidMap
      = TrackCreator.initial.m_trackToPidMap :=
  have h := createTrack_identity sampleFloatOps sampleLibrary samplePdg smallGeometry
    lowThresholdSettings acceptAllTracks TrackCreator.initial
    (afterDescriptor 8 (sampleDescriptor 8 211 (some 1))) positiveCurvatureTrack
    (sampleDescriptor 8 211 (some 1)) createTrack_positiveCurvatureTrack rfl
  ⟨h.2.1 rfl, h.2.2.1⟩

/-! ### Ties between candidates of the calorimeter projection -/

/-- A candidate replaces the current best only when its time is strictly smaller. -/
theorem keepEarlier_replaces (best candidate : ℚ × CartesianVector) :
    (candidate.1 < best.1 → TrackCreator.keepEarlier best candidate = candidate) ∧
    (¬ candidate.1 < best.1 → TrackCreator.keepEarlier best candidate = best) := by
  unfold TrackCreator.keepEarlier
  exact ⟨fun h => if_pos h, fun h => if_neg h⟩

/-- The running comparison over a list of candidates ends on the candidate at some position of
start value :: candidates whose time is strictly smaller than the time at every earlier
position and not larger than any time. -/
theorem foldl_keepEarlier_first (cs : List (ℚ × CartesianVector)) :
    ∀ init : ℚ × CartesianVector,
      ∃ k : Nat, (init :: cs)[k]? = some (cs.foldl TrackCreator.keepEarlier init) ∧
        (∀ (j : Nat) (c : ℚ × CartesianVector), j < k → (init :: cs)[j]? = some c →
          (cs.foldl TrackCreator.keepEarlier init).1 < c.1) ∧
        ∀ c ∈ init :: cs, (cs.foldl TrackCreator.keepEarlier init).1 ≤ c.1 := by
  induction cs with
  | nil =>
    intro init
    refine ⟨0, by simp, fun j c hj => absurd hj (Nat.not_lt_zero j), ?_⟩
    intro c hc
    simp only [List.mem_singleton] at hc
    rw [hc]
    exact le_refl _
  | cons c rest ih =>
    intro init
    simp only [List.foldl_cons]
    obtain ⟨hyes, hno⟩ := keepEarlier_replaces init c
    by_cases hlt : c.1 < init.1
    · rw [hyes hlt]
      obtain ⟨k, hk, hfirst, hmin⟩ := ih c
      refine ⟨k + 1, by simpa using hk, ?_, ?_⟩
      · intro j d hj hd
        cases j with
        | zero =>
          have hd0 : init = d := by simpa using hd
          rw [← hd0]
          exact lt_of_le_of_lt (hmin c (List.mem_cons_self _ _)) hlt
        | succ j => exact hfirst j d (Nat.lt_of_succ_lt_succ hj) (by simpa using hd)
      · intro d hd
        rcases List.mem_cons.mp hd with rfl | hd
        · exact le_of_lt (lt_of_le_of_lt (hmin c (List.mem_cons_self _ _)) hlt)
        · exact hmin d hd
    · rw [hno hlt]
      obtain ⟨k, hk, hfirst, hmin⟩ := ih init
      cases k with
      | zero =>
        refine ⟨0, by simpa using hk, fun j d hj => absurd hj (Nat.not_lt_zero j), ?_⟩
        intro d hd
        rcases List.mem_cons.mp hd with rfl | hd
        · exact hmin d (List.mem_cons_self _ _)
        · rcases List.mem_cons.mp hd with rfl | hd
          · exact le_trans (hmin init (List.mem_cons_self _ _)) (not_lt.mp hlt)
          · exact hmin d (List.mem_cons_of_mem _ hd)
      | succ m =>
        have h0 : (rest.foldl TrackCreator.keepEarlier init).1 < init.1 :=
          hfirst 0 init (Nat.succ_pos m) (by simp)
        refine ⟨m + 2, by simpa using hk, ?_, ?_⟩
        · intro j d hj hd
          cases j with
          | zero =>
            have hd0 : init = d := by simpa using hd
            rw [← hd0]
            exact h0
          | succ j =>
            cases j with
            | zero =>
              have hd0 : c = d := by simpa using hd
              rw [← hd0]
              exact lt_of_lt_of_le h0 (not_lt.mp hlt)
            | succ j =>
              exact hfirst (j + 1) d (by omega) (by simpa using hd)
        · intro d hd
          rcases List.mem_cons.mp hd with rfl | hd
          · exact hmin d (List.mem_cons_self _ _)
          · rcases List.mem_cons.mp hd with rfl | hd
            · exact le_trans (le_of_lt h0) (not_lt.mp hlt)
            · exact hmin d (List.mem_cons_of_mem _ hd)

/-- C23. Among the candidates of GetECalProjection in the order endcap plane, then barrel faces
0, 1, ..., N-1 (or the cylinder), the search ends on the candidate at the first position whose
time is the minimum: its time is not larger than any candidate's and strictly smaller than that
of every earlier candidate, and GetECalProjection returns its point; a later candidate replaces
the current best only when its time is strictly smaller. -/
theorem getECalProjection_first_of_ties (fo : FloatOps) (g : Geometry) (pHelix : HelixClass)
    (referencePoint : CartesianVector) (signPz : Int) :
    (∃ k : Nat,
      (ecalCandidates fo g pHelix referencePoint signPz)[k]?
        = some (TrackCreator.ecalProjectionSearch fo g pHelix referencePoint signPz) ∧
      (∀ (j : Nat) (c : ℚ × CartesianVector), j < k →
        (ecalCandidates fo g pHelix referencePoint signPz)[j]? = some c →
        (TrackCreator.ecalProjectionSearch fo g pHelix referencePoint signPz).1 < c.1) ∧
      ∀ c ∈ ecalCandidates fo g pHelix referencePoint signPz,
        (TrackCreator.ecalProjectionSearch fo g pHelix referencePoint signPz).1 ≤ c.1) ∧
    (TrackCreator.GetECalProjection fo g pHelix referencePoint signPz).position
      = (TrackCreator.ecalProjectionSearch fo g pHelix referencePoint signPz).2 ∧
    ∀ best candidate : ℚ × CartesianVector,
      TrackCreator.keepEarlier best candidate ≠ best → candidate.1 < best.1 := by
  have hfold := foldl_keepEarlier_first (ecalCandidates fo g pHelix referencePoint signPz).tail
    (pHelix.getPointInZ ((signPz : ℚ) * g.zOfEndCap) referencePoint)
  have hc : pHelix.getPointInZ ((signPz : ℚ) * g.zOfEndCap) referencePoint ::
      (ecalCandidates fo g pHelix referencePoint signPz).tail
      = ecalCandidates fo g pHelix referencePoint signPz := by
    simp [ecalCandidates]
  rw [hc, ← ecalProjectionSearch_eq_foldl] at hfold
  refine ⟨hfold, rfl, ?_⟩
  intro best candidate hne
  by_contra hlt
  exact hne ((keepEarlier_replaces best candidate).2 hlt)

/-! ### Prong/split extraction against kink extraction -/

/-- The prong/split loop leaves the identity map as it is. -/
theorem prongSplitTrackLoop_pidMap (s : Settings) (api : RelationshipApi) :
    ∀ (l : List Track) (i : Nat) (tc : TrackCreator),
      (TrackCreator.prongSplitTrackLoop s api i l tc).2.m_trackToPidMap = tc.m_trackToPidMap := by
  intro l
  induction l with
  | nil => intro i tc; rfl
  | cons t rest ih =>
    intro i tc
    have hmap : (TrackCreator.insertParentOrDaughter i t tc).m_trackToPidMap
        = tc.m_trackToPidMap := by
      unfold TrackCreator.insertParentOrDaughter
      by_cases hi : i = 0 <;> simp [hi]
    simp only [TrackCreator.prongSplitTrackLoop]
    split
    · rw [ih]; exact hmap
    · split
      · rw [ih]; exact hmap
      · exact hmap

/-- The body of ExtractProngsAndSplits for one vertex leaves the identity map as it is. -/
theorem prongSplitVertex_pidMap (s : Settings) (api : RelationshipApi) (tc : TrackCreator)
    (v : Vertex) :
    (TrackCreator.prongSplitVertex s api tc v).2.m_trackToPidMap = tc.m_trackToPidMap := by
  unfold TrackCreator.prongSplitVertex
  split
  · rfl
  · exact prongSplitTrackLoop_pidMap s api v.tracks 0 tc

/-- The prong/split loop and the kink loop, from states with the same sets and declarations,
return the same status and end with the same sets and declarations, whatever the API answers. -/
theorem prongSplitTrackLoop_as_kinkTrackLoop (pdg : PdgTable) (s sKink : Settings)
    (api : RelationshipApi) (code : Int)
    (hs : sKink.m_shouldFormTrackRelationships = s.m_shouldFormTrackRelationships) :
    ∀ (l : List Track) (i : Nat) (a b : TrackCreator),
      SameSets a b ∧ a.pandoraRelationships = b.pandoraRelationships →
      (TrackCreator.prongSplitTrackLoop s api i l a).1
        = (TrackCreator.kinkTrackLoop pdg sKink api code i l b).1 ∧
      SameSets (TrackCreator.prongSplitTrackLoop s api i l a).2
        (TrackCreator.kinkTrackLoop pdg sKink api code i l b).2 ∧
      (TrackCreator.prongSplitTrackLoop s api i l a).2.pandoraRelationships
        = (TrackCreator.kinkTrackLoop pdg sKink api code i l b).2.pandoraRelationships := by
  intro l
  induction l with
  | nil => intro i a b h; exact ⟨rfl, h.1, h.2⟩
  | cons t rest ih =>
    intro i a b h
    obtain ⟨⟨hP, hD, hV⟩, hrel⟩ := h
    have hsets : SameSets (TrackCreator.insertParentOrDaughter i t a)
        (TrackCreator.registerKinkTrack pdg code i t b) := by
      unfold TrackCreator.registerKinkTrack TrackCreator.insertParentOrDaughter SameSets
      by_cases hi : i = 0 <;> simp [hi, hP, hD, hV]
    have hrel1 : (TrackCreator.insertParentOrDaughter i t a).pandoraRelationships
        = (TrackCreator.registerKinkTrack pdg code i t b).pandoraRelationships := by
      rw [insertParentOrDaughter_relationships, registerKinkTrack_relationships, hrel]
    simp only [TrackCreator.prongSplitTrackLoop, TrackCreator.kinkTrackLoop, hs]
    by_cases hflag : s.m_shouldFormTrackRelationships = 0
    · simp only [hflag, if_true]
      exact ih (i + 1) _ _ ⟨hsets, hrel1⟩
    · simp only [hflag, if_false, hrel1]
      by_cases hok : (TrackCreator.declareRelationships api (TrackCreator.parentOrSiblingLink i t)
          rest (TrackCreator.registerKinkTrack pdg code i t b).pandoraRelationships).1
            = StatusCode.STATUS_CODE_SUCCESS
      · simp only [hok, if_true]
        exact ih (i + 1) _ _ ⟨hsets, rfl⟩
      · simp only [hok, if_false]
        exact ⟨trivial, hsets, trivial⟩

/-- The bodies of ExtractProngsAndSplits and ExtractKinks for one vertex, from states with the
same sets and declarations, return the same status and end with the same sets and
declarations. -/
theorem prongSplitVertex_as_kinkVertex (pdg : PdgTable) (s sKink : Settings)
    (api : RelationshipApi)
    (hs : sKink.m_shouldFormTrackRelationships = s.m_shouldFormTrackRelationships)
    (a b : TrackCreator) (v : Vertex)
    (h : SameSets a b ∧ a.pandoraRelationships = b.pandoraRelationships) :
    (TrackCreator.prongSplitVertex s api a v).1 = (TrackCreator.kinkVertex pdg sKink api b v).1 ∧
    (SameSets (TrackCreator.prongSplitVertex s api a v).2
        (TrackCreator.kinkVertex pdg sKink api b v).2 ∧
      (TrackCreator.prongSplitVertex s api a v).2.pandoraRelationships
        = (TrackCreator.kinkVertex pdg sKink api b v).2.pandoraRelationships) := by
  have hc : a.IsConflictingRelationship v.tracks = b.IsConflictingRelationship v.tracks := by
    obtain ⟨⟨hP, hD, hV⟩, _⟩ := h
    generalize v.tracks = l
    induction l with
    | nil => rfl
    | cons t rest ih =>
      simp only [TrackCreator.IsConflictingRelationship, TrackCreator.IsDaughter,
        TrackCreator.IsParent, TrackCreator.IsV0, hP, hD, hV, ih]
  unfold TrackCreator.prongSplitVertex TrackCreator.kinkVertex
  rw [← hc]
  cases a.IsConflictingRelationship v.tracks with
  | true => exact ⟨rfl, h⟩
  | false =>
    simp only [Bool.false_eq_true, if_false]
    exact prongSplitTrackLoop_as_kinkTrackLoop pdg s sKink api v.pdgType hs v.tracks 0 a b h

/-- Two element loops whose bodies, from related states, return the same status in related
states, return the same status in related states. -/
theorem vertexLoop_same_status (R : TrackCreator → TrackCreator → Prop)
    (body1 body2 : TrackCreator → Vertex → StatusCode × TrackCreator)
    (hbody : ∀ a b v, R a b → (body1 a v).1 = (body2 b v).1 ∧ R (body1 a v).2 (body2 b v).2) :
    ∀ (vs : List Vertex) (a b : TrackCreator), R a b →
      (TrackCreator.vertexLoop body1 vs a).1 = (TrackCreator.vertexLoop body2 vs b).1 ∧
      R (TrackCreator.vertexLoop body1 vs a).2 (TrackCreator.vertexLoop body2 vs b).2 := by
  intro vs
  induction vs with
  | nil => intro a b h; exact ⟨rfl, h⟩
  | cons v rest ih =>
    intro a b h
    obtain ⟨h1, h2⟩ := hbody a b v h
    simp only [TrackCreator.vertexLoop, h1]
    split
    · exact ih _ _ h2
    · exact ⟨h1, h2⟩

/-- Two loops over the same collection names whose bodies, from related states, return the same
status in related states, return the same status in related states. -/
theorem collectionLoop_same_status (R : TrackCreator → TrackCreator → Prop) (ev : LCEvent)
    (body1 body2 : TrackCreator → Vertex → StatusCode × TrackCreator)
    (hbody : ∀ a b v, R a b → (body1 a v).1 = (body2 b v).1 ∧ R (body1 a v).2 (body2 b v).2) :
    ∀ (names : List String) (a b : TrackCreator), R a b →
      (TrackCreator.collectionLoop ev body1 names a).1
        = (TrackCreator.collectionLoop ev body2 names b).1 ∧
      R (TrackCreator.collectionLoop ev body1 names a).2
        (TrackCreator.collectionLoop ev body2 names b).2 := by
  intro names
  induction names with
  | nil => intro a b h; exact ⟨rfl, h⟩
  | cons name rest ih =>
    intro a b h
    simp only [TrackCreator.collectionLoop]
    cases hc : ev.vertexCollection name with
    | none => exact ih a b h
    | some vs =>
      obtain ⟨h1, h2⟩ := vertexLoop_same_status R body1 body2 hbody vs a b h
      simp only [h1]
      split
      · exact ih _ _ h2
      · exact ⟨h1, h2⟩

/-- C24. ExtractProngsAndSplits performs no identity assignment: for every configuration, API,
event and starting state the identity map after it is the identity map before it; and its
status, its membership sets and its relationship declarations are those of ExtractKinks run on
the same collections (the kink collection names replaced by the prong/split ones), that is, the
same index-0-parent / others-daughter rule. -/
theorem extractProngsAndSplits_no_identity (pdg : PdgTable) (s : Settings)
    (api : RelationshipApi) (ev : LCEvent) (tc : TrackCreator) :
    (TrackCreator.ExtractProngsAndSplits s api ev tc).2.m_trackToPidMap = tc.m_trackToPidMap ∧
    (TrackCreator.ExtractProngsAndSplits s api ev tc).1
      = (TrackCreator.ExtractKinks pdg (prongsAsKinks s) api ev tc).1 ∧
    SameSets (TrackCreator.ExtractProngsAndSplits s api ev tc).2
      (TrackCreator.ExtractKinks pdg (prongsAsKinks s) api ev tc).2 ∧
    (TrackCreator.ExtractProngsAndSplits s api ev tc).2.pandoraRelationships
      = (TrackCreator.ExtractKinks pdg (prongsAsKinks s) api ev tc).2.pandoraRelationships := by
  constructor
  · exact collectionLoop_preserves (fun st => st.m_trackToPidMap = tc.m_trackToPidMap)
      (fun _ => True) ev (TrackCreator.prongSplitVertex s api)
      (fun st v _ h => (prongSplitVertex_pidMap s api st v).trans h)
      s.m_prongSplitVertexCollections tc (fun _ _ _ _ _ _ => trivial) rfl
  · obtain ⟨h1, h2, h3⟩ := collectionLoop_same_status
      (fun a b => SameSets a b ∧ a.pandoraRelationships = b.pandoraRelationships) ev
      (TrackCreator.prongSplitVertex s api)
      (TrackCreator.kinkVertex pdg (prongsAsKinks s) api)
      (fun a b v h => prongSplitVertex_as_kinkVertex pdg s (prongsAsKinks s) api rfl a b v h)
      s.m_prongSplitVertexCollections tc tc ⟨⟨rfl, rfl, rfl⟩, rfl⟩
    exact ⟨h1, h2, h3⟩

/-! ### Ordering of the hits in FitTrackHelices -/

/-- A pass of compare-and-swap steps permutes the hits. -/
theorem bubblePass_perm : ∀ (count : Nat) (l : List TrackerHit),
    (TrackCreator.bubblePass count l).Perm l := by
  intro count
  induction count with
  | zero => intro l; simp [TrackCreator.bubblePass]
  | succ c ih =>
    intro l
    match l with
    | [] => simp [TrackCreator.bubblePass]
    | [a] => simp [TrackCreator.bubblePass]
    | a :: b :: rest =>
      simp only [TrackCreator.bubblePass]
      split
      · exact ((ih (a :: rest)).cons b).trans (List.Perm.swap a b rest)
      · exact (ih (b :: rest)).cons a

/-- A pass of count steps touches only the first count + 1 hits. -/
theorem bubblePass_append : ∀ (count : Nat) (front back : List TrackerHit),
    front.length = count + 1 →
    TrackCreator.bubblePass count (front ++ back) = TrackCreator.bubblePass count front ++ back := by
  intro count
  induction count with
  | zero => intro front back _; simp [TrackCreator.bubblePass]
  | succ c ih =>
    intro front back hlen
    match front, hlen with
    | a :: b :: rest, hlen =>
      have hrest : rest.length = c := by simpa using hlen
      simp only [List.cons_append, TrackCreator.bubblePass]
      split
      · have h := ih (a :: rest) back (by simp [hrest])
        simp only [List.cons_append] at h
        exact congrArg (List.cons b) h
      · have h := ih (b :: rest) back (by simp [hrest])
        simp only [List.cons_append] at h
        exact congrArg (List.cons a) h

/-- A pass of count steps over count + 1 hits ends with a hit of largest z in the last place. -/
theorem bubblePass_last : ∀ (count : Nat) (front : List TrackerHit),
    front.length = count + 1 →
    ∃ (init : List TrackerHit) (m : TrackerHit),
      TrackCreator.bubblePass count front = init ++ [m] ∧ ∀ x ∈ front, x.z ≤ m.z := by
  intro count
  induction count with
  | zero =>
    intro front hlen
    match front, hlen with
    | [a], _ => exact ⟨[], a, by simp [TrackCreator.bubblePass], by simp⟩
  | succ c ih =>
    intro front hlen
    match front, hlen with
    | a :: b :: rest, hlen =>
      have hrest : rest.length = c := by simpa using hlen
      simp only [TrackCreator.bubblePass]
      split
      · rename_i hgt
        obtain ⟨init, m, hm, hmax⟩ := ih (a :: rest) (by simp [hrest])
        refine ⟨b :: init, m, by rw [hm]; rfl, ?_⟩
        intro x hx
        rcases List.mem_cons.mp hx with rfl | hx
        · exact hmax _ (List.mem_cons_self _ _)
        · rcases List.mem_cons.mp hx with rfl | hx
          · exact le_trans (le_of_lt hgt) (hmax a (List.mem_cons_self _ _))
          · exact hmax x (List.mem_cons_of_mem _ hx)
      · rename_i hgt
        obtain ⟨init, m, hm, hmax⟩ := ih (b :: rest) (by simp [hrest])
        refine ⟨a :: init, m, by rw [hm]; rfl, ?_⟩
        intro x hx
        rcases List.mem_cons.mp hx with rfl | hx
        · exact le_trans (not_lt.mp hgt) (hmax b (List.mem_cons_self _ _))
        · exact hmax x hx

/-- After the first k passes of the ordering loops the hits are a permutation of the input, the
last k of them are in non-decreasing z, and none of the others has a larger z than any of
these. -/
theorem orderHits_passes (hits : List TrackerHit) :
    ∀ k : Nat, k ≤ hits.length - 1 →
      ∃ front back : List TrackerHit,
        (List.range k).foldl (fun l iz => TrackCreator.bubblePass (hits.length - iz - 1) l) hits
          = front ++ back ∧
        (front ++ back).Perm hits ∧ back.length = k ∧
        back.Pairwise (fun a b => a.z ≤ b.z) ∧ ∀ x ∈ front, ∀ y ∈ back, x.z ≤ y.z := by
  intro k
  induction k with
  | zero =>
    intro _
    exact ⟨hits, [], by simp, by simp, rfl, List.Pairwise.nil, fun _ _ y hy => by simp at hy⟩
  | succ k ih =>
    intro hk
    obtain ⟨front, back, hfold, hperm, hlen, hsorted, hle⟩ := ih (by omega)
    have hfront : front.length = (hits.length - k - 1) + 1 := by
      have h1 := hperm.length_eq
      simp only [List.length_append] at h1
      omega
    obtain ⟨init, m, hm, hmax⟩ := bubblePass_last (hits.length - k - 1) front hfront
    have hstep : (List.range (k + 1)).foldl
        (fun l iz => TrackCreator.bubblePass (hits.length - iz - 1) l) hits
        = init ++ (m :: back) := by
      rw [List.range_succ, List.foldl_append, hfold]
      simp only [List.foldl_cons, List.foldl_nil]
      rw [bubblePass_append _ front back hfront, hm]
      simp
    have hpass : (init ++ [m]).Perm front := hm ▸ bubblePass_perm (hits.length - k - 1) front
    have hmfront : m ∈ front := hpass.subset (by simp)
    refine ⟨init, m :: back, hstep, ?_, by simp [hlen], ?_, ?_⟩
    · have h1 : (init ++ (m :: back)).Perm (front ++ back) := by
        have h2 : init ++ (m :: back) = (init ++ [m]) ++ back := by simp
        rw [h2]
        exact hpass.append_right back
      exact h1.trans hperm
    · exact List.Pairwise.cons (fun y hy => hle m hmfront y hy) hsorted
    · intro x hx y hy
      have hxfront : x ∈ front := hpass.subset (List.mem_append_left _ hx)
      rcases List.mem_cons.mp hy with rfl | hy
      · exact hmax x hxfront
      · exact hle x hxfront y hy

/-- The ordering loops of FitTrackHelices leave a permutation of the hits in non-decreasing z. -/
theorem orderHits_sorted (hits : List TrackerHit) :
    (TrackCreator.orderHits hits).Perm hits ∧
    (TrackCreator.orderHits hits).Pairwise (fun a b => a.z ≤ b.z) := by
  obtain ⟨front, back, hfold, hperm, hlen, hsorted, hle⟩ :=
    orderHits_passes hits (hits.length - 1) (le_refl _)
  unfold TrackCreator.orderHits
  rw [hfold]
  refine ⟨hperm, ?_⟩
  rw [List.pairwise_append]
  refine ⟨?_, hsorted, hle⟩
  have h1 := hperm.length_eq
  simp only [List.length_append] at h1
  match front with
  | [] => exact List.Pairwise.nil
  | [a] => exact List.pairwise_singleton _ a
  | a :: b :: rest =>
    simp only [List.length_cons] at h1
    omega

/-- For a track with at least one hit, the first and the last element of the ordered hit list
exist, are hits of the track, and have the smallest and the largest z of all its hits. -/
theorem orderHits_first_last (hits : List TrackerHit) (hne : hits ≠ []) :
    ∃ first last : TrackerHit,
      (TrackCreator.orderHits hits)[0]? = some first ∧
      (TrackCreator.orderHits hits)[hits.length - 1]? = some last ∧
      first ∈ hits ∧ last ∈ hits ∧
      (∀ h ∈ hits, first.z ≤ h.z) ∧ (∀ h ∈ hits, h.z ≤ last.z) := by
  obtain ⟨hperm, hsorted⟩ := orderHits_sorted hits
  have hlen := hperm.length_eq
  generalize TrackCreator.orderHits hits = l at hperm hsorted hlen
  have hl : l ≠ [] := by
    intro h
    rw [h] at hperm
    exact hne hperm.symm.eq_nil
  match l, hl with
  | first :: tail, _ =>
    rcases List.eq_nil_or_concat (first :: tail) with h | ⟨init, last, h⟩
    · cases h
    · rw [List.concat_eq_append] at h
      refine ⟨first, last, by simp, ?_, hperm.subset (List.mem_cons_self _ _),
        hperm.subset (by rw [h]; simp), ?_, ?_⟩
      · rw [← hlen, h]
        simp
      · intro x hx
        have hx1 := hperm.symm.subset hx
        rcases List.mem_cons.mp hx1 with rfl | hx1
        · exact le_refl _
        · exact (List.pairwise_cons.mp hsorted).1 x hx1
      · intro x hx
        have hx1 := hperm.symm.subset hx
        rw [h] at hx1 hsorted
        rcases List.mem_append.mp hx1 with hx2 | hx2
        · exact (List.pairwise_append.mp hsorted).2.2 x hx2 last (by simp)
        · simp only [List.mem_singleton] at hx2
          rw [hx2]

/-- C25. For every hit list with at least one hit, the ordering loops of FitTrackHelices leave a
permutation of the input hits whose z coordinates are non-decreasing, so the first and the last
element, from which zMin and zMax are read, are hits of smallest and of largest z of the
track. -/
theorem orderHits_ascending (hits : List TrackerHit) (hne : hits ≠ []) :
    (TrackCreator.orderHits hits).Perm hits ∧
    (TrackCreator.orderHits hits).Pairwise (fun a b => a.z ≤ b.z) ∧
    ∃ first last : TrackerHit,
      (TrackCreator.orderHits hits)[0]? = some first ∧
      (TrackCreator.orderHits hits)[hits.length - 1]? = some last ∧
      first ∈ hits ∧ last ∈ hits ∧
      (∀ h ∈ hits, first.z ≤ h.z) ∧ (∀ h ∈ hits, h.z ≤ last.z) :=
  ⟨(orderHits_sorted hits).1, (orderHits_sorted hits).2, orderHits_first_last hits hne⟩

/-- C25, witness: three hits given in decreasing z are put in increasing z. -/
theorem orderHits_ascending_witness :
    TrackCreator.orderHits [⟨4, 0, 3⟩, ⟨5, 0, 2⟩, ⟨6, 0, 1⟩]
      = [⟨6, 0, 1⟩, ⟨5, 0, 2⟩, ⟨4, 0, 3⟩] ∧
    (TrackCreator.orderHits [⟨4, 0, 3⟩, ⟨5, 0, 2⟩, ⟨6, 0, 1⟩]).Pairwise
      (fun a b => a.z ≤ b.z) :=
  ⟨by decide,
    (orderHits_ascending [⟨4, 0, 3⟩, ⟨5, 0, 2⟩, ⟨6, 0, 1⟩] (by simp)).2.1⟩

/-! ### Orientation of the start and end hypotheses -/

/-- C26. For a track with at least one hit (so also with at least two) and a non-negative
configured number of hits for the helix fits, FitTrackHelices ends normally; with zMin and zMax
the z of the hit of smallest z and of the hit of largest z, held as floats as in the function,
the orientation sign is +1 exactly when |zMin| < |zMax| and -1 otherwise; the start state is
that of the helix initialised with the anchor zMin when the sign is +1 and zMax when it is -1,
the end state that of the helix with the other anchor, and the absolute value of the start
anchor is less than or equal to that of the end anchor. -/
theorem fitTrackHelices_orientation (fo : FloatOps) (lib : HelixLibrary) (g : Geometry)
    (s : Settings) (pTrack : Track) (trackParameters : TrackParameters)
    (hne : pTrack.hits ≠ []) (hfit : 0 ≤ s.m_nHitsForHelixFits) :
    ∃ (first last : TrackerHit) (zMin zMax : ℚ) (signPz : Int) (startFit endFit : FitParameters)
        (result : TrackParameters),
      (first ∈ pTrack.hits ∧ ∀ h ∈ pTrack.hits, first.z ≤ h.z) ∧
      (last ∈ pTrack.hits ∧ ∀ h ∈ pTrack.hits, h.z ≤ last.z) ∧
      zMin = fo.toFloat first.z ∧ zMax = fo.toFloat last.z ∧
      (signPz = 1 ↔ |zMin| < |zMax|) ∧ (signPz = -1 ↔ ¬ |zMin| < |zMax|) ∧
      TrackCreator.FitTrackHelices fo lib g s pTrack trackParameters = Except.ok result ∧
      result.m_trackStateAtStart = some
        { position := (lib.Initialize_BZ startFit g.bField signPz
            (if signPz = 1 then zMin else zMax)).getReferencePoint,
          momentum := (lib.Initialize_BZ startFit g.bField signPz
            (if signPz = 1 then zMin else zMax)).getMomentum } ∧
      result.m_trackStateAtEnd = some
        { position := (lib.Initialize_BZ endFit g.bField signPz
            (if signPz = 1 then zMax else zMin)).getReferencePoint,
          momentum := (lib.Initialize_BZ endFit g.bField signPz
            (if signPz = 1 then zMax else zMin)).getMomentum } ∧
      |if signPz = 1 then zMin else zMax| ≤ |if signPz = 1 then zMax else zMin| := by
  obtain ⟨first, last, hfirst, hlast, hfm, hlm, hmin, hmax⟩ :=
    orderHits_first_last pTrack.hits hne
  have hnonneg : ¬ min s.m_nHitsForHelixFits (pTrack.hits.length : Int) < 0 := by
    have h0 : (0 : Int) ≤ (pTrack.hits.length : Int) := Int.natCast_nonneg _
    exact not_lt.mpr (le_min hfit h0)
  let fwd := (TrackCreator.orderHits pTrack.hits).take
    (min s.m_nHitsForHelixFits (pTrack.hits.length : Int)).toNat
  let bwd := (TrackCreator.orderHits pTrack.hits).reverse.take
    (min s.m_nHitsForHelixFits (pTrack.hits.length : Int)).toNat
  by_cases hsign : |fo.toFloat first.z| < |fo.toFloat last.z|
  · have key : ∃ result, TrackCreator.FitTrackHelices fo lib g s pTrack trackParameters
          = Except.ok result ∧
        result.m_trackStateAtStart = some
          { position := (lib.Initialize_BZ (lib.FitHelix fwd) g.bField 1
              (fo.toFloat first.z)).getReferencePoint,
            momentum := (lib.Initialize_BZ (lib.FitHelix fwd) g.bField 1
              (fo.toFloat first.z)).getMomentum } ∧
        result.m_trackStateAtEnd = some
          { position := (lib.Initialize_BZ (lib.FitHelix bwd) g.bField 1
              (fo.toFloat last.z)).getReferencePoint,
            momentum := (lib.Initialize_BZ (lib.FitHelix bwd) g.bField 1
              (fo.toFloat last.z)).getMomentum } := by
      simp only [TrackCreator.FitTrackHelices, hfirst, hlast, hsign, if_true, hnonneg, if_false]
      exact ⟨_, rfl, by simp, by simp⟩
    obtain ⟨result, hres, hstart, hend⟩ := key
    exact ⟨first, last, _, _, 1, lib.FitHelix fwd, lib.FitHelix bwd, result, ⟨hfm, hmin⟩,
      ⟨hlm, hmax⟩, rfl, rfl, by simp [hsign], by simp [hsign], hres, by simpa using hstart,
      by simpa using hend, by simpa using le_of_lt hsign⟩
  · have key : ∃ result, TrackCreator.FitTrackHelices fo lib g s pTrack trackParameters
          = Except.ok result ∧
        result.m_trackStateAtStart = some
          { position := (lib.Initialize_BZ (lib.FitHelix bwd) g.bField (-1)
              (fo.toFloat last.z)).getReferencePoint,
            momentum := (lib.Initialize_BZ (lib.FitHelix bwd) g.bField (-1)
              (fo.toFloat last.z)).getMomentum } ∧
        result.m_trackStateAtEnd = some
          { position := (lib.Initialize_BZ (lib.FitHelix fwd) g.bField (-1)
              (fo.toFloat first.z)).getReferencePoint,
            momentum := (lib.Initialize_BZ (lib.FitHelix fwd) g.bField (-1)
              (fo.toFloat first.z)).getMomentum } := by
      simp only [TrackCreator.FitTrackHelices, hfirst, hlast, hsign, if_false, hnonneg]
      exact ⟨_, rfl, by simp, by simp⟩
    obtain ⟨result, hres, hstart, hend⟩ := key
    exact ⟨first, last, _, _, -1, lib.FitHelix bwd, lib.FitHelix fwd, result, ⟨hfm, hmin⟩,
      ⟨hlm, hmax⟩, rfl, rfl, by simp [hsign], by simp [hsign], hres, by simpa using hstart,
      by simpa using hend, by simpa using not_lt.mp hsign⟩

/-- C26, witness: a track with the two hits (4, 0, 1) and (5, 0, 3) in the small detector. -/
theorem fitTrackHelices_orientation_witness :
    ∃ (first last : TrackerHit) (zMin zMax : ℚ) (signPz : Int) (startFit endFit : FitParameters)
        (result : TrackParameters),
      (first ∈ (hitTrack [⟨4, 0, 1⟩, ⟨5, 0, 3⟩]).hits ∧
        ∀ h ∈ (hitTrack [⟨4, 0, 1⟩, ⟨5, 0, 3⟩]).hits, first.z ≤ h.z) ∧
      (last ∈ (hitTrack [⟨4, 0, 1⟩, ⟨5, 0, 3⟩]).hits ∧
        ∀ h ∈ (hitTrack [⟨4, 0, 1⟩, ⟨5, 0, 3⟩]).hits, h.z ≤ last.z) ∧
      zMin = sampleFloatOps.toFloat first.z ∧ zMax = sampleFloatOps.toFloat last.z ∧
      (signPz = 1 ↔ |zMin| < |zMax|) ∧ (signPz = -1 ↔ ¬ |zMin| < |zMax|) ∧
      TrackCreator.FitTrackHelices sampleFloatOps sampleLibrary smallGeometry sampleSettings
        (hitTrack [⟨4, 0, 1⟩, ⟨5, 0, 3⟩]) TrackParameters.unset = Except.ok result ∧
      result.m_trackStateAtStart = some
        { position := (sampleLibrary.Initialize_BZ startFit smallGeometry.bField signPz
            (if signPz = 1 then zMin else zMax)).getReferencePoint,
          momentum := (sampleLibrary.Initialize_BZ startFit smallGeometry.bField signPz
            (if signPz = 1 then zMin else zMax)).getMomentum } ∧
      result.m_trackStateAtEnd = some
        { position := (sampleLibrary.Initialize_BZ endFit smallGeometry.bField signPz
            (if signPz = 1 then zMax else zMin)).getReferencePoint,
          momentum := (sampleLibrary.Initialize_BZ endFit smallGeometry.bField signPz
            (if signPz = 1 then zMax else zMin)).getMomentum } ∧
      |if signPz = 1 then zMin else zMax| ≤ |if signPz = 1 then zMax else zMin| :=
  fitTrackHelices_orientation sampleFloatOps sampleLibrary smallGeometry sampleSettings
    (hitTrack [⟨4, 0, 1⟩, ⟨5, 0, 3⟩]) TrackParameters.unset (by simp [hitTrack]) (by decide)

/-! ### Clusterless usability against clustered usability -/

/-- With unmatched-vertex-track cuts no looser than the vertex-track cuts, the second flag of
the three-way rules is true only when the first is. -/
theorem pfoUsageFlags_clusterless (fo : FloatOps) (g : Geometry) (s : Settings)
    (tc : TrackCreator) (pTrack : Track) (trackParameters : TrackParameters) (rInner zMin : ℚ)
    (flags : Bool × Bool)
    (hd0 : s.m_d0UnmatchedVertexTrackCut ≤ s.m_d0TrackCut)
    (hz0 : s.m_z0UnmatchedVertexTrackCut ≤ s.m_z0TrackCut)
    (h : TrackCreator.pfoUsageFlags fo g s tc pTrack trackParameters rInner zMin = Except.ok flags)
    (hc : flags.2 = true) : flags.1 = true := by
  cases hmom : trackParameters.m_momentumAtDca with
  | none => simp [TrackCreator.pfoUsageFlags, hmom, inputGet] at h
  | some p =>
    cases hmass : trackParameters.m_mass with
    | none => simp [TrackCreator.pfoUsageFlags, hmom, hmass, inputGet] at h
    | some mass =>
      obtain ⟨b1, b2, hspec, h1, h2⟩ := pfoUsageFlags_spec fo g s tc pTrack trackParameters
        rInner zMin p mass hmom hmass
      rw [hspec] at h
      cases h
      obtain ⟨_, _, hrule⟩ := h2.mp hc
      apply h1.mpr
      rcases hrule with ⟨a1, a2, a3⟩ | ⟨a1, a2, a3, _⟩ | a
      · exact Or.inl ⟨lt_of_lt_of_le a1 hd0, lt_of_lt_of_le a2 hz0, a3⟩
      · exact Or.inr (Or.inl ⟨a1, a2, a3⟩)
      · exact Or.inr (Or.inr a)

/-- C27. If the configured unmatched-vertex-track cuts are no looser than the vertex-track cuts,
then for every track, state and parameter block on which DefineTrackPfoUsage ends normally,
canFormClusterlessPfo is set to true only when canFormPfo is set to true too. -/
theorem clusterless_only_with_canFormPfo (fo : FloatOps) (g : Geometry) (s : Settings)
    (tc : TrackCreator) (pTrack : Track) (trackParameters result : TrackParameters)
    (hd0 : s.m_d0UnmatchedVertexTrackCut ≤ s.m_d0TrackCut)
    (hz0 : s.m_z0UnmatchedVertexTrackCut ≤ s.m_z0TrackCut)
    (h : TrackCreator.DefineTrackPfoUsage fo g s tc pTrack trackParameters = Except.ok result)
    (hc : result.m_canFormClusterlessPfo = some true) :
    result.m_canFormPfo = some true := by
  unfold TrackCreator.DefineTrackPfoUsage at h
  split at h
  · cases h
  · split at h
    · simp only at h
      split at h
      · cases h
      · split at h
        · cases h
        · rename_i flags hflags
          cases h
          simp only [Option.some.injEq] at hc ⊢
          exact pfoUsageFlags_clusterless fo g s tc pTrack trackParameters _ _ flags hd0 hz0
            hflags hc
      · cases h
        simp at hc
    · cases h
      simp at hc

/-- C27, witness: the sample configuration has unmatched cuts 5 below the vertex cuts 50; the
sample track at calorimeter distance 25 (minimum 25) gets the clusterless flag, and the
clustered flag with it. -/
theorem clusterless_only_with_canFormPfo_witness :
    TrackCreator.DefineTrackPfoUsage sampleFloatOps smallGeometry boundarySettings
        TrackCreator.initial positiveCurvatureTrack transverseDescriptor
      = Except.ok { transverseDescriptor with
          m_canFormPfo := some true, m_canFormClusterlessPfo := some true } ∧
    ({ transverseDescriptor with
        m_canFormPfo := some true,
        m_canFormClusterlessPfo := some true } : TrackParameters).m_canFormPfo = some true :=
  have heval : TrackCreator.DefineTrackPfoUsage sampleFloatOps smallGeometry boundarySettings
      TrackCreator.initial positiveCurvatureTrack transverseDescriptor
      = Except.ok { transverseDescriptor with
          m_canFormPfo := some true, m_canFormClusterlessPfo := some true } := by
    norm_num [TrackCreator.DefineTrackPfoUsage, transverseDescriptor, sampleDescriptor, inputGet,
      TrackCreator.IsParent, TrackCreator.initial, positiveCurvatureTrack,
      TrackCreator.innerHitLoop, TrackCreator.PassesQualityCuts, CartesianVector.GetMagnitude,
      sampleFloatOps, sqrtSearch_625, boundarySettings, sampleSettings,
      TrackCreator.pfoUsageFlags, smallGeometry, sqrtSearch_16, sqrtSearch_0, TrackCreator.IsV0,
      TrackCreator.IsDaughter, CartesianVector.GetMagnitudeSquared, FLT_MAX, sqrtSearch]
  ⟨heval,
    clusterless_only_with_canFormPfo sampleFloatOps smallGeometry boundarySettings
      TrackCreator.initial positiveCurvatureTrack transverseDescriptor
      { transverseDescriptor with m_canFormPfo := some true, m_canFormClusterlessPfo := some true }
      (by norm_num [boundarySettings, sampleSettings])
      (by norm_num [boundarySettings, sampleSettings]) heval rfl⟩

/-! ### Independence of the order of the hits -/

/-- The update of a running minimum is the minimum. -/
theorem ite_lt_eq_min (a m : ℚ) : (if a < m then a else m) = min a m := by
  split
  · rename_i h; exact (min_eq_left (le_of_lt h)).symm
  · rename_i h; exact (min_eq_right (not_lt.mp h)).symm

/-- The update of a running maximum is the maximum. -/
theorem ite_gt_eq_max (a m : ℚ) : (if a > m then a else m) = max a m := by
  split
  · rename_i h; exact (max_eq_left (le_of_lt h)).symm
  · rename_i h; exact (max_eq_right (not_lt.mp h)).symm

/-- The only fault of the forward-disk loop is a read outside an array. -/
theorem hitInFtdLayer_fault (g : Geometry) (s : Settings) (r z : ℚ) :
    ∀ (l : List Nat) (e : Fault), TrackCreator.hitInFtdLayer g s r z l = Except.error e →
      e = Fault.undefinedBehaviour := by
  intro l
  induction l with
  | nil => intro e h; simp [TrackCreator.hitInFtdLayer] at h
  | cons j rest ih =>
    intro e h
    have hvec : ∀ (v : List ℚ) (e1 : Fault), vecAt v j = Except.error e1 →
        e1 = Fault.undefinedBehaviour := by
      intro v e1 h1
      unfold vecAt at h1
      split at h1
      · cases h1
      · cases h1; rfl
    simp only [TrackCreator.hitInFtdLayer] at h
    split at h
    · rename_i e1 h1
      cases h
      exact hvec _ _ h1
    · split at h
      · split at h
        · rename_i e1 h1
          cases h
          exact hvec _ _ h1
        · split at h
          · split at h
            · rename_i e1 h1
              cases h
              exact hvec _ _ h1
            · split at h
              · cases h
              · exact ih e h
          · exact ih e h
      · exact ih e h

/-- The body of the hit loop for one hit either fails, whatever the running values, with a read
outside an array, or updates the running extremes by the hit (its z and radius as the loop
reads them, converted to float) and adds to the two counters amounts that depend on the hit
alone. -/
theorem hitStep_shape (fo : FloatOps) (g : Geometry) (s : Settings) (hit : TrackerHit) :
    (∀ info, TrackCreator.hitStep fo g s info hit = Except.error Fault.undefinedBehaviour) ∨
    ∃ dTpc dFtd : Int, ∀ info, TrackCreator.hitStep fo g s info hit = Except.ok
      { hitZMin := min (fo.toFloat hit.z) info.hitZMin,
        hitZMax := max (fo.toFloat hit.z) info.hitZMax,
        hitOuterR := max (floatRadius fo hit) info.hitOuterR,
        nTpcHits := info.nTpcHits + dTpc,
        nFtdHits := info.nFtdHits + dFtd } := by
  by_cases htpc : floatRadius fo hit > g.tpcInnerR
  · unfold floatRadius at htpc
    refine Or.inr ⟨1, 0, fun info => ?_⟩
    simp [TrackCreator.hitStep, htpc, ite_lt_eq_min, ite_gt_eq_max, floatRadius]
  · unfold floatRadius at htpc
    cases hc : TrackCreator.hitInFtdLayer g s
        (fo.sqrt (fo.toFloat hit.x * fo.toFloat hit.x + fo.toFloat hit.y * fo.toFloat hit.y))
        (fo.toFloat hit.z) (List.range g.ftdZPositions.length) with
    | error e =>
      have he := hitInFtdLayer_fault g s _ _ _ e hc
      subst he
      exact Or.inl (fun info => by simp [TrackCreator.hitStep, htpc, hc])
    | ok found =>
      cases found with
      | true =>
        refine Or.inr ⟨0, 1, fun info => ?_⟩
        simp [TrackCreator.hitStep, htpc, hc, ite_lt_eq_min, ite_gt_eq_max, floatRadius]
      | false =>
        refine Or.inr ⟨0, 0, fun info => ?_⟩
        simp [TrackCreator.hitStep, htpc, hc, ite_lt_eq_min, ite_gt_eq_max, floatRadius]

/-- The hit loop gives the same result on the hits in any order. -/
theorem hitLoop_perm (fo : FloatOps) (g : Geometry) (s : Settings)
    (hits1 hits2 : List TrackerHit) (h : hits1.Perm hits2) :
    ∀ info, TrackCreator.hitLoop fo g s info hits1 = TrackCreator.hitLoop fo g s info hits2 := by
  induction h with
  | nil => intro info; rfl
  | cons a _ ih =>
    intro info
    simp only [TrackCreator.hitLoop]
    cases TrackCreator.hitStep fo g s info a with
    | error e => rfl
    | ok info1 => exact ih info1
  | swap a b l =>
    intro info
    simp only [TrackCreator.hitLoop]
    rcases hitStep_shape fo g s a with ha | ⟨ta, fa, ha⟩ <;>
      rcases hitStep_shape fo g s b with hb | ⟨tb, fb, hb⟩
    · simp only [ha, hb]
    · simp only [ha, hb]
    · simp only [ha, hb]
    · simp only [ha, hb]
      have e1 : min (fo.toFloat a.z) (min (fo.toFloat b.z) info.hitZMin)
          = min (fo.toFloat b.z) (min (fo.toFloat a.z) info.hitZMin) := min_left_comm _ _ _
      have e2 : max (fo.toFloat a.z) (max (fo.toFloat b.z) info.hitZMax)
          = max (fo.toFloat b.z) (max (fo.toFloat a.z) info.hitZMax) := max_left_comm _ _ _
      have e3 : max (floatRadius fo a) (max (floatRadius fo b) info.hitOuterR)
          = max (floatRadius fo b) (max (floatRadius fo a) info.hitOuterR) :=
        max_left_comm _ _ _
      have e4 : info.nTpcHits + tb + ta = info.nTpcHits + ta + tb := by ring
      have e5 : info.nFtdHits + fb + fa = info.nFtdHits + fa + fb := by ring
      rw [e1, e2, e3, e4, e5]
  | trans _ _ ih1 ih2 => intro info; exact (ih1 info).trans (ih2 info)

/-- The hit loop of DefineTrackPfoUsage gives the same result on the hits in any order. -/
theorem innerHitLoop_perm (fo : FloatOps) (hits1 hits2 : List TrackerHit)
    (h : hits1.Perm hits2) :
    ∀ acc, TrackCreator.innerHitLoop fo acc hits1 = TrackCreator.innerHitLoop fo acc hits2 := by
  induction h with
  | nil => intro acc; rfl
  | cons a _ ih =>
    intro acc
    simp only [TrackCreator.innerHitLoop]
    exact ih _
  | swap a b l =>
    intro acc
    simp only [TrackCreator.innerHitLoop, ite_lt_eq_min]
    rw [min_left_comm (fo.sqrt (fo.toFloat a.x * fo.toFloat a.x + fo.toFloat a.y * fo.toFloat a.y)),
      min_left_comm (fo.toFloat |a.z|)]
  | trans _ _ ih1 ih2 => intro acc; exact (ih1 acc).trans (ih2 acc)

/-- C28. For every track and every permutation of its hit list, all other inputs equal,
TrackReachesECAL gives the same result (the same reach flag, or the same failure), and
DefineTrackPfoUsage gives the same result (the same two usability flags, or the same
failure). -/
theorem flags_independent_of_hit_order (fo : FloatOps) (g : Geometry) (s : Settings)
    (tc : TrackCreator) (isFirstPass : Bool) (pTrack : Track)
    (trackParameters : TrackParameters) (hits1 hits2 : List TrackerHit)
    (h : hits1.Perm hits2) :
    TrackCreator.TrackReachesECAL fo g s isFirstPass { pTrack with hits := hits1 } trackParameters
      = TrackCreator.TrackReachesECAL fo g s isFirstPass { pTrack with hits := hits2 }
          trackParameters ∧
    TrackCreator.DefineTrackPfoUsage fo g s tc { pTrack with hits := hits1 } trackParameters
      = TrackCreator.DefineTrackPfoUsage fo g s tc { pTrack with hits := hits2 }
          trackParameters := by
  constructor
  · simp only [TrackCreator.TrackReachesECAL, TrackCreator.reachDecision,
      hitLoop_perm fo g s hits1 hits2 h]
  · simp only [TrackCreator.DefineTrackPfoUsage, TrackCreator.IsParent,
      TrackCreator.pfoUsageFlags, TrackCreator.IsV0, TrackCreator.IsDaughter,
      innerHitLoop_perm fo hits1 hits2 h]

/-- C28, witness: a track with the hits (4, 0, 1) and (5, 0, 3) in either order. -/
theorem flags_independent_of_hit_order_witness :
    TrackCreator.TrackReachesECAL sampleFloatOps smallGeometry sampleSettings true
        { positiveCurvatureTrack with hits := [⟨4, 0, 1⟩, ⟨5, 0, 3⟩] } transverseDescriptor
      = TrackCreator.TrackReachesECAL sampleFloatOps smallGeometry sampleSettings true
          { positiveCurvatureTrack with hits := [⟨5, 0, 3⟩, ⟨4, 0, 1⟩] } transverseDescriptor ∧
    TrackCreator.DefineTrackPfoUsage sampleFloatOps smallGeometry sampleSettings
        TrackCreator.initial { positiveCurvatureTrack with hits := [⟨4, 0, 1⟩, ⟨5, 0, 3⟩] }
        transverseDescriptor
      = TrackCreator.DefineTrackPfoUsage sampleFloatOps smallGeometry sampleSettings
          TrackCreator.initial { positiveCurvatureTrack with hits := [⟨5, 0, 3⟩, ⟨4, 0, 1⟩] }
          transverseDescriptor :=
  flags_independent_of_hit_order sampleFloatOps smallGeometry sampleSettings
    TrackCreator.initial true positiveCurvatureTrack transverseDescriptor
    [⟨4, 0, 1⟩, ⟨5, 0, 3⟩] [⟨5, 0, 3⟩, ⟨4, 0, 1⟩] (List.Perm.swap _ _ _)

/-! ### Reflection of the z axis -/

/-- The sample square root of 25. -/
theorem sqrtSearch_25 : sqrtSearch 32 25 = 5 := by
  norm_num [sqrtSearch]

/-- C29, failing input: in the small detector (outer-endcap layer at z 24) a track with the one
hit (4, 0, 30) and momentum (4, 0, 3) is classified as reaching the calorimeter, by the test
hitZMax > minEtdZPosition; its mirror image, with the hit (4, 0, -30) and momentum (4, 0, -3),
is classified as not reaching it. -/
theorem trackReachesECAL_mirror_differs :
    (TrackCreator.TrackReachesECAL sampleFloatOps smallGeometry sampleSettings true
        (hitTrack [⟨4, 0, 30⟩]) (momentumOnly ⟨4, 0, 3⟩)).2
      = Except.ok { momentumOnly ⟨4, 0, 3⟩ with m_reachesECal := some true } ∧
    (TrackCreator.TrackReachesECAL sampleFloatOps smallGeometry sampleSettings true
        (hitTrack [⟨4, 0, -30⟩]) (momentumOnly ⟨4, 0, -3⟩)).2
      = Except.ok { momentumOnly ⟨4, 0, -3⟩ with m_reachesECal := some false } := by
  constructor
  · norm_num [TrackCreator.TrackReachesECAL, TrackCreator.geometryIsValid, smallGeometry,
      TrackCreator.reachDecision, minElement, TrackCreator.hitLoop, TrackCreator.hitStep,
      hitTrack, momentumOnly, inputGet, sampleSettings, CartesianVector.GetMagnitude,
      sampleFloatOps, sqrtSearch_0, sqrtSearch_1, sqrtSearch_16, sqrtSearch_25, sqrtSearch_493,
      FLT_MAX, TrackCreator.rethrowInvalidParameter, floatDiv, FloatValue.lt]
  · norm_num [TrackCreator.TrackReachesECAL, TrackCreator.geometryIsValid, smallGeometry,
      TrackCreator.reachDecision, minElement, TrackCreator.hitLoop, TrackCreator.hitStep,
      hitTrack, momentumOnly, inputGet, sampleSettings, CartesianVector.GetMagnitude,
      CartesianVector.GetMagnitudeSquared,
      sampleFloatOps, sqrtSearch_0, sqrtSearch_1, sqrtSearch_16, sqrtSearch_25, sqrtSearch_493,
      FLT_MAX, TrackCreator.rethrowInvalidParameter, floatDiv, FloatValue.lt]

end MarlinPandora
